import Mathlib

/-!
# Verification of the Arrow entity-component-system (`src/ecs.h`)

This development gives a shallow embedding, in Lean 4, of the data model and
operations of the Arrow ECS runtime (single C++ header `src/ecs.h` plus the
demonstration driver `src/src/main.cpp`), and settles the frozen claims about
it.

Modelling conventions, used throughout:

* Machine bytes are natural numbers (well-formedness predicates bound them by
  256 where it matters); byte buffers (`std::vector<uint8_t>`) are `List ℕ`.
* `size_t` values are natural numbers; where the code relies on two's
  complement wrap-around of `size_t` (the `-1` sentinel of the index maps and
  the `+= offset` adjustment in `ComponentManager::setComponent`) the model
  computes modulo `2 ^ 64` explicitly.  `SENTINEL` is `(size_t)(-1)`.
* `std::memcpy` of a `size_t` is modelled as a little-endian 8-byte image
  (`encNat`/`decNat`), matching the layout on the targets the header is
  compiled for.
* `entity` (`uint32_t`) ids and counters are naturals; subtraction sites are
  noted where the source could wrap below zero.
* `float` priorities are modelled as `Int`: the code only ever compares
  priorities with `>`, and IEEE floats (no NaNs) form a linear order, so any
  linearly ordered carrier represents the comparison behaviour.
* Type registration (`ComponentType<T>::id`, `SystemType<T>::id`) happens in
  C++ during static initialisation, before any `ecs` object exists.  The model
  therefore fixes the number of component types `C` up front (component id 0
  is `bool`, the built-in active flag, exactly as the facade uses it) and
  assumes each *system* type is first referenced by the `createSystem` call
  that creates it, so that a new system's id equals the number of systems
  created so far.  (If systems were created out of registration order the
  C++ insertion would read uninitialised `priority` memory.)
-/

/-- `(size_t)(-1)`, the absent marker of every index map. -/
def SENTINEL : ℕ := 2 ^ 64 - 1

/-- `2 ^ 64`, the modulus of `size_t` arithmetic. -/
def U64 : ℕ := 2 ^ 64

/-- Little-endian `w`-byte image of an unsigned integer, as written by
`std::memcpy(&stream[index], &value, w)` on the little-endian targets the
header is built for. -/
def encW (w n : ℕ) : List ℕ := (List.range w).map (fun j => n / 256 ^ j % 256)

/-- Reading a `w`-byte little-endian unsigned integer back from a buffer at
offset `i` (the `reinterpret_cast` of `object::deserialize` for a trivially
copyable `w`-byte integer). -/
def decW (w : ℕ) (s : List ℕ) (i : ℕ) : ℕ :=
  ∑ j ∈ Finset.range w, s.getD (i + j) 0 * 256 ^ j

/-- The 8-byte image of a `size_t` value. -/
def encNat (n : ℕ) : List ℕ := encW 8 n

/-- `object::deserialize<size_t>`: reading a `size_t` at offset `i`. -/
def decNat (s : List ℕ) (i : ℕ) : ℕ := decW 8 s i

theorem encW_length (w n : ℕ) : (encW w n).length = w := by
  simp [encW]

theorem encNat_length (n : ℕ) : (encNat n).length = 8 := encW_length 8 n

theorem getD_encW (w n j : ℕ) (h : j < w) :
    (encW w n).getD j 0 = n / 256 ^ j % 256 := by
  rw [encW, List.getD_eq_getElem _ _ (by simpa using h)]
  simp

/-- Base-256 digit reconstruction: summing the first `k` digits of `n`
recovers `n % 256 ^ k`. -/
theorem sum_digits_mod (n : ℕ) :
    ∀ k, ∑ j ∈ Finset.range k, n / 256 ^ j % 256 * 256 ^ j = n % 256 ^ k := by
  intro k
  induction k with
  | zero => simp [Nat.mod_one]
  | succ k ih =>
      rw [Finset.sum_range_succ, ih]
      have hq : n / 256 ^ k = 256 * (n / 256 ^ k / 256) + n / 256 ^ k % 256 :=
        (Nat.div_add_mod _ _).symm ▸ by omega
      have hlt : n % 256 ^ k + n / 256 ^ k % 256 * 256 ^ k < 256 ^ (k + 1) := by
        have h1 : n % 256 ^ k < 256 ^ k := Nat.mod_lt _ (Nat.pos_pow_of_pos _ (by norm_num))
        have h2 : n / 256 ^ k % 256 ≤ 255 := by
          have := Nat.mod_lt (n / 256 ^ k) (show 0 < 256 by norm_num)
          omega
        have h3 : n / 256 ^ k % 256 * 256 ^ k ≤ 255 * 256 ^ k :=
          Nat.mul_le_mul_right _ h2
        have : 256 ^ (k + 1) = 256 * 256 ^ k := by ring
        omega
      have hdecomp : n = n % 256 ^ k + n / 256 ^ k % 256 * 256 ^ k
          + 256 ^ (k + 1) * (n / 256 ^ k / 256) := by
        have h0 : n = 256 ^ k * (n / 256 ^ k) + n % 256 ^ k :=
          ((Nat.div_add_mod n (256 ^ k)).symm ▸ rfl)
        calc n = 256 ^ k * (n / 256 ^ k) + n % 256 ^ k := h0
          _ = 256 ^ k * (256 * (n / 256 ^ k / 256) + n / 256 ^ k % 256) + n % 256 ^ k := by
              rw [← hq]
          _ = n % 256 ^ k + n / 256 ^ k % 256 * 256 ^ k
              + 256 ^ (k + 1) * (n / 256 ^ k / 256) := by ring
      conv_rhs => rw [hdecomp]
      rw [Nat.add_mul_mod_self_left]
      exact (Nat.mod_eq_of_lt hlt).symm

/-- Decoding the bytes written by `encW` (at the exact offset where they were
placed) recovers the value modulo `256 ^ w`. -/
theorem decW_append (w : ℕ) (A B : List ℕ) (n : ℕ) :
    decW w (A ++ (encW w n ++ B)) A.length = n % 256 ^ w := by
  have h : ∀ j, j < w →
      (A ++ (encW w n ++ B)).getD (A.length + j) 0 = n / 256 ^ j % 256 := by
    intro j hj
    rw [List.getD_append_right _ _ _ _ (Nat.le_add_right _ _)]
    simp only [Nat.add_sub_cancel_left]
    rw [List.getD_append _ _ _ _ (by simpa [encW_length] using hj)]
    exact getD_encW w n j hj
  rw [decW]
  rw [Finset.sum_congr rfl (fun j hj => by
    rw [h j (Finset.mem_range.mp hj)])]
  exact sum_digits_mod n w

/-- `size_t` instance of `decW_append`. -/
theorem decNat_append (A B : List ℕ) (n : ℕ) :
    decNat (A ++ (encNat n ++ B)) A.length = n % U64 := by
  have := decW_append 8 A B n
  simpa [decNat, encNat, U64] using this

/-- A `decW` read is unaffected by bytes strictly before and at/after the
window it reads. -/
theorem decW_congr (w : ℕ) (s s' : List ℕ) (i : ℕ)
    (h : ∀ j, j < w → s'.getD (i + j) 0 = s.getD (i + j) 0) :
    decW w s' i = decW w s i := by
  unfold decW
  exact Finset.sum_congr rfl (fun j hj => by rw [h j (Finset.mem_range.mp hj)])

/-! ## The built-in encoding protocol (`object::length` / `object::serialize` /
`object::deserialize`, `Serialization<std::string>`, `Serialization<std::vector<T>>`)

`Ty` is the family of component value types whose encodings ship with the
header: trivially copyable scalars (a 1-byte `char` and a 4-byte `uint32_t`
stand in for the raw-`memcpy` case) and the two built-in variable encodings,
`std::string` and `std::vector<T>`, closed under nesting.  A value of a
variable type is written as an 8-byte length prefix followed by the
`Serialization<T>::serialize` payload; `object::deserialize` for a variable
type skips the prefix and calls `Serialization<T>::deserialize`. -/

inductive Ty
  | tchar
  | tu32
  | str
  | vec (t : Ty)
deriving DecidableEq

/-- The Lean carrier of each `Ty`: `char`/`uint32_t` values are naturals,
`std::string` is its byte list, `std::vector<T>` is a list of values. -/
@[reducible]
def Val : Ty → Type
  | .tchar => ℕ
  | .tu32 => ℕ
  | .str => List ℕ
  | .vec t => List (Val t)

/-- `object::length` (ecs.h:106-116): `sizeof(T)` for trivially copyable
types, `Serialization<T>::length(v) + sizeof(size_t)` otherwise.
`Serialization<std::string>::length` is `size() + sizeof(size_t)`
(ecs.h:2010-2013) and `Serialization<std::vector<T>>::length` is the sum of
the elements' `object::length` plus `sizeof(size_t)` (ecs.h:2057-2067). -/
def objLen : (t : Ty) → Val t → ℕ
  | .tchar, _ => 1
  | .tu32, _ => 4
  | .str, s => (s.length + 8) + 8
  | .vec t, vs => ((vs.map (objLen t)).sum + 8) + 8

/-- The byte image written by `object::serialize<T>(v, stream, i, object::length v)`
(ecs.h:128-140): a raw `memcpy` for trivially copyable types; for variable
types the 8-byte length prefix followed by the `Serialization<T>::serialize`
payload — `std::string` writes its size then its characters (ecs.h:2015-2028),
`std::vector<T>` writes its size then each element through
`object::serialize<T>` (ecs.h:2069-2085). -/
def objSer : (t : Ty) → Val t → List ℕ
  | .tchar, c => [c]
  | .tu32, n => encW 4 n
  | .str, s => encNat ((s.length + 8) + 8) ++ (encNat s.length ++ s)
  | .vec t, vs =>
      encNat (((vs.map (objLen t)).sum + 8) + 8) ++
        (encNat vs.length ++ (vs.map (objSer t)).flatten)

/-- The element loop of `Serialization<std::vector<T>>::deserialize`
(ecs.h:2087-2102): decode an element at `base + count`, then advance `count`
by the decoded element's `object::length`. -/
def deserLoop {α : Type} (f : List ℕ → ℕ → α) (ln : α → ℕ) (s : List ℕ)
    (base : ℕ) : ℕ → ℕ → List α
  | 0, _ => []
  | n + 1, count =>
      let v := f s (base + count)
      v :: deserLoop f ln s base n (count + ln v)

/-- `object::deserialize<T>(stream, i)` (ecs.h:150-160): trivially copyable
types alias the bytes in place; variable types call
`Serialization<T>::deserialize(stream, i + sizeof(size_t))`, which for
`std::string` reads the size then the characters one `object::length<char>`
step at a time (ecs.h:2030-2046), and for `std::vector<T>` reads the size and
then runs the element loop. -/
def objDeser : (t : Ty) → List ℕ → ℕ → Val t
  | .tchar, s, i => s.getD i 0
  | .tu32, s, i => decW 4 s i
  | .str, s, i => (List.range (decNat s (i + 8))).map (fun j => s.getD (i + 16 + j) 0)
  | .vec t, s, i => deserLoop (objDeser t) (objLen t) s (i + 16) (decNat s (i + 8)) 0

/-- Well-formedness of a value for round-tripping: scalar values fit their
width, and every (possibly nested) sequence length fits in a `size_t`. -/
def wfVal : (t : Ty) → Val t → Bool
  | .tchar, c => decide (c < 256)
  | .tu32, n => decide (n < 2 ^ 32)
  | .str, s => decide (s.length < U64)
  | .vec t, vs => decide (vs.length < U64) && vs.all (fun v => wfVal t v)

theorem objSer_length : ∀ (t : Ty) (v : Val t), (objSer t v).length = objLen t v
  | .tchar, _ => rfl
  | .tu32, _ => by simp [objSer, objLen, encW_length]
  | .str, s => by simp [objSer, objLen, encNat_length]; omega
  | .vec t, vs => by
      simp only [objSer, objLen, List.length_append, encNat_length, List.length_flatten]
      have : (vs.map (objSer t)).map List.length = vs.map (objLen t) := by
        rw [List.map_map]
        exact List.map_congr_left (fun v _ => objSer_length t v)
      rw [List.map_map, show (List.length ∘ objSer t) = fun v => (objSer t v).length from rfl]
      have h2 : (vs.map fun v => (objSer t v).length) = vs.map (objLen t) :=
        List.map_congr_left (fun v _ => objSer_length t v)
      rw [h2]
      omega

theorem map_getD_range {α : Type} (l : List α) (d : α) :
    (List.range l.length).map (fun j => l.getD j d) = l := by
  apply List.ext_getElem
  · simp
  · intro i h1 h2
    simp only [List.getElem_map, List.getElem_range]
    exact List.getD_eq_getElem l d h2

/-- Element loop correctness: decoding the concatenated element images in
sequence recovers the element list, provided each element round-trips. -/
theorem deserLoop_spec (t : Ty) (B : List ℕ) :
    ∀ (vs : List (Val t)) (A : List ℕ) (count : ℕ) (base : ℕ),
      base + count = A.length →
      (∀ v ∈ vs, ∀ (A' B' : List ℕ),
        objDeser t (A' ++ (objSer t v ++ B')) A'.length = v) →
      deserLoop (objDeser t) (objLen t)
        (A ++ ((vs.map (objSer t)).flatten ++ B)) base vs.length count = vs := by
  intro vs
  induction vs with
  | nil => intro A count base h ihv; rfl
  | cons v vs ih =>
      intro A count base hbase ihv
      have hstream :
          A ++ (((v :: vs).map (objSer t)).flatten ++ B)
            = (A ++ objSer t v) ++ ((vs.map (objSer t)).flatten ++ B) := by
        simp [List.append_assoc]
      simp only [List.length_cons, deserLoop]
      have hv : objDeser t (A ++ (((v :: vs).map (objSer t)).flatten ++ B))
          (base + count) = v := by
        rw [hbase, hstream]
        have := ihv v (List.mem_cons_self v vs) A ((vs.map (objSer t)).flatten ++ B)
        simpa [List.append_assoc] using this
      rw [hv]
      congr 1
      have hlen : base + (count + objLen t v) = (A ++ objSer t v).length := by
        rw [List.length_append, objSer_length, ← hbase]; omega
      have := ih (A ++ objSer t v) (count + objLen t v) base hlen
        (fun w hw A' B' => ihv w (List.mem_cons_of_mem v hw) A' B')
      rw [hstream]
      exact this

/-- **C8** (`algebraic_relational`): round-trip of the built-in encodings —
for every type of the built-in family (trivially copyable scalars,
`std::string`, and arbitrarily nested `std::vector`s of encodable element
types) and every well-formed value `v`, deserializing the buffer at the
offset where `v` was serialized yields a value equal to `v`
(`decode(encode(v)) == v`), whatever bytes surround the image.  (For a
user-*registered* type the property additionally assumes the user's
`length`/`serialize`/`deserialize` functions are mutually inverse; the
built-in machinery, proved here, preserves it compositionally.) -/
theorem C8_decode_encode_roundtrip : ∀ (t : Ty) (v : Val t), wfVal t v = true →
    ∀ (A B : List ℕ), objDeser t (A ++ (objSer t v ++ B)) A.length = v := by
  intro t
  induction t with
  | tchar =>
      intro c _ A B
      simp only [objDeser, objSer]
      rw [List.getD_append_right _ _ _ _ (Nat.le_refl _), Nat.sub_self]
      rfl
  | tu32 =>
      intro n hw A B
      simp only [objDeser, objSer]
      rw [decW_append]
      exact Nat.mod_eq_of_lt (by simpa [wfVal] using hw)
  | str =>
      intro s hw A B
      have hwl : s.length < U64 := by simpa [wfVal] using hw
      simp only [objDeser, objSer]
      have hsize : decNat (A ++ ((encNat ((s.length + 8) + 8) ++ (encNat s.length ++ s)) ++ B))
          (A.length + 8) = s.length := by
        have hre : A ++ ((encNat ((s.length + 8) + 8) ++ (encNat s.length ++ s)) ++ B)
            = (A ++ encNat ((s.length + 8) + 8)) ++ (encNat s.length ++ (s ++ B)) := by
          simp [List.append_assoc]
        rw [hre, show A.length + 8 = (A ++ encNat ((s.length + 8) + 8)).length by
          simp [encNat_length]]
        rw [decNat_append]
        exact Nat.mod_eq_of_lt hwl
      rw [hsize]
      have hchar : ∀ j, j < s.length →
          (A ++ ((encNat ((s.length + 8) + 8) ++ (encNat s.length ++ s)) ++ B)).getD
            (A.length + 16 + j) 0 = s.getD j 0 := by
        intro j hj
        have hre : A ++ ((encNat ((s.length + 8) + 8) ++ (encNat s.length ++ s)) ++ B)
            = ((A ++ encNat ((s.length + 8) + 8)) ++ encNat s.length) ++ (s ++ B) := by
          simp [List.append_assoc]
        rw [hre]
        have hlen : ((A ++ encNat ((s.length + 8) + 8)) ++ encNat s.length).length
            = A.length + 16 := by simp [encNat_length]
        rw [List.getD_append_right _ _ _ _ (by omega)]
        rw [hlen, show A.length + 16 + j - (A.length + 16) = j by omega]
        exact List.getD_append _ _ _ _ hj
      calc (List.range s.length).map
            (fun j => (A ++ ((encNat ((s.length + 8) + 8) ++ (encNat s.length ++ s)) ++ B)).getD
              (A.length + 16 + j) 0)
          = (List.range s.length).map (fun j => s.getD j 0) := by
            apply List.map_congr_left
            intro j hj
            exact hchar j (List.mem_range.mp hj)
        _ = s := map_getD_range s 0
  | vec t ih =>
      intro vs hw A B
      have hwv : vs.length < U64 ∧ ∀ v ∈ vs, wfVal t v = true := by
        constructor
        · have := hw; simp only [wfVal, Bool.and_eq_true, decide_eq_true_eq] at this
          exact this.1
        · have := hw; simp only [wfVal, Bool.and_eq_true, List.all_eq_true] at this
          exact fun v hv => this.2 v hv
      simp only [objDeser, objSer]
      have hsize : decNat
          (A ++ ((encNat (((vs.map (objLen t)).sum + 8) + 8) ++
            (encNat vs.length ++ (vs.map (objSer t)).flatten)) ++ B)) (A.length + 8)
          = vs.length := by
        have hre : A ++ ((encNat (((vs.map (objLen t)).sum + 8) + 8) ++
              (encNat vs.length ++ (vs.map (objSer t)).flatten)) ++ B)
            = (A ++ encNat (((vs.map (objLen t)).sum + 8) + 8)) ++
                (encNat vs.length ++ ((vs.map (objSer t)).flatten ++ B)) := by
          simp [List.append_assoc]
        rw [hre, show A.length + 8 = (A ++ encNat (((vs.map (objLen t)).sum + 8) + 8)).length by
          simp [encNat_length]]
        rw [decNat_append]
        exact Nat.mod_eq_of_lt hwv.1
      rw [hsize]
      have hre2 : A ++ ((encNat (((vs.map (objLen t)).sum + 8) + 8) ++
            (encNat vs.length ++ (vs.map (objSer t)).flatten)) ++ B)
          = ((A ++ encNat (((vs.map (objLen t)).sum + 8) + 8)) ++ encNat vs.length) ++
              ((vs.map (objSer t)).flatten ++ B) := by
        simp [List.append_assoc]
      rw [hre2]
      have hbase : ((A ++ encNat (((vs.map (objLen t)).sum + 8) + 8)) ++ encNat vs.length).length
          = A.length + 16 := by simp [encNat_length]
      rw [show A.length + 16
          = ((A ++ encNat (((vs.map (objLen t)).sum + 8) + 8)) ++ encNat vs.length).length + 0 by
        omega]
      exact deserLoop_spec t B vs _ 0 _ (by omega)
        (fun v hv A' B' => ih v (hwv.2 v hv) A' B')

/-! ## Byte pools: `ecs::ComponentArray` and `ecs::ComponentManager`

`std::vector<uint8_t>` pools are `List ℕ`.  `std::vector::resize` and the
`std::memcpy` calls of the source become the functional `listResize` /
`memcpyList` below (the source's self-`memcpy`s copy from a snapshot
(`object::resize` takes an explicit copy) or move bytes towards lower
addresses, so snapshot semantics coincide with the C++ behaviour). -/

/-- `std::vector::resize(n)`: truncate, or zero-extend. -/
def listResize (s : List ℕ) (n : ℕ) : List ℕ :=
  s.take n ++ List.replicate (n - s.length) 0

/-- `std::memcpy(&dst[dpos], src, src.length)` where `src` is the byte block
being copied. -/
def memcpyList (dst : List ℕ) (dpos : ℕ) (src : List ℕ) : List ℕ :=
  dst.take dpos ++ src ++ dst.drop (dpos + src.length)

/-- `object::resize<T>` for a non-trivially-copyable `T` (ecs.h:175-195):
read the stored length prefix, compute the `size_t` difference
`offset = length - original` (wrapping), and shift the bytes after the prefix
region to grow or shrink the occupied range.  Returns the new stream and
`offset`.  For trivially copyable `T` the source (ecs.h:169-173) returns `0`
and leaves the stream alone; callers use `objResizeTriv`. -/
def objResize (length : ℕ) (stream : List ℕ) (index : ℕ) : List ℕ × ℕ :=
  let original := decNat stream index
  let offset := (length + U64 - original) % U64
  if original < length then
    let s1 := listResize stream (stream.length + (length - original))
    (memcpyList s1 (index + length)
      ((stream.drop (index + original)).take (stream.length - (index + original))), offset)
  else if length < original then
    let s1 := memcpyList stream (index + length)
      ((stream.drop (index + original)).take (stream.length - (index + original)))
    (listResize s1 (s1.length - (original - length)), offset)
  else
    (stream, offset)

/-- One per-type pool (`ecs::ComponentArray`, ecs.h:877-988): the flag byte
written by the constructor (`!complexity`, i.e. `1` iff the type is *not*
trivially copyable), one zeroed default slot of `componentSize` bytes, then
the packed records. -/
structure ComponentArray where
  componentSize : ℕ
  m_components : List ℕ
deriving Repr, DecidableEq

instance : Inhabited ComponentArray := ⟨⟨0, []⟩⟩

namespace ComponentArray

/-- The constructor `ComponentArray(size, complexity)` (ecs.h:887-892);
`complexity` is `std::is_trivially_copyable<T>`. -/
def init (size : ℕ) (complexity : Bool) : ComponentArray :=
  { componentSize := size,
    m_components := (if complexity then 0 else 1) :: List.replicate size 0 }

/-- `complex()` (ecs.h:923-926): the flag byte, `true` iff the stored type is
not trivially copyable. -/
def complex (ca : ComponentArray) : Bool := ca.m_components.getD 0 0 ≠ 0

/-- `overwrite(index)` (ecs.h:900-916): remove the record at `index` (length
prefix + 8 for complex types, `componentSize` otherwise), shifting the tail
left and shrinking the pool; returns the removed byte count. -/
def overwrite (ca : ComponentArray) (index : ℕ) : ComponentArray × ℕ :=
  let offset := if ca.complex then decNat ca.m_components index + 8 else ca.componentSize
  let moved := memcpyList ca.m_components index
    ((ca.m_components.drop (index + offset)).take
      (ca.m_components.length - (index + offset)))
  ({ ca with m_components := moved.take (ca.m_components.length - offset) }, offset)

/-- `addComponent` for a trivially copyable type (ecs.h:1896-1919): a
`DoubleInsert` (error 1) leaves everything unchanged; otherwise the raw bytes
are appended and the entity's index becomes the old pool size.  Returns
`(array, new index, error?)`. -/
def addComponentTriv (ca : ComponentArray) (index : ℕ) (bytes : List ℕ) :
    ComponentArray × ℕ × Bool :=
  if index ≠ SENTINEL then (ca, index, true)
  else ({ ca with m_components := ca.m_components ++ bytes },
    ca.m_components.length, false)

/-- `addComponent` for a non-trivially-copyable type (ecs.h:1921-1945):
append the 8-byte `Serialization<T>::length` prefix and the serialized
payload. -/
def addComponentCompl (ca : ComponentArray) (index : ℕ) (serBytes : List ℕ) :
    ComponentArray × ℕ × Bool :=
  if index ≠ SENTINEL then (ca, index, true)
  else ({ ca with m_components :=
      ca.m_components ++ (encNat serBytes.length ++ serBytes) },
    ca.m_components.length, false)

/-- `setComponent(index, update)` (ecs.h:1978-1994): an absent record (error
2) returns offset `0`; otherwise `object::resize<T>` shifts the tail by the
`size_t` difference between `object::length(update)` and the stored prefix,
and the new record image `newRec` (`object::serialize`, `newRec.length =
object::length(update)`) is written at `index`.  For trivially copyable types
the resize is the no-op returning `0`. -/
def setComponent (ca : ComponentArray) (index : ℕ) (newRec : List ℕ) :
    ComponentArray × ℕ × Bool :=
  if index = SENTINEL then (ca, 0, true)
  else
    let (s1, offset) :=
      if ca.complex then objResize newRec.length ca.m_components index
      else (ca.m_components, 0)
    ({ ca with m_components := memcpyList s1 index newRec }, offset, false)

end ComponentArray

/-- `ecs::ComponentManager` (ecs.h:997-1278): one pool and one index map per
component type.  All component types are registered during static
initialisation (see the header comment), so the number of types is fixed at
construction. -/
structure ComponentManager where
  m_componentArrays : List ComponentArray
  m_indexMaps : List (List ℕ)
deriving Repr, DecidableEq

namespace ComponentManager

/-- The constructor (ecs.h:1013-1020): `idCount` pools built from the
per-type size/`is_trivially_copyable` buffers, and `idCount` index maps each
sized to the current entity count (`std::vector<size_t>(n)` zero-fills). -/
def init (space : List ℕ) (triv : List Bool) (numberOfEntities : ℕ) : ComponentManager :=
  { m_componentArrays :=
      (List.range space.length).map
        (fun i => ComponentArray.init (space.getD i 0) (triv.getD i true)),
    m_indexMaps :=
      List.replicate space.length (List.replicate numberOfEntities 0) }

/-- `addEntity()` (ecs.h:1025-1031): push the `-1` sentinel onto every map. -/
def addEntity (cm : ComponentManager) : ComponentManager :=
  { cm with m_indexMaps := cm.m_indexMaps.map (fun m => m ++ [SENTINEL]) }

/-- `remove(id, index, e)` (ecs.h:1256-1270): drop the record from the pool,
set `e`'s entry to the sentinel, then decrement every non-sentinel entry
beyond `index` by the removed length. -/
def removeAt (cm : ComponentManager) (id index e : ℕ) : ComponentManager :=
  let (ca, offset) := (cm.m_componentArrays.getD id default).overwrite index
  let imap := (cm.m_indexMaps.getD id []).set e SENTINEL
  { cm with
    m_componentArrays := cm.m_componentArrays.set id ca,
    m_indexMaps := cm.m_indexMaps.set id
      (imap.map (fun p => if index < p ∧ p ≠ SENTINEL then p - offset else p)) }

/-- `removeEntity(e)` (ecs.h:1036-1046): strip every component `e` holds. -/
def removeEntity (cm : ComponentManager) (e : ℕ) : ComponentManager :=
  (List.range cm.m_indexMaps.length).foldl
    (fun cm id =>
      let index := (cm.m_indexMaps.getD id []).getD e SENTINEL
      if index = SENTINEL then cm else cm.removeAt id index e)
    cm

/-- `addComponent<T>(e, component)` (ecs.h:1083-1099): delegate to the pool,
then store the returned index for `e`.  `tr` says whether `T` is trivially
copyable; `bytes` is the `Serialization`-level byte image of the value.
Returns the manager and the `DoubleInsert` flag. -/
def addComponent (cm : ComponentManager) (t e : ℕ) (bytes : List ℕ) (tr : Bool) :
    ComponentManager × Bool :=
  let ca := cm.m_componentArrays.getD t default
  let imap := cm.m_indexMaps.getD t []
  let idx := imap.getD e SENTINEL
  let (ca', newIdx, err) :=
    if tr then ca.addComponentTriv idx bytes else ca.addComponentCompl idx bytes
  if err then (cm, true)
  else
    ({ cm with
        m_componentArrays := cm.m_componentArrays.set t ca',
        m_indexMaps := cm.m_indexMaps.set t (imap.set e newIdx) }, false)

/-- `share<T>(e, share)` (ecs.h:1108-1117): if `e` already holds the type,
remove its record first (`removeComponent`, which compacts the pool and
adjusts other entities' offsets), then alias `e`'s entry to the donor's
*current* entry. -/
def share (cm : ComponentManager) (t e donor : ℕ) : ComponentManager :=
  let idx := (cm.m_indexMaps.getD t []).getD e SENTINEL
  let cm1 := if idx ≠ SENTINEL then cm.removeAt t idx e else cm
  let imap1 := cm1.m_indexMaps.getD t []
  { cm1 with m_indexMaps := cm1.m_indexMaps.set t (imap1.set e (imap1.getD donor SENTINEL)) }

/-- `setComponent<T>(e, update)` (ecs.h:1214-1227): update the record, then
add the returned `size_t` offset to every entry greater than the record's
index — with *no* sentinel check, unlike `remove`.  The additions wrap
modulo `2 ^ 64` exactly as `size_t` does. -/
def setComponent (cm : ComponentManager) (t e : ℕ) (newRec : List ℕ) :
    ComponentManager × Bool :=
  let ca := cm.m_componentArrays.getD t default
  let imap := cm.m_indexMaps.getD t []
  let index := imap.getD e SENTINEL
  let (ca', offset, err) := ca.setComponent index newRec
  ({ cm with
      m_componentArrays := cm.m_componentArrays.set t ca',
      m_indexMaps := cm.m_indexMaps.set t
        (imap.map (fun p => if index < p then (p + offset) % U64 else p)) }, err)

/-- `containsComponent<T>(e)` (ecs.h:1177-1182). -/
def containsComponent (cm : ComponentManager) (t e : ℕ) : Bool :=
  (cm.m_indexMaps.getD t []).getD e SENTINEL ≠ SENTINEL

end ComponentManager

theorem memcpyList_spec (X Y src : List ℕ) (h : src.length ≤ Y.length) :
    memcpyList (X ++ Y) X.length src = X ++ (src ++ Y.drop src.length) := by
  unfold memcpyList
  rw [List.take_left, List.drop_append_eq_append_drop]
  simp [List.append_assoc]

theorem take_append_left (X Y : List ℕ) (n : ℕ) (h : n ≤ X.length) :
    (X ++ Y).take n = X.take n := List.take_append_of_le_length h

theorem drop_append_left (X Y : List ℕ) (n : ℕ) (h : n ≤ X.length) :
    (X ++ Y).drop n = X.drop n ++ Y := List.drop_append_of_le_length h



theorem memcpyList_length (dst : List ℕ) (dpos : ℕ) (src : List ℕ)
    (h : dpos + src.length ≤ dst.length) :
    (memcpyList dst dpos src).length = dst.length := by
  unfold memcpyList
  simp only [List.length_append, List.length_take, List.length_drop]
  omega

/-- The combined effect of `object::resize<T>` followed by the
`object::serialize` overwrite in `ComponentArray::setComponent`, for a
variable-size type: bytes before the record are kept, the new record image
replaces `[index, index + newRec.length)`, and everything from
`index + original` on shifts to sit right after the new image (`original` is
the stored length prefix). -/
theorem resize_serialize_spec (stream : List ℕ) (index orig : ℕ) (newRec : List ℕ)
    (hdec : decNat stream index = orig) (hle : index + orig ≤ stream.length) :
    memcpyList (objResize newRec.length stream index).1 index newRec
      = stream.take index ++ (newRec ++ stream.drop (index + orig)) := by
  have hidx : index ≤ stream.length := by omega
  have hsrc : ((stream.drop (index + orig)).take (stream.length - (index + orig)))
      = stream.drop (index + orig) := List.take_of_length_le (by simp)
  have hsrclen : (stream.drop (index + orig)).length = stream.length - (index + orig) := by
    simp
  rcases Nat.lt_trichotomy orig newRec.length with h1 | h1 | h1
  · -- grow: resize first (zero-extend), then shift the tail right
    have hobj : (objResize newRec.length stream index).1
        = memcpyList (stream ++ List.replicate (newRec.length - orig) 0)
            (index + newRec.length) (stream.drop (index + orig)) := by
      simp only [objResize, hdec, if_pos h1, hsrc]
      congr 1
      unfold listResize
      have ht := List.take_of_length_le
        (show stream.length ≤ stream.length + (newRec.length - orig) from by omega)
      rw [ht, show stream.length + (newRec.length - orig) - stream.length
        = newRec.length - orig from by omega]
    have hs1len : (stream ++ List.replicate (newRec.length - orig) 0).length
        = stream.length + (newRec.length - orig) := by simp
    have hnil : (stream ++ List.replicate (newRec.length - orig) 0).drop
        (index + newRec.length + (stream.drop (index + orig)).length) = [] := by
      apply List.drop_eq_nil_of_le
      simp only [List.length_append, List.length_replicate, List.length_drop]
      omega
    have hr1 : memcpyList (stream ++ List.replicate (newRec.length - orig) 0)
          (index + newRec.length) (stream.drop (index + orig))
        = (stream ++ List.replicate (newRec.length - orig) 0).take (index + newRec.length)
            ++ stream.drop (index + orig) := by
      unfold memcpyList
      rw [hnil]
      simp
    have htk : ((stream ++ List.replicate (newRec.length - orig) 0).take
        (index + newRec.length)).length = index + newRec.length := by
      rw [List.length_take, hs1len]
      omega
    rw [hobj, hr1]
    unfold memcpyList
    have e1 := take_append_left ((stream ++ List.replicate (newRec.length - orig) 0).take
        (index + newRec.length)) (stream.drop (index + orig)) index (by rw [htk]; omega)
    have e2 := take_append_left stream (List.replicate (newRec.length - orig) 0) index hidx
    have e3 := @List.drop_left' ℕ _ (stream.drop (index + orig)) _ htk
    rw [e1, List.take_take, min_eq_left (by omega), e2, e3]
    simp [List.append_assoc]
  · -- equal lengths: no resize, overwrite in place
    have hobj : (objResize newRec.length stream index).1 = stream := by
      simp only [objResize, hdec, h1]
      simp
    rw [hobj]
    unfold memcpyList
    rw [← h1]
    try simp [List.append_assoc]
  · -- shrink: shift the tail left, then truncate the stale suffix
    have hlt : index + newRec.length ≤ stream.length := by omega
    have hs1 : memcpyList stream (index + newRec.length) (stream.drop (index + orig))
        = (stream.take (index + newRec.length) ++ stream.drop (index + orig))
            ++ stream.drop (index + newRec.length + (stream.length - (index + orig))) := by
      unfold memcpyList
      rw [hsrclen]
      try simp [List.append_assoc]
    have hs1len : (memcpyList stream (index + newRec.length)
        (stream.drop (index + orig))).length = stream.length := by
      apply memcpyList_length
      rw [hsrclen]
      omega
    have hobj : (objResize newRec.length stream index).1
        = listResize (memcpyList stream (index + newRec.length) (stream.drop (index + orig)))
            ((memcpyList stream (index + newRec.length) (stream.drop (index + orig))).length
              - (orig - newRec.length)) := by
      simp only [objResize, hdec, if_neg (by omega : ¬ orig < newRec.length),
        if_pos h1, hsrc]
    have hfirstlen : (stream.take (index + newRec.length) ++ stream.drop (index + orig)).length
        = stream.length - (orig - newRec.length) := by
      simp only [List.length_append, List.length_take, List.length_drop]
      omega
    have hs2 : (objResize newRec.length stream index).1
        = stream.take (index + newRec.length) ++ stream.drop (index + orig) := by
      rw [hobj, hs1len]
      unfold listResize
      rw [hs1]
      have e4 := take_append_left
        (stream.take (index + newRec.length) ++ stream.drop (index + orig))
        (stream.drop (index + newRec.length + (stream.length - (index + orig))))
        (stream.length - (orig - newRec.length)) (by rw [hfirstlen])
      rw [e4]
      have e5 := List.take_of_length_le
        (show (stream.take (index + newRec.length) ++ stream.drop (index + orig)).length
          ≤ stream.length - (orig - newRec.length) from by rw [hfirstlen])
      rw [e5]
      have : (((stream.take (index + newRec.length) ++ stream.drop (index + orig))
          ++ stream.drop (index + newRec.length + (stream.length - (index + orig)))).length)
          = stream.length := by
        simp only [List.length_append, List.length_take, List.length_drop]
        omega
      rw [this]
      have e8 : List.replicate (stream.length - (orig - newRec.length) - stream.length)
          (0 : ℕ) = [] := by
        rw [List.replicate_eq_nil_iff]
        omega
      rw [e8]
      simp
    rw [hs2]
    unfold memcpyList
    have htk2 : (stream.take (index + newRec.length)).length = index + newRec.length := by
      rw [List.length_take]; omega
    have e6 := take_append_left (stream.take (index + newRec.length))
      (stream.drop (index + orig)) index (by rw [htk2]; omega)
    have e7 := @List.drop_left' ℕ _ (stream.drop (index + orig)) _ htk2
    rw [e6, List.take_take, min_eq_left (by omega), e7]
    simp [List.append_assoc]

theorem getD_set_ne {α : Type} (l : List α) (i j : ℕ) (a d : α) (h : i ≠ j) :
    (l.set i a).getD j d = l.getD j d := by
  simp [List.getD_eq_getElem?_getD, List.getElem?_set_ne h]

theorem getD_set_self {α : Type} (l : List α) (i : ℕ) (a d : α) (h : i < l.length) :
    (l.set i a).getD i d = a := by
  simp [List.getD_eq_getElem?_getD, List.getElem?_set_self, h]

theorem getD_map_lt {α β : Type} (f : α → β) (l : List α) (j : ℕ) (d : β) (e : α)
    (h : j < l.length) : (l.map f).getD j d = f (l.getD j e) := by
  rw [List.getD_eq_getElem _ _ (by simpa using h), List.getD_eq_getElem _ _ h]
  simp

theorem getD_take_lt {α : Type} (l : List α) (n m : ℕ) (d : α) (h : m < n) :
    (l.take n).getD m d = l.getD m d := by
  by_cases hm : m < l.length
  · rw [List.getD_eq_getElem _ _ (by simp; omega), List.getD_eq_getElem _ _ hm]
    simp
  · rw [List.getD_eq_default _ _ (by simp; omega), List.getD_eq_default _ _ (by omega)]

theorem getD_drop {α : Type} (l : List α) (n m : ℕ) (d : α) :
    (l.drop n).getD m d = l.getD (n + m) d := by
  by_cases hm : n + m < l.length
  · rw [List.getD_eq_getElem _ _ (by simp; omega), List.getD_eq_getElem _ _ hm]
    simp
  · rw [List.getD_eq_default _ _ (by simp; omega), List.getD_eq_default _ _ (by omega)]

/-- The `size_t` offset returned by `object::resize<T>` is the wrapped
difference `length - original`. -/
theorem objResize_offset (L : ℕ) (s : List ℕ) (i : ℕ) :
    (objResize L s i).2 = (L + U64 - decNat s i) % U64 := by
  unfold objResize
  by_cases h1 : decNat s i < L
  · simp [h1]
  · by_cases h2 : L < decNat s i
    · simp [h1, h2]
    · simp [h1, h2]

/-- `ComponentArray::overwrite` removes exactly the record's byte range:
the pool becomes `take index ++ drop (index + offset)`. -/
theorem overwrite_spec (ca : ComponentArray) (index offset : ℕ)
    (hoff : offset = if ca.complex then decNat ca.m_components index + 8 else ca.componentSize)
    (hle : index + offset ≤ ca.m_components.length) :
    ca.overwrite index
      = ({ ca with m_components :=
            ca.m_components.take index ++ ca.m_components.drop (index + offset) }, offset) := by
  unfold ComponentArray.overwrite
  rw [← hoff]
  dsimp only
  have hsrc : ((ca.m_components.drop (index + offset)).take
      (ca.m_components.length - (index + offset))) = ca.m_components.drop (index + offset) :=
    List.take_of_length_le (by simp)
  rw [hsrc]
  unfold memcpyList
  have hlen : (ca.m_components.take index ++ ca.m_components.drop (index + offset)).length
      = ca.m_components.length - offset := by
    simp only [List.length_append, List.length_take, List.length_drop]
    omega
  have hdroplen : (ca.m_components.drop (index + offset)).length
      = ca.m_components.length - (index + offset) := by simp
  rw [hdroplen]
  have e1 := @List.take_left' ℕ _
    (ca.m_components.drop (index + (ca.m_components.length - (index + offset)))) _ hlen
  have hassoc : ca.m_components.take index ++ ca.m_components.drop (index + offset) ++
        ca.m_components.drop (index + (ca.m_components.length - (index + offset)))
      = (ca.m_components.take index ++ ca.m_components.drop (index + offset)) ++
        ca.m_components.drop (index + (ca.m_components.length - (index + offset))) := by
    simp [List.append_assoc]
  rw [hassoc, e1]

/-- Characterisation of `ComponentManager::setComponent` on a variable-size
type: the pool keeps its prefix, carries the new record image at the same
index, and shifts the bytes from `index + original` on; every index-map entry
beyond `index` (sentinels included) is bumped by the wrapped `size_t`
difference. -/
theorem cmSetComponent_spec (cm : ComponentManager) (t e : ℕ) (newRec : List ℕ)
    (index orig : ℕ)
    (h1 : (cm.m_componentArrays.getD t default).complex = true)
    (h2 : (cm.m_indexMaps.getD t []).getD e SENTINEL = index)
    (h3 : index ≠ SENTINEL)
    (h4 : decNat (cm.m_componentArrays.getD t default).m_components index = orig)
    (h6 : index + orig ≤ (cm.m_componentArrays.getD t default).m_components.length) :
    cm.setComponent t e newRec
      = ({ cm with
          m_componentArrays := cm.m_componentArrays.set t
            { cm.m_componentArrays.getD t default with
              m_components :=
                (cm.m_componentArrays.getD t default).m_components.take index ++
                  (newRec ++ (cm.m_componentArrays.getD t default).m_components.drop
                    (index + orig)) },
          m_indexMaps := cm.m_indexMaps.set t
            ((cm.m_indexMaps.getD t []).map
              (fun p => if index < p
                then (p + (newRec.length + U64 - orig) % U64) % U64 else p)) },
        false) := by
  unfold ComponentManager.setComponent
  dsimp only
  rw [h2]
  unfold ComponentArray.setComponent
  rw [if_neg h3, h1]
  simp only [reduceIte]
  have hca := resize_serialize_spec (cm.m_componentArrays.getD t default).m_components
    index orig newRec h4 h6
  have hoff := objResize_offset newRec.length
    (cm.m_componentArrays.getD t default).m_components index
  rw [hca, hoff, h4]

/-- **C7** (`frame_effect`): for an entity `e` holding a variable-size
component of type `t` (index-map entry `index`, stored length prefix `orig`)
and any new value whose encoded image is `newRec` (of any length, in
particular one different from the stored one), `setComponent` reports no
error and: (a) every other component type's pool and index map are untouched;
(b) every record wholly before `index` keeps its offset and its exact bytes;
(c) every record past the old record keeps its exact bytes, shifted together
with its index-map entry by the length difference.  Only byte offsets shift;
no stored record's content changes. -/
theorem C7_setComponent_mutation_isolation
    (cm : ComponentManager) (t e : ℕ) (newRec : List ℕ) (index orig : ℕ)
    (htA : t < cm.m_componentArrays.length) (htM : t < cm.m_indexMaps.length)
    (h1 : (cm.m_componentArrays.getD t default).complex = true)
    (h2 : (cm.m_indexMaps.getD t []).getD e SENTINEL = index)
    (h3 : index ≠ SENTINEL)
    (h4 : decNat (cm.m_componentArrays.getD t default).m_components index = orig)
    (h6 : index + orig ≤ (cm.m_componentArrays.getD t default).m_components.length) :
    (cm.setComponent t e newRec).2 = false
    ∧ (∀ u, u ≠ t →
        (cm.setComponent t e newRec).1.m_componentArrays.getD u default
            = cm.m_componentArrays.getD u default
        ∧ (cm.setComponent t e newRec).1.m_indexMaps.getD u []
            = cm.m_indexMaps.getD u [])
    ∧ (∀ ee q len2, ee < (cm.m_indexMaps.getD t []).length →
        (cm.m_indexMaps.getD t []).getD ee SENTINEL = q → q + len2 ≤ index →
        ((cm.setComponent t e newRec).1.m_indexMaps.getD t []).getD ee SENTINEL = q
        ∧ ∀ j, j < len2 →
            ((cm.setComponent t e newRec).1.m_componentArrays.getD t default).m_components.getD
                (q + j) 0
              = (cm.m_componentArrays.getD t default).m_components.getD (q + j) 0)
    ∧ (∀ ee q, ee < (cm.m_indexMaps.getD t []).length →
        (cm.m_indexMaps.getD t []).getD ee SENTINEL = q →
        index < q → index + orig ≤ q → q + newRec.length - orig < U64 → orig < U64 →
        ((cm.setComponent t e newRec).1.m_indexMaps.getD t []).getD ee SENTINEL
            = q + newRec.length - orig
        ∧ ∀ j, ((cm.setComponent t e newRec).1.m_componentArrays.getD t default).m_components.getD
              (q + newRec.length - orig + j) 0
            = (cm.m_componentArrays.getD t default).m_components.getD (q + j) 0) := by
  rw [cmSetComponent_spec cm t e newRec index orig h1 h2 h3 h4 h6]
  set pool := (cm.m_componentArrays.getD t default).m_components with hpool
  set imap := cm.m_indexMaps.getD t [] with himap
  have hidxlen : index ≤ pool.length := by omega
  have htake : (pool.take index).length = index := by
    rw [List.length_take]; omega
  refine ⟨rfl, ?_, ?_, ?_⟩
  · intro u hu
    constructor
    · exact getD_set_ne _ t u _ _ (fun hh => hu hh.symm)
    · exact getD_set_ne _ t u _ _ (fun hh => hu hh.symm)
  · intro ee q len2 hee hq hbefore
    constructor
    · rw [getD_set_self _ t _ _ htM, getD_map_lt _ _ _ _ SENTINEL hee, hq,
        if_neg (by omega)]
    · intro j hj
      rw [getD_set_self _ t _ _ htA]
      show (pool.take index ++ (newRec ++ pool.drop (index + orig))).getD (q + j) 0
          = pool.getD (q + j) 0
      rw [List.getD_append _ _ _ _ (by rw [htake]; omega)]
      exact getD_take_lt pool index (q + j) 0 (by omega)
  · intro ee q hee hq hq1 hq2 hbound horigb
    constructor
    · rw [getD_set_self _ t _ _ htM, getD_map_lt _ _ _ _ SENTINEL hee, hq,
        if_pos hq1]
      show (q + (newRec.length + U64 - orig) % U64) % U64 = q + newRec.length - orig
      have : orig ≤ q := by omega
      simp only [U64] at hbound horigb ⊢
      omega
    · intro j
      rw [getD_set_self _ t _ _ htA]
      show (pool.take index ++ (newRec ++ pool.drop (index + orig))).getD
          (q + newRec.length - orig + j) 0 = pool.getD (q + j) 0
      have hre : pool.take index ++ (newRec ++ pool.drop (index + orig))
          = (pool.take index ++ newRec) ++ pool.drop (index + orig) := by
        simp [List.append_assoc]
      rw [hre]
      have hlen2 : (pool.take index ++ newRec).length = index + newRec.length := by
        rw [List.length_append, htake]
      rw [List.getD_append_right _ _ _ _ (by rw [hlen2]; omega)]
      rw [hlen2, getD_drop]
      congr 1
      omega

/-- A concrete two-entity pool of one variable-size type: entity 0 holds an
empty string (record at 3), entity 1 holds a one-byte string (record at 19). -/
def cmC7 : ComponentManager :=
  ((((ComponentManager.init [2] [false] 0).addEntity.addEntity).addComponent
      0 0 (encNat 0) false).1.addComponent 0 1 (encNat 1 ++ [65]) false).1

/-- A replacement record image of a different encoded length (string "AB"). -/
def recC7 : List ℕ := encNat 10 ++ (encNat 2 ++ [65, 66])

theorem C7_setComponent_mutation_isolation_witness :
    (cmC7.setComponent 0 0 recC7).2 = false
    ∧ ((cmC7.setComponent 0 0 recC7).1.m_indexMaps.getD 0 []).getD 1 SENTINEL = 29
    ∧ ((cmC7.setComponent 0 0 recC7).1.m_componentArrays.getD 0 default).m_components.getD
          (29 + 5) 0
        = (cmC7.m_componentArrays.getD 0 default).m_components.getD (19 + 5) 0 := by
  have h := C7_setComponent_mutation_isolation cmC7 0 0 recC7 3 8
    (by decide) (by decide) (by decide) (by decide) (by decide) (by decide) (by decide)
  have hc := h.2.2.2 1 19 (by decide) (by decide) (by decide) (by decide)
    (by decide) (by decide)
  exact ⟨h.1, hc.1, hc.2 5⟩

/-- The state for the C3 failing input: entity 0 holds an empty string
(record at index 3), entity 1 holds nothing (its entry is the sentinel). -/
def cmC3 : ComponentManager :=
  (((ComponentManager.init [2] [false] 0).addEntity.addEntity).addComponent
      0 0 (encNat 0) false).1

/-- **C3** failing input (`code_bug`): `ComponentManager::setComponent`
(ecs.h:1221-1226) adds the `size_t` offset to *every* entry greater than the
record's index, without the sentinel check that `remove` (ecs.h:1263-1269)
performs.  Growing entity 0's empty-string record to the two-byte string
"AB" (prefix delta 10) therefore rewrites absent entity 1's sentinel to
`(SENTINEL + 10) mod 2^64 = 9`, and `containsComponent` then reports a
component entity 1 never held — the entity's bitmap bit is still false.
The claim's invariant (sentinel ⇔ bitmap bit clear) is the stated intent;
the missing guard in the code is the defect. -/
theorem C3_setComponent_corrupts_sentinel :
    (cmC3.m_indexMaps.getD 0 []).getD 1 SENTINEL = SENTINEL
    ∧ ((cmC3.setComponent 0 0 recC7).1.m_indexMaps.getD 0 []).getD 1 SENTINEL = 9
    ∧ (cmC3.setComponent 0 0 recC7).1.containsComponent 0 1 = true := by
  refine ⟨by decide, ?_, ?_⟩ <;> decide

/-- **C10** (`functional_correctness`): if the receiving entity already holds
the shared type, `ComponentManager::share` (ecs.h:1108-1117) first removes
the receiver's record — compacting the pool (its length shrinks by the
record's size) and adjusting other entities' offsets — and only then aliases
the receiver's entry to the donor's *current* (post-adjustment) entry, so the
two entries are equal afterwards (in every case). -/
theorem C10_share_removes_then_aliases
    (cm : ComponentManager) (t e donor : ℕ)
    (htM : t < cm.m_indexMaps.length)
    (he : e < (cm.m_indexMaps.getD t []).length)
    (hdonor : donor < (cm.m_indexMaps.getD t []).length) :
    (((cm.share t e donor).m_indexMaps.getD t []).getD e SENTINEL
        = ((cm.share t e donor).m_indexMaps.getD t []).getD donor SENTINEL)
    ∧ (∀ idx offset,
        (cm.m_indexMaps.getD t []).getD e SENTINEL = idx →
        idx ≠ SENTINEL →
        offset = (if (cm.m_componentArrays.getD t default).complex
          then decNat (cm.m_componentArrays.getD t default).m_components idx + 8
          else (cm.m_componentArrays.getD t default).componentSize) →
        idx + offset ≤ (cm.m_componentArrays.getD t default).m_components.length →
        t < cm.m_componentArrays.length →
        ((cm.share t e donor).m_componentArrays.getD t default).m_components.length
            = (cm.m_componentArrays.getD t default).m_components.length - offset
        ∧ (donor ≠ e →
            ((cm.share t e donor).m_indexMaps.getD t []).getD e SENTINEL
              = (if idx < (cm.m_indexMaps.getD t []).getD donor SENTINEL
                    ∧ (cm.m_indexMaps.getD t []).getD donor SENTINEL ≠ SENTINEL
                  then (cm.m_indexMaps.getD t []).getD donor SENTINEL - offset
                  else (cm.m_indexMaps.getD t []).getD donor SENTINEL))) := by
  constructor
  · unfold ComponentManager.share
    dsimp only
    set cm1 := if (cm.m_indexMaps.getD t []).getD e SENTINEL ≠ SENTINEL
      then cm.removeAt t ((cm.m_indexMaps.getD t []).getD e SENTINEL) e else cm with hcm1
    have hlen1 : cm1.m_indexMaps.length = cm.m_indexMaps.length := by
      rw [hcm1]
      by_cases hsent : (cm.m_indexMaps.getD t []).getD e SENTINEL ≠ SENTINEL
      · rw [if_pos hsent]
        unfold ComponentManager.removeAt
        simp
      · rw [if_neg hsent]
    have hlen2 : (cm1.m_indexMaps.getD t []).length
        = (cm.m_indexMaps.getD t []).length := by
      rw [hcm1]
      by_cases hsent : (cm.m_indexMaps.getD t []).getD e SENTINEL ≠ SENTINEL
      · rw [if_pos hsent]
        unfold ComponentManager.removeAt
        dsimp only
        rw [getD_set_self _ t _ _ htM]
        simp
      · rw [if_neg hsent]
    rw [getD_set_self _ t _ _ (by omega)]
    by_cases hde : donor = e
    · rw [hde]
    · rw [getD_set_self _ e _ _ (by omega),
        getD_set_ne _ e donor _ _ (Ne.symm hde)]
  · intro idx offset hidx hsent hoff hle htA
    unfold ComponentManager.share
    dsimp only
    rw [hidx, if_pos hsent]
    have hrm := overwrite_spec (cm.m_componentArrays.getD t default) idx offset hoff hle
    constructor
    · unfold ComponentManager.removeAt
      rw [hrm]
      dsimp only
      rw [getD_set_self _ t _ _ (by simpa using htA)]
      simp only [List.length_append, List.length_take, List.length_drop]
      omega
    · intro hde
      unfold ComponentManager.removeAt
      rw [hrm]
      dsimp only
      rw [getD_set_self _ t _ _ (by simpa using htM)]
      rw [getD_set_self cm.m_indexMaps t _ _ htM]
      have hmaplen : (((cm.m_indexMaps.getD t []).set e SENTINEL).map
          (fun p => if idx < p ∧ p ≠ SENTINEL then p - offset else p)).length
          = (cm.m_indexMaps.getD t []).length := by simp
      rw [getD_set_self _ e _ _ (by rw [hmaplen]; omega)]
      rw [getD_map_lt _ _ _ _ SENTINEL (by rw [List.length_set]; omega)]
      rw [getD_set_ne _ e donor _ _ (Ne.symm hde)]

theorem C10_share_removes_then_aliases_witness :
    (((cmC7.share 0 0 1).m_indexMaps.getD 0 []).getD 0 SENTINEL
      = ((cmC7.share 0 0 1).m_indexMaps.getD 0 []).getD 1 SENTINEL)
    ∧ ((cmC7.share 0 0 1).m_componentArrays.getD 0 default).m_components.length = 20 := by
  have h := C10_share_removes_then_aliases cmC7 0 0 1 (by decide) (by decide) (by decide)
  refine ⟨h.1, ?_⟩
  have h2 := h.2 3 16 (by decide) (by decide) (by decide) (by decide) (by decide)
  rw [h2.1]
  decide

theorem C8_decode_encode_roundtrip_witness :
    wfVal (.vec .str) [[65], [66, 67]] = true
    ∧ objDeser (.vec .str) ([9] ++ (objSer (.vec .str) [[65], [66, 67]] ++ [7])) 1
        = [[65], [66, 67]] :=
  ⟨by decide, C8_decode_encode_roundtrip (.vec .str) [[65], [66, 67]] (by decide) [9] [7]⟩

/-! ## Systems: `ecs::SystemSupplement` and `ecs::SystemManager`

The system store (`ecs::system`) carries the serialized singleton instance
and the callback-slot array; no claim depends on their contents, so a store
is represented by its `m_initialized` flag alone and `run`'s behaviour by
the priority/creation-tag sequence of the initialized slots it would invoke.
`SystemSupplement.created` is a ghost creation-sequence number standing in
for the back-patched `SystemType<T>::id` pointer, used only to state
tie-breaking; the source keeps the type→slot mapping correct by writing
`*m_supplements[i].index = i` as slots move. `setInsertion` is never called
in the modelled traces, so the default insertion policy (append, record
position) is built into `insert`. -/

structure SystemSupplement where
  priority : Int
  requirement : List ℕ
  indexMap : List ℕ
  entities : List ℕ
  created : ℕ
deriving Repr, DecidableEq

instance : Inhabited SystemSupplement := ⟨⟨0, [], [], [], 0⟩⟩

namespace SystemSupplement

/-- `SystemSupplement(numberOfEntities)` (ecs.h:1301-1311):
`std::vector<size_t>(n)` zero-fills the index map.  The C++ leaves
`priority` uninitialised; it is written before any read in the modelled
creation order, so the `0` here is never observed. -/
def init (numberOfEntities tag : ℕ) : SystemSupplement :=
  { priority := 0, requirement := [],
    indexMap := List.replicate numberOfEntities 0, entities := [], created := tag }

/-- The default insertion (ecs.h:1306-1310, via `insert`, ecs.h:1318-1321):
record the position, append the entity. -/
def insert (sup : SystemSupplement) (e : ℕ) : SystemSupplement :=
  { sup with indexMap := sup.indexMap.set e sup.entities.length,
             entities := sup.entities ++ [e] }

/-- `extract(e)` (ecs.h:1328-1338): swap-with-last removal.  The identical
inline code in `SystemManager::componentRemoved` (ecs.h:1495-1501) is this
same operation. -/
def extract (sup : SystemSupplement) (e : ℕ) : SystemSupplement :=
  let pos := sup.indexMap.getD e 0
  let last := sup.entities.getD (sup.entities.length - 1) 0
  { sup with
    entities := (sup.entities.set pos last).dropLast,
    indexMap := (sup.indexMap.set last pos).set e SENTINEL }

/-- `SystemManager::bitmapMatches(index, bitmap)` (ecs.h:1387-1401), read off
the supplement: an empty requirement never matches. -/
def bmMatches (sup : SystemSupplement) (bitmap : List Bool) : Bool :=
  !sup.requirement.isEmpty && sup.requirement.all (fun r => bitmap.getD r false)

/-- The bit-qualified overload (ecs.h:1411-1430): additionally the changed
bit must be one of the requirements. -/
def bmMatchesBit (sup : SystemSupplement) (bitmap : List Bool) (bit : ℕ) : Bool :=
  !sup.requirement.isEmpty && sup.requirement.all (fun r => bitmap.getD r false)
    && sup.requirement.contains bit

end SystemSupplement

/-- `ecs::SystemManager` (ecs.h:1346-1750).  Under the registration-order
assumption (header comment) the slot vectors grow by one in each
`createSystem`; slots of never-created system types would be inert
(uninitialised, empty requirement) and are not represented. -/
structure SystemManagerM where
  stores : List Bool
  supplements : List SystemSupplement
  functionIndex : ℕ
deriving Repr, DecidableEq

namespace SystemManagerM

/-- `addEntity()` (ecs.h:1446-1452): push the sentinel onto every system's
index map. -/
def addEntity (sm : SystemManagerM) : SystemManagerM :=
  let sups := sm.supplements.map
    (fun sup => { sup with indexMap := sup.indexMap ++ [SENTINEL] })
  { sm with supplements := sups }

/-- The loop of `ecs::addComponentConfiguration` (ecs.h:861-867) /
`setActive<T>` insert path: insert `e` into every system whose (non-empty)
requirement contains `bit` and is satisfied by `bitmap`. -/
def insertMatchingBit (sm : SystemManagerM) (e : ℕ) (bitmap : List Bool) (bit : ℕ) :
    SystemManagerM :=
  let sups := (List.range sm.supplements.length).foldl
    (fun l i => if (l.getD i default).bmMatchesBit bitmap bit
      then l.set i ((l.getD i default).insert e) else l)
    sm.supplements
  { sm with supplements := sups }

/-- The loop of `ecs::setActive(e, true)` (ecs.h:455-461): insert `e` into
every system whose requirement is satisfied by `bitmap`. -/
def insertMatching (sm : SystemManagerM) (e : ℕ) (bitmap : List Bool) : SystemManagerM :=
  let sups := (List.range sm.supplements.length).foldl
    (fun l i => if (l.getD i default).bmMatches bitmap
      then l.set i ((l.getD i default).insert e) else l)
    sm.supplements
  { sm with supplements := sups }

/-- `extractEntity(e, bitmap)` (ecs.h:1471-1480). -/
def extractEntity (sm : SystemManagerM) (e : ℕ) (bitmap : List Bool) : SystemManagerM :=
  let sups := (List.range sm.supplements.length).foldl
    (fun l i => if (l.getD i default).bmMatches bitmap
      then l.set i ((l.getD i default).extract e) else l)
    sm.supplements
  { sm with supplements := sups }

/-- `componentRemoved(e, bit, bitmap)` (ecs.h:1489-1504); the body inlines
exactly the swap-with-last removal of `SystemSupplement.extract`. -/
def componentRemoved (sm : SystemManagerM) (e bit : ℕ) (bitmap : List Bool) :
    SystemManagerM :=
  let sups := (List.range sm.supplements.length).foldl
    (fun l i => if (l.getD i default).bmMatchesBit bitmap bit
      then l.set i ((l.getD i default).extract e) else l)
    sm.supplements
  { sm with supplements := sups }

/-- `insertEntity(e, index)` (ecs.h:1460-1463). -/
def insertEntity (sm : SystemManagerM) (e : ℕ) (index : ℕ) : SystemManagerM :=
  let sups := sm.supplements.set index ((sm.supplements.getD index default).insert e)
  { sm with supplements := sups }

/-- The do-while binary search of `SystemManager::createSystem`
(ecs.h:1571-1594), entered with `total = index = id / 2`.  The `fuel`
argument only bounds the iteration count so the recursion is structural:
`index` at least halves every pass, so `index + 1` passes always suffice and
the fuel is never exhausted.  `total - step` is `uint32_t` arithmetic in the
source; reachable searches never go below zero (always-left bottoms out at
slot 0), matching truncated subtraction. -/
def csearchGo (prio : ℕ → Int) (p : Int) (id : ℕ) : ℕ → ℕ → ℕ → ℕ
  | 0, total, _ => total
  | fuel + 1, total, index =>
      let index2 := index / 2
      let total2 :=
        if prio total > p then total - (index2 + index % 2)
        else total + (index2 + index % 2) + (if index2 = 0 then id % 2 else 0)
      if index2 = 0 then total2 else csearchGo prio p id fuel total2 index2

/-- The `for(int i=id; i>total; i--) moveTo(i-1, i)` relocation loop
(ecs.h:1596-1600), on one of the two parallel vectors. -/
def shiftLoop {α : Type} [Inhabited α] (l : List α) (total : ℕ) : ℕ → List α
  | 0 => l
  | i + 1 =>
      if total < i + 1 then shiftLoop (l.set (i + 1) (l.getD i default)) total i
      else l

/-- `SystemManager::createSystem` (ecs.h:1565-1613) plus the preceding
`update` (one fresh slot for the type being created): binary-search the
insertion point, relocate the systems between it and the fresh slot, install
the new (still empty) system at `total` with its priority, and mark it
initialized.  Returns the slot (`id = total` after back-patching). -/
def createSystem (sm : SystemManagerM) (priority : Int) (numberOfEntities : ℕ) :
    SystemManagerM × ℕ :=
  let id := sm.supplements.length
  let stores1 := sm.stores ++ [false]
  let sups1 := sm.supplements ++ [SystemSupplement.init numberOfEntities id]
  let total := if id = 0 then 0
    else csearchGo (fun j => (sups1.getD j default).priority) priority id
      (id + 1) (id / 2) (id / 2)
  let stores2 := (shiftLoop stores1 total id).set total true
  let newSup := { SystemSupplement.init numberOfEntities id with priority := priority }
  let sups2 := (shiftLoop sups1 total id).set total newSup
  ({ sm with stores := stores2, supplements := sups2 }, total)

/-- `addRequirements<T, Args...>` (ecs.h:1996-2001, 1714-1749): append each
component id not already present to the slot's requirement list. -/
def addRequirements (sm : SystemManagerM) (slot : ℕ) (ids : List ℕ) : SystemManagerM :=
  let old := sm.supplements.getD slot default
  let req2 := ids.foldl
    (fun req c => if req.contains c then req else req ++ [c]) old.requirement
  { sm with supplements := sm.supplements.set slot { old with requirement := req2 } }

end SystemManagerM

/-- `ecs::EntityManager` (ecs.h:1759-1872). -/
structure EntityManagerM where
  m_entityCount : ℕ
  m_removedEntities : List ℕ
  m_componentBitmaps : List (List Bool)
deriving Repr, DecidableEq

namespace EntityManagerM

/-- `totalEntityCount()` (ecs.h:1863-1866). -/
def totalEntityCount (em : EntityManagerM) : ℕ :=
  em.m_entityCount + em.m_removedEntities.length

/-- `contains(e)` (ecs.h:1843-1846): only *creation* is checked — a removed
but not yet reissued id still passes. -/
def contains (em : EntityManagerM) (e : ℕ) : Bool :=
  decide (e < em.totalEntityCount)

/-- `createEntity()` (ecs.h:1769-1786): post-increment the live counter,
recycle the most recently removed id if any (else push a fresh zero bitmap
of width `idCount + 1`), and set the active (last) bit.  `C` is
`ComponentManager::idCount`. -/
def createEntity (em : EntityManagerM) (C : ℕ) : EntityManagerM × ℕ :=
  let e :=
    if em.m_removedEntities.isEmpty then em.m_entityCount
    else em.m_removedEntities.getLastD 0
  let removed2 :=
    if em.m_removedEntities.isEmpty then em.m_removedEntities
    else em.m_removedEntities.dropLast
  let bitmaps2 :=
    if em.m_removedEntities.isEmpty
    then em.m_componentBitmaps ++ [List.replicate (C + 1) false]
    else em.m_componentBitmaps
  let bitmaps3 := bitmaps2.set e ((bitmaps2.getD e []).set C true)
  ({ m_entityCount := em.m_entityCount + 1,
     m_removedEntities := removed2,
     m_componentBitmaps := bitmaps3 }, e)

/-- `removeEntity(e)` (ecs.h:1795-1801): reset the bitmap, push the id on
the recycle list, decrement the live counter.  The decrement is `uint32_t`
in the source and wraps when the counter is already 0 (see C5); natural
truncated subtraction agrees with it on every observation the claims make. -/
def removeEntity (em : EntityManagerM) (C : ℕ) (e : ℕ) : EntityManagerM :=
  { m_entityCount := em.m_entityCount - 1,
    m_removedEntities := em.m_removedEntities ++ [e],
    m_componentBitmaps := em.m_componentBitmaps.set e (List.replicate (C + 1) false) }

/-- `setComponentBit(e, index, bit)` (ecs.h:1810-1813). -/
def setComponentBit (em : EntityManagerM) (e index : ℕ) (bit : Bool) : EntityManagerM :=
  let bm := (em.m_componentBitmaps.getD e []).set index bit
  { em with m_componentBitmaps := em.m_componentBitmaps.set e bm }

/-- `getBitmap(e)` (ecs.h:1821-1824). -/
def getBitmap (em : EntityManagerM) (e : ℕ) : List Bool :=
  em.m_componentBitmaps.getD e []

/-- `entityActive(e)` (ecs.h:1832-1835): the bitmap's last bit. -/
def entityActive (em : EntityManagerM) (e : ℕ) : Bool :=
  (em.m_componentBitmaps.getD e []).getLastD false

end EntityManagerM

/-! ## The facade: `object::ecs`

The engine owns one manager of each kind plus the process-wide error code.
The static per-type registries (`spaceBuffer`, `complexBuffer`) are fixed at
construction, matching C++ static initialisation: `space`/`triv` list each
component type's `sizeof` and `is_trivially_copyable`; component id 0 is
`bool` (the built-in active flag, `sizeof` 1, trivially copyable).  Facade
operations take the `Serialization`-level byte image of the value being
stored, which is all the pools ever see of it. -/

structure Engine where
  C : ℕ
  space : List ℕ
  triv : List Bool
  err : ℕ
  em : EntityManagerM
  cm : ComponentManager
  sm : SystemManagerM
deriving Repr, DecidableEq

namespace Engine

/-- A fresh `ecs` (ecs.h:353-358): empty entity registry, all (statically
registered) component pools materialised for zero entities, no systems. -/
def init (space : List ℕ) (triv : List Bool) : Engine :=
  { C := space.length, space := space, triv := triv, err := 0,
    em := ⟨0, [], []⟩,
    cm := ComponentManager.init space triv 0,
    sm := ⟨[], [], 0⟩ }

/-- `ecs::addComponentConfiguration(e, id)` (ecs.h:856-868): set the bitmap
bit, then insert `e` into every system whose requirement contains `id` and
is now fully satisfied. -/
def addComponentConfiguration (g : Engine) (e t : ℕ) : Engine :=
  let em1 := g.em.setComponentBit e t true
  { g with em := em1, sm := g.sm.insertMatchingBit e (em1.getBitmap e) t }

/-- `ecs::addComponent<T>(e, component)` (ecs.h:555-588): invalid entity →
error 6, nothing else; otherwise the pool add (which records `DoubleInsert`
as error 1 and changes nothing if `e` already holds the type) — and then,
unconditionally, `addComponentConfiguration`. -/
def addComponent (g : Engine) (e t : ℕ) (bytes : List ℕ) : Engine :=
  if ¬ g.em.contains e then { g with err := 6 }
  else
    let res := g.cm.addComponent t e bytes (g.triv.getD t true)
    let g1 := { g with cm := res.1, err := if res.2 then 1 else g.err }
    g1.addComponentConfiguration e t

/-- `ecs::createEntity()` (ecs.h:368-380): the system and component
registries get one more index-map slot (their `update` calls are the
identity here because every type is registered before construction), the
entity registry allocates or recycles an id, and the built-in `bool` active
component (id 0, value `true`, image `[1]`) is attached through the normal
add-component path. -/
def createEntity (g : Engine) : Engine × ℕ :=
  let g1 := { g with sm := g.sm.addEntity, cm := g.cm.addEntity }
  let res := g1.em.createEntity g.C
  let g2 := { g1 with em := res.1 }
  (g2.addComponent res.2 0 [1], res.2)

/-- `ecs::removeEntity(e)` (ecs.h:390-403): `contains` guard (error 6), then
strip all components, extract from every matching system (the bitmap is
still intact at that point), then recycle the id. -/
def removeEntity (g : Engine) (e : ℕ) : Engine :=
  if ¬ g.em.contains e then { g with err := 6 }
  else
    { g with cm := g.cm.removeEntity e,
             sm := g.sm.extractEntity e (g.em.getBitmap e),
             em := g.em.removeEntity g.C e }

/-- `ecs::active(e)` (ecs.h:421-424) = `getComponent<bool>(e)`: the byte of
`e`'s `bool` record, or the zeroed default slot (byte at offset 1) on the
error paths (invalid entity / absent component). -/
def activeE (g : Engine) (e : ℕ) : Bool :=
  let pool := (g.cm.m_componentArrays.getD 0 default).m_components
  if ¬ g.em.contains e then pool.getD 1 0 ≠ 0
  else
    let idx := (g.cm.m_indexMaps.getD 0 []).getD e SENTINEL
    if idx = SENTINEL then pool.getD 1 0 ≠ 0 else pool.getD idx 0 ≠ 0

/-- `ecs::setActive(e, newState)` (ecs.h:435-467): guard (error 6); no-op if
the state is unchanged; else write the `bool` record through the reference
(the error path writes the default slot and records error 2), then insert
into every matching system (activation) or extract from every matching
system (deactivation).  Note: the bitmap's reserved active bit is *not*
touched. -/
def setActive (g : Engine) (e : ℕ) (newState : Bool) : Engine :=
  if ¬ g.em.contains e then { g with err := 6 }
  else if g.activeE e = newState then g
  else
    let idx := (g.cm.m_indexMaps.getD 0 []).getD e SENTINEL
    let ca := g.cm.m_componentArrays.getD 0 default
    let wpos := if idx = SENTINEL then 1 else idx
    let pool2 := ca.m_components.set wpos (if newState then 1 else 0)
    let cm1 := { g.cm with m_componentArrays :=
      g.cm.m_componentArrays.set 0 { ca with m_components := pool2 } }
    let g1 := { g with cm := cm1, err := if idx = SENTINEL then 2 else g.err }
    if newState then { g1 with sm := g1.sm.insertMatching e (g1.em.getBitmap e) }
    else { g1 with sm := g1.sm.extractEntity e (g1.em.getBitmap e) }

/-- `ecs::removeComponent<T>(e)` (ecs.h:689-705): guard (error 6); notify
the systems (`componentRemoved`, with the bit still set in the bitmap),
clear the bit, then remove the record from the pool.  If `e` does not hold
the type the read reports error 2 and the subsequent `remove` call runs on
the sentinel index — undefined behaviour in C++ (out-of-bounds `memcpy`);
the model leaves the pool unchanged on that path, which no modelled claim
exercises. -/
def removeComponent (g : Engine) (e t : ℕ) : Engine :=
  if ¬ g.em.contains e then { g with err := 6 }
  else
    let sm1 := g.sm.componentRemoved e t (g.em.getBitmap e)
    let em1 := g.em.setComponentBit e t false
    let idx := (g.cm.m_indexMaps.getD t []).getD e SENTINEL
    if idx = SENTINEL then { g with sm := sm1, em := em1, err := 2 }
    else { g with sm := sm1, em := em1, cm := g.cm.removeAt t idx e }

/-- `ecs::setComponent<T>(e, update)` (ecs.h:620-632): on an invalid entity
the source sets error 6 and then calls the component manager with
`(entity)-1`, indexing the map out of bounds (C++ UB); the model records the
error and stops.  Otherwise delegate (an absent record reports error 2). -/
def setComponent (g : Engine) (e t : ℕ) (newRec : List ℕ) : Engine :=
  if ¬ g.em.contains e then { g with err := 6 }
  else
    let res := g.cm.setComponent t e newRec
    { g with cm := res.1, err := if res.2 then 2 else g.err }

/-- `ecs::shareComponent<T>(e, share)` (ecs.h:597-611): guard on the
*receiver* only (error 6), delegate to `ComponentManager::share`, then run
the add-component configuration for the receiver. -/
def shareComponent (g : Engine) (e donor t : ℕ) : Engine :=
  if ¬ g.em.contains e then { g with err := 6 }
  else ({ g with cm := g.cm.share t e donor }).addComponentConfiguration e t

/-- `ecs::createSystem<T, Args...>(instance, priority)` (ecs.h:738-762):
insert the new system at its priority slot, append the requirement ids, then
scan every created entity and insert the active ones whose bitmaps match.
Returns the new system's slot. -/
def createSystem (g : Engine) (req : List ℕ) (priority : Int) : Engine × ℕ :=
  let res := g.sm.createSystem priority g.em.totalEntityCount
  let sm2 := res.1.addRequirements res.2 req
  let smF := (List.range g.em.totalEntityCount).foldl
    (fun sm i =>
      if g.em.entityActive i ∧ (sm.supplements.getD res.2 default).bmMatches (g.em.getBitmap i)
      then sm.insertEntity i res.2 else sm)
    sm2
  ({ g with sm := smF }, res.2)

/-- The invocation order of `run` (ecs.h:792-802, 1369-1378): slots in
array order, uninitialized stores skipped; each element is the invoked
system's (priority, creation tag). -/
def runOrder (g : Engine) : List (Int × ℕ) :=
  ((List.range g.sm.stores.length).filter (fun i => g.sm.stores.getD i false)).map
    (fun i => ((g.sm.supplements.getD i default).priority,
               (g.sm.supplements.getD i default).created))

/-- `ecs::containsComponent<T>(e)` (ecs.h:676-680). -/
def containsComponentE (g : Engine) (t e : ℕ) : Bool :=
  g.cm.containsComponent t e

end Engine

/-- One public facade call, with the argument data each call carries. -/
inductive Op where
  | createEntity
  | removeEntity (e : ℕ)
  | addComponent (e t : ℕ) (bytes : List ℕ)
  | removeComponent (e t : ℕ)
  | setComponent (e t : ℕ) (bytes : List ℕ)
  | shareComponent (e donor t : ℕ)
  | setActive (e : ℕ) (b : Bool)
  | createSystem (req : List ℕ) (p : Int)
deriving Repr, DecidableEq

/-- Executing one call against the engine. -/
def Engine.apply (g : Engine) : Op → Engine
  | .createEntity => (g.createEntity).1
  | .removeEntity e => g.removeEntity e
  | .addComponent e t bytes => g.addComponent e t bytes
  | .removeComponent e t => g.removeComponent e t
  | .setComponent e t bytes => g.setComponent e t bytes
  | .shareComponent e donor t => g.shareComponent e donor t
  | .setActive e b => g.setActive e b
  | .createSystem req p => (g.createSystem req p).1

/-- Executing a call sequence left to right. -/
def Engine.applyAll (g : Engine) (ops : List Op) : Engine := ops.foldl Engine.apply g

/-! ## Concrete facade scenarios

Engines built by short call sequences, used as counterexamples and failing
inputs.  Component configuration `[1]`, `[true]` is the minimal registry:
only the built-in `bool` active component (id 0).  `[1, 4] [true, true]`
adds one 4-byte trivially copyable component (id 1, e.g. `float`). -/

def gC1 : Engine :=
  ((((Engine.init [1] [true]).createEntity).1.setActive 0 false).createSystem [0] 0).1

/-- **C1** counterexample: create an entity, deactivate it with
`setActive(e, false)`, then create a system requiring component id 0.
`setActive` writes the `bool` component's value but never clears the
bitmap's reserved active bit (ecs.h:444-466), and the `createSystem` scan
(ecs.h:748-759) checks `entityActive` — the bitmap bit — so the deactivated
entity is inserted: it is in the matched list although `active(e)` is false,
refuting the membership equivalence. -/
theorem C1_cx_inactive_entity_matched :
    (gC1.sm.supplements.getD 0 default).requirement = [0]
    ∧ (0 ∈ (gC1.sm.supplements.getD 0 default).entities)
    ∧ gC1.activeE 0 = false := by
  refine ⟨by decide, by decide, by decide⟩

def gC2a : Engine := (((Engine.init [1] [true]).createSystem [0] 3).1.createSystem [0] 5).1

def gC2b : Engine := (gC2a.createSystem [0] 4).1

/-- **C2** counterexample: creating systems with priorities 3, 5 leaves the
array in *ascending* order (3 before 5), so `run` invokes the lower priority
first — the opposite of the claimed non-increasing order; and adding a third
system with priority 4 produces array order 4, 3, 5, which is sorted in
neither direction, so no sorted-order invariant survives three insertions. -/
theorem C2_cx_priority_order_violated :
    gC2a.runOrder = [(3, 0), (5, 1)]
    ∧ gC2b.runOrder = [(4, 2), (3, 0), (5, 1)]
    ∧ ¬ (gC2b.runOrder.map Prod.fst).Sorted (· ≥ ·)
    ∧ ¬ (gC2b.runOrder.map Prod.fst).Sorted (· ≤ ·) := by
  refine ⟨by decide, by decide, by decide, by decide⟩

def gC4 : Engine :=
  ((((Engine.init [1, 4] [true, true]).createSystem [1] 0).1.createEntity).1.addComponent
    0 1 [7, 7, 7, 7]).addComponent 0 1 [9, 9, 9, 9]

def gC4pre : Engine :=
  (((Engine.init [1, 4] [true, true]).createSystem [1] 0).1.createEntity).1.addComponent
    0 1 [7, 7, 7, 7]

/-- **C4** failing input (`code_bug`): entity 0 already holds component 1
and sits in the system requiring it.  A second `addComponent` records
`DoubleInsert` (error 1) and the pool add returns early, leaving the stored
bytes `[7,7,7,7]` untouched — but `ecs::addComponent` (ecs.h:567-568) still
runs `addComponentConfiguration`, so the matched-entity list becomes
`[0, 0]` and the entity-to-position map is overwritten, contradicting
"leaves the engine in its prior state". -/
theorem C4_doubleInsert_mutates_membership :
    gC4.err = 1
    ∧ (gC4.cm.m_componentArrays.getD 1 default).m_components
        = (gC4pre.cm.m_componentArrays.getD 1 default).m_components
    ∧ (gC4pre.sm.supplements.getD 0 default).entities = [0]
    ∧ (gC4.sm.supplements.getD 0 default).entities = [0, 0]
    ∧ (gC4.sm.supplements.getD 0 default).indexMap
        ≠ (gC4pre.sm.supplements.getD 0 default).indexMap := by
  refine ⟨by decide, by decide, by decide, by decide, by decide⟩

def gC5 : Engine := (((Engine.init [1] [true]).createEntity).1.removeEntity 0).removeEntity 0

/-- **C5** failing input (`code_bug`): after `createEntity(); removeEntity(0)`,
a second `removeEntity(0)` is *not* rejected — `EntityManager::contains`
(ecs.h:1843-1846) only checks `e < totalEntityCount()`, not whether the id
is currently removed — so no error is recorded, the id is pushed onto the
recycle list a second time (and the live counter is decremented again,
wrapping the `uint32_t`), after which the next two `createEntity()` calls
both return id 0. -/
theorem C5_double_remove_not_detected :
    gC5.err = 0
    ∧ gC5.em.m_removedEntities = [0, 0]
    ∧ (gC5.createEntity).2 = 0
    ∧ (((gC5.createEntity).1).createEntity).2 = 0 := by
  refine ⟨by decide, by decide, by decide, by decide⟩

def gC6 : Engine := ((((Engine.init [1] [true]).createEntity).1.removeEntity 0).createEntity).1

/-- **C6** counterexample: `ComponentManager::addEntity` (ecs.h:1025-1031)
pushes a sentinel on every index map at *every* `createEntity` call, even
when the entity registry recycles an id and `numberOfEntities()` does not
grow.  After create–remove–create the map of the (only, materialized)
component type has length 2 while `numberOfEntities()` is 1. -/
theorem C6_cx_indexmap_longer_than_entity_count :
    (gC6.cm.m_indexMaps.getD 0 []).length = 2
    ∧ gC6.em.totalEntityCount = 1
    ∧ (gC6.cm.m_indexMaps.getD 0 []).length ≠ gC6.em.totalEntityCount := by
  refine ⟨by decide, by decide, by decide⟩

def gC9 : Engine := ((Engine.init [1, 4] [true, true]).createEntity).1

/-- A trace exercising the C3 sentinel corruption before an id is recycled:
entity 1 is removed, a variable-size `setComponent` on entity 0 bumps the
removed entity's sentinel (ecs.h:1221-1226), and `createEntity` then hands
id 1 out again with the corrupted entry still in place. -/
def gC9b : Engine :=
  (((((((Engine.init [1, 32] [true, false]).createEntity).1.createEntity).1.addComponent
    0 1 (encNat 0)).removeEntity 1).setComponent 0 1
      (encNat 10 ++ (encNat 2 ++ [65, 66]))).createEntity).1

/-- **C9** counterexample (first part): `createEntity` itself attaches the
built-in `bool` active component (ecs.h:377), so immediately after it
returns — before any caller `addComponent` — `containsComponent<bool>(e)`
is already true; the claim's "no components for every type T" fails at
`T = bool`.  (Second part): a sentinel corrupted by the C3 defect survives
into a recycled id, so after remove–(variable-size set)–create the fresh
entity "contains" a component that was never added to it: the claim's
"only becomes true once that type is added" fails on such traces too. -/
theorem C9_cx_fresh_entity_contains_bool :
    gC9.containsComponentE 0 0 = true
    ∧ gC9.containsComponentE 1 0 = false
    ∧ gC9b.containsComponentE 1 1 = true := by
  refine ⟨by decide, by decide, by decide⟩

/-- **C2 amended**: for the first two `createSystem` calls the array — and
hence `run`'s invocation order — is kept in non-*decreasing* priority order,
ties keeping creation order (the new system is placed after an existing
equal-priority one); `(p, tag)` pairs record priority and creation index.
From the third insertion on the binary search can break the ordering
entirely (see the counterexample: priorities 3, 5, 4 end in array order
4, 3, 5), so no sorted-order invariant holds in general. -/
theorem C2_amended_two_system_run_order (p1 p2 : Int) :
    (((Engine.init [1] [true]).createSystem [0] p1).1.createSystem [0] p2).1.runOrder
      = if p1 > p2 then [(p2, 1), (p1, 0)] else [(p1, 0), (p2, 1)] := by
  by_cases h : p1 > p2
  · simp [Engine.init, Engine.createSystem, Engine.runOrder, SystemManagerM.createSystem,
      SystemManagerM.addRequirements, SystemManagerM.csearchGo, SystemManagerM.shiftLoop,
      SystemManagerM.insertEntity, EntityManagerM.totalEntityCount, h, SystemSupplement.init,
      List.range_succ]
  · simp [Engine.init, Engine.createSystem, Engine.runOrder, SystemManagerM.createSystem,
      SystemManagerM.addRequirements, SystemManagerM.csearchGo, SystemManagerM.shiftLoop,
      SystemManagerM.insertEntity, EntityManagerM.totalEntityCount, h, SystemSupplement.init,
      List.range_succ]

theorem getD_set_len {α : Type} (l : List (List α)) (i j : ℕ) (v : List α)
    (hv : v.length = (l.getD i []).length) :
    ((l.set i v).getD j []).length = (l.getD j []).length := by
  by_cases hij : i = j
  · subst hij
    by_cases hi : i < l.length
    · rw [getD_set_self _ _ _ _ hi, hv]
    · rw [List.set_eq_of_length_le (by omega)]
  · rw [getD_set_ne _ _ _ _ _ hij]

theorem removeAt_map_lengths (cm : ComponentManager) (id idx e : ℕ) :
    (cm.removeAt id idx e).m_indexMaps.length = cm.m_indexMaps.length
    ∧ ∀ t, ((cm.removeAt id idx e).m_indexMaps.getD t []).length
        = (cm.m_indexMaps.getD t []).length := by
  unfold ComponentManager.removeAt
  dsimp only
  exact ⟨by simp, fun t => getD_set_len _ _ _ _ (by simp)⟩

theorem cm_removeEntity_map_lengths (cm : ComponentManager) (e : ℕ) :
    (cm.removeEntity e).m_indexMaps.length = cm.m_indexMaps.length
    ∧ ∀ t, ((cm.removeEntity e).m_indexMaps.getD t []).length
        = (cm.m_indexMaps.getD t []).length := by
  unfold ComponentManager.removeEntity
  generalize (List.range cm.m_indexMaps.length) = idxs
  induction idxs generalizing cm with
  | nil => exact ⟨rfl, fun t => rfl⟩
  | cons i rest ih =>
      simp only [List.foldl_cons]
      set cm1 := (fun cm id =>
        let index := (cm.m_indexMaps.getD id []).getD e SENTINEL
        if index = SENTINEL then cm else cm.removeAt id index e) cm i with hcm1
      have hstep : cm1.m_indexMaps.length = cm.m_indexMaps.length
          ∧ ∀ t, ((cm1.m_indexMaps.getD t []).length = (cm.m_indexMaps.getD t []).length) := by
        rw [hcm1]
        dsimp only
        by_cases hs : (cm.m_indexMaps.getD i []).getD e SENTINEL = SENTINEL
        · rw [if_pos hs]; exact ⟨rfl, fun t => rfl⟩
        · rw [if_neg hs]; exact removeAt_map_lengths cm i _ e
      have := ih cm1
      exact ⟨this.1.trans hstep.1, fun t => (this.2 t).trans (hstep.2 t)⟩

theorem cm_addEntity_map_lengths (cm : ComponentManager) :
    cm.addEntity.m_indexMaps.length = cm.m_indexMaps.length
    ∧ ∀ t, t < cm.m_indexMaps.length →
        (cm.addEntity.m_indexMaps.getD t []).length
          = (cm.m_indexMaps.getD t []).length + 1 := by
  unfold ComponentManager.addEntity
  refine ⟨by simp, fun t ht => ?_⟩
  rw [getD_map_lt _ _ _ _ [] ht]
  simp

theorem cm_addComponent_map_lengths (cm : ComponentManager) (t e : ℕ) (b : List ℕ)
    (tr : Bool) :
    (cm.addComponent t e b tr).1.m_indexMaps.length = cm.m_indexMaps.length
    ∧ ∀ u, (((cm.addComponent t e b tr).1.m_indexMaps.getD u []).length
        = (cm.m_indexMaps.getD u []).length) := by
  unfold ComponentManager.addComponent
  dsimp only
  by_cases herr : (if tr
      then (cm.m_componentArrays.getD t default).addComponentTriv
        ((cm.m_indexMaps.getD t []).getD e SENTINEL) b
      else (cm.m_componentArrays.getD t default).addComponentCompl
        ((cm.m_indexMaps.getD t []).getD e SENTINEL) b).2.2 = true
  · rw [if_pos herr]
    exact ⟨rfl, fun u => rfl⟩
  · rw [if_neg herr]
    exact ⟨by simp, fun u => getD_set_len _ _ _ _ (by simp)⟩

theorem cm_setComponent_map_lengths (cm : ComponentManager) (t e : ℕ) (b : List ℕ) :
    (cm.setComponent t e b).1.m_indexMaps.length = cm.m_indexMaps.length
    ∧ ∀ u, (((cm.setComponent t e b).1.m_indexMaps.getD u []).length
        = (cm.m_indexMaps.getD u []).length) := by
  unfold ComponentManager.setComponent
  exact ⟨by simp, fun u => getD_set_len _ _ _ _ (by simp)⟩


theorem cm_share_map_lengths (cm : ComponentManager) (t e donor : ℕ) :
    (cm.share t e donor).m_indexMaps.length = cm.m_indexMaps.length
    ∧ ∀ u, (((cm.share t e donor).m_indexMaps.getD u []).length
        = (cm.m_indexMaps.getD u []).length) := by
  unfold ComponentManager.share
  dsimp only
  by_cases hs : (cm.m_indexMaps.getD t []).getD e SENTINEL ≠ SENTINEL
  · rw [if_pos hs]
    have h1 := removeAt_map_lengths cm t ((cm.m_indexMaps.getD t []).getD e SENTINEL) e
    refine ⟨by rw [List.length_set]; exact h1.1, fun u => ?_⟩
    rw [getD_set_len _ t u _ (by rw [List.length_set])]
    exact h1.2 u
  · rw [if_neg hs]
    exact ⟨by simp, fun u => getD_set_len _ t u _ (by rw [List.length_set])⟩

/-- Whether a facade call is `createEntity`. -/
def isCreate : Op → Bool
  | .createEntity => true
  | _ => false

theorem eng_addComponent_map_lengths (g : Engine) (e t : ℕ) (bytes : List ℕ) :
    (g.addComponent e t bytes).cm.m_indexMaps.length = g.cm.m_indexMaps.length
    ∧ ∀ u, ((g.addComponent e t bytes).cm.m_indexMaps.getD u []).length
        = (g.cm.m_indexMaps.getD u []).length := by
  unfold Engine.addComponent Engine.addComponentConfiguration
  by_cases hc : ¬ g.em.contains e = true
  · rw [if_pos hc]
    exact ⟨rfl, fun u => rfl⟩
  · rw [if_neg hc]
    dsimp only
    exact cm_addComponent_map_lengths g.cm t e bytes (g.triv.getD t true)

theorem apply_map_lengths (g : Engine) (op : Op) :
    (g.apply op).cm.m_indexMaps.length = g.cm.m_indexMaps.length
    ∧ ∀ t, t < g.cm.m_indexMaps.length →
        ((g.apply op).cm.m_indexMaps.getD t []).length
          = (g.cm.m_indexMaps.getD t []).length + (if isCreate op then 1 else 0) := by
  cases op with
  | createEntity =>
      have happly : g.apply Op.createEntity = (g.createEntity).1 := rfl
      rw [happly]
      unfold Engine.createEntity
      dsimp only
      have h1 := cm_addEntity_map_lengths g.cm
      constructor
      · exact (eng_addComponent_map_lengths _ _ _ _).1.trans h1.1
      · intro t ht
        rw [(eng_addComponent_map_lengths _ _ _ _).2 t, h1.2 t ht]
        simp [isCreate]
  | removeEntity e =>
      have happly : g.apply (Op.removeEntity e) = g.removeEntity e := rfl
      rw [happly]
      unfold Engine.removeEntity
      by_cases hc : ¬ g.em.contains e = true
      · rw [if_pos hc]
        exact ⟨rfl, fun t ht => by simp [isCreate]⟩
      · rw [if_neg hc]
        have h1 := cm_removeEntity_map_lengths g.cm e
        exact ⟨h1.1, fun t ht => by rw [h1.2 t]; simp [isCreate]⟩
  | addComponent e t bytes =>
      have happly : g.apply (Op.addComponent e t bytes) = g.addComponent e t bytes := rfl
      rw [happly]
      have h1 := eng_addComponent_map_lengths g e t bytes
      exact ⟨h1.1, fun u hu => by rw [h1.2 u]; simp [isCreate]⟩
  | removeComponent e t =>
      have happly : g.apply (Op.removeComponent e t) = g.removeComponent e t := rfl
      rw [happly]
      unfold Engine.removeComponent
      by_cases hc : ¬ g.em.contains e = true
      · rw [if_pos hc]
        exact ⟨rfl, fun u hu => by simp [isCreate]⟩
      · rw [if_neg hc]
        dsimp only
        by_cases hs : (g.cm.m_indexMaps.getD t []).getD e SENTINEL = SENTINEL
        · rw [if_pos hs]
          exact ⟨rfl, fun u hu => by simp [isCreate]⟩
        · rw [if_neg hs]
          have h1 := removeAt_map_lengths g.cm t
            ((g.cm.m_indexMaps.getD t []).getD e SENTINEL) e
          exact ⟨h1.1, fun u hu => by rw [h1.2 u]; simp [isCreate]⟩
  | setComponent e t bytes =>
      have happly : g.apply (Op.setComponent e t bytes) = g.setComponent e t bytes := rfl
      rw [happly]
      unfold Engine.setComponent
      by_cases hc : ¬ g.em.contains e = true
      · rw [if_pos hc]
        exact ⟨rfl, fun u hu => by simp [isCreate]⟩
      · rw [if_neg hc]
        dsimp only
        have h1 := cm_setComponent_map_lengths g.cm t e bytes
        exact ⟨h1.1, fun u hu => by rw [h1.2 u]; simp [isCreate]⟩
  | shareComponent e donor t =>
      have happly : g.apply (Op.shareComponent e donor t) = g.shareComponent e donor t := rfl
      rw [happly]
      unfold Engine.shareComponent Engine.addComponentConfiguration
      by_cases hc : ¬ g.em.contains e = true
      · rw [if_pos hc]
        exact ⟨rfl, fun u hu => by simp [isCreate]⟩
      · rw [if_neg hc]
        dsimp only
        have h1 := cm_share_map_lengths g.cm t e donor
        exact ⟨h1.1, fun u hu => by rw [h1.2 u]; simp [isCreate]⟩
  | setActive e b =>
      have happly : g.apply (Op.setActive e b) = g.setActive e b := rfl
      rw [happly]
      unfold Engine.setActive
      by_cases hc : ¬ g.em.contains e = true
      · rw [if_pos hc]
        exact ⟨rfl, fun u hu => by simp [isCreate]⟩
      · rw [if_neg hc]
        by_cases hst : g.activeE e = b
        · rw [if_pos hst]
          exact ⟨rfl, fun u hu => by simp [isCreate]⟩
        · rw [if_neg hst]
          dsimp only
          by_cases hb : b = true
          · rw [if_pos hb]
            exact ⟨rfl, fun u hu => by simp [isCreate]⟩
          · rw [if_neg hb]
            exact ⟨rfl, fun u hu => by simp [isCreate]⟩
  | createSystem req p =>
      have happly : g.apply (Op.createSystem req p) = (g.createSystem req p).1 := rfl
      rw [happly]
      unfold Engine.createSystem
      exact ⟨rfl, fun u hu => by simp [isCreate]⟩

theorem applyAll_map_lengths (ops : List Op) : ∀ (g : Engine),
    (g.applyAll ops).cm.m_indexMaps.length = g.cm.m_indexMaps.length
    ∧ ∀ t, t < g.cm.m_indexMaps.length →
        ((g.applyAll ops).cm.m_indexMaps.getD t []).length
          = (g.cm.m_indexMaps.getD t []).length + (ops.filter isCreate).length := by
  induction ops with
  | nil => exact fun g => ⟨rfl, fun t ht => by simp [Engine.applyAll]⟩
  | cons op rest ih =>
      intro g
      have hstep := apply_map_lengths g op
      have hrest := ih (g.apply op)
      have happ : g.applyAll (op :: rest) = (g.apply op).applyAll rest := rfl
      rw [happ]
      refine ⟨hrest.1.trans hstep.1, fun t ht => ?_⟩
      rw [hrest.2 t (by omega), hstep.2 t ht]
      by_cases hco : isCreate op = true <;> simp [List.filter_cons, hco] <;> omega

/-- **C6 amended**: after *any* sequence of public operations, each
materialized component type's index-map length equals the number of
`createEntity` calls made so far — `ComponentManager::addEntity` pushes one
slot per call even when the id is recycled — which is at least
`numberOfEntities()` (the number of distinct ids), and strictly greater as
soon as a recycled id has been reissued. -/
theorem C6_amended_indexmap_length_counts_creates (space : List ℕ) (triv : List Bool)
    (ops : List Op) (t : ℕ) (ht : t < space.length) :
    (((Engine.init space triv).applyAll ops).cm.m_indexMaps.getD t []).length
      = (ops.filter isCreate).length := by
  have h := (applyAll_map_lengths ops (Engine.init space triv)).2 t
    (by simp [Engine.init, ComponentManager.init]; omega)
  rw [h]
  simp [Engine.init, ComponentManager.init]

theorem C6_amended_indexmap_length_counts_creates_witness :
    0 < [1].length
    ∧ ((((Engine.init [1] [true]).applyAll
        [Op.createEntity, Op.removeEntity 0, Op.createEntity]).cm.m_indexMaps.getD 0 []).length
      = ([Op.createEntity, Op.removeEntity 0, Op.createEntity].filter isCreate).length) :=
  ⟨by decide, C6_amended_indexmap_length_counts_creates [1] [true]
    [Op.createEntity, Op.removeEntity 0, Op.createEntity] 0 (by decide)⟩

/-! ## C1: validity of call sequences and the system-membership invariant

`spec.md` §8 P1 states the membership invariant for all reachable states; the
counterexample `C1_cx_inactive_entity_matched` shows `setActive(e, false)`
already breaks the `active(e)` half in two calls.  The development below
proves the amended form: over traces of the public API that respect each
call's documented preconditions (and do not use `setActive`, whose broken
propagation is C1's counterexample), every system's entity list matches
exactly the live entities satisfying its requirement, and those entities are
reported active. -/

/-- Generic list facts used throughout the invariant proof. -/
theorem getD_append_len {α : Type} (pre post : List α) (a d : α) :
    (pre ++ a :: post).getD pre.length d = a := by
  induction pre with
  | nil => rfl
  | cons x xs ih => simpa using ih

theorem set_append_len {α : Type} (pre post : List α) (a v : α) :
    (pre ++ a :: post).set pre.length v = pre ++ v :: post := by
  induction pre with
  | nil => rfl
  | cons x xs ih => simpa using ih

theorem set_getD_self {α : Type} (l : List α) (n : ℕ) (d : α) (h : n < l.length) :
    l.set n (l.getD n d) = l := by
  rw [List.getD_eq_getElem _ _ h]
  apply List.ext_getElem (by simp)
  intro i h1 h2
  simp only [List.getElem_set]
  split
  · next heq => subst heq; rfl
  · rfl

theorem nodup_set_of_not_mem {α : Type} (l : List α) (i : ℕ) (v : α)
    (hv : v ∉ l) (hnd : l.Nodup) : (l.set i v).Nodup := by
  by_cases hi : i < l.length
  · rw [List.set_eq_take_append_cons_drop, if_pos hi]
    rw [List.nodup_append]
    refine ⟨hnd.sublist (List.take_sublist i l), ?_, ?_⟩
    · rw [List.nodup_cons]
      exact ⟨fun hc => hv (List.mem_of_mem_drop hc),
        hnd.sublist (List.drop_sublist (i + 1) l)⟩
    · intro x hx1 hx2
      rcases List.mem_cons.mp hx2 with h1 | h1
      · subst h1; exact hv (List.mem_of_mem_take hx1)
      · have hsplit : l = l.take i ++ l.drop i := (List.take_append_drop i l).symm
        have hnd2 := hnd
        rw [hsplit, List.nodup_append] at hnd2
        apply hnd2.2.2 hx1
        have hdd : l.drop (i + 1) = (l.drop i).drop 1 := by rw [List.drop_drop]
        rw [hdd] at h1
        exact List.mem_of_mem_drop h1
  · rw [List.set_eq_of_length_le (by omega)]; exact hnd

theorem getD_append_one {α : Type} (A : List α) (s : α) (p : ℕ) (d : α) :
    (A ++ [s]).getD p d = if p < A.length then A.getD p d else if p = A.length then s else d := by
  by_cases h1 : p < A.length
  · rw [if_pos h1, List.getD_append A [s] d p h1]
  · rw [if_neg h1]
    by_cases h2 : p = A.length
    · rw [if_pos h2, List.getD_append_right A [s] d p (by omega), h2]
      simp
    · rw [if_neg h2, List.getD_append_right A [s] d p (by omega)]
      have : 1 ≤ p - A.length := by omega
      rw [List.getD_eq_default]
      simpa using this

theorem mem_iff_exists_getD (l : List ℕ) (x : ℕ) :
    x ∈ l ↔ ∃ i, i < l.length ∧ l.getD i 0 = x := by
  rw [List.mem_iff_getElem]
  constructor
  · rintro ⟨i, hi, he⟩
    exact ⟨i, hi, by rw [List.getD_eq_getElem _ _ hi]; exact he⟩
  · rintro ⟨i, hi, he⟩
    exact ⟨i, hi, by rw [← List.getD_eq_getElem l 0 hi]; exact he⟩

theorem nodup_getD_inj (l : List ℕ) (i j : ℕ) (hnd : l.Nodup)
    (hi : i < l.length) (hj : j < l.length) (h : l.getD i 0 = l.getD j 0) : i = j := by
  rw [List.getD_eq_getElem _ _ hi, List.getD_eq_getElem _ _ hj] at h
  exact (List.Nodup.getElem_inj_iff hnd).mp h

theorem getLastD_cons_eq {α : Type} (a d : α) (t : List α) :
    (a :: t).getLastD d = t.getLastD a := by
  cases t with
  | nil => rfl
  | cons b s => simp [List.getLastD, List.getLast?_cons_cons]

theorem getLastD_eq_getD {α : Type} : ∀ (l : List α) (d : α), l.getLastD d = l.getD (l.length - 1) d := by
  intro l
  induction l with
  | nil => intro d; rfl
  | cons a t ih =>
      intro d
      cases t with
      | nil => rfl
      | cons b s =>
          have h1 : (a :: b :: s).getLastD d = (b :: s).getLastD a := rfl
          rw [h1, ih a]
          rw [List.getD_eq_getElem _ _ (by simp), List.getD_eq_getElem _ _ (by simp)]
          simp

theorem getLastD_mem : ∀ (l : List ℕ) (d : ℕ), l ≠ [] → l.getLastD d ∈ l := by
  intro l
  induction l with
  | nil => intro d h; exact absurd rfl h
  | cons a t ih =>
      intro d h
      cases t with
      | nil => simp [List.getLastD]
      | cons b s =>
          have h1 : (a :: b :: s).getLastD d = (b :: s).getLastD a := rfl
          rw [h1]
          exact List.mem_cons_of_mem a (ih a (by simp))

theorem getLastD_not_mem_dropLast (l : List ℕ) (d : ℕ) (hnd : l.Nodup) (h : l ≠ []) :
    l.getLastD d ∉ l.dropLast := by
  have hl := List.dropLast_append_getLast h
  have hlast : l.getLastD d = l.getLast h := by
    cases l with
    | nil => exact absurd rfl h
    | cons a t => rw [List.getLast_eq_getLastD, getLastD_cons_eq]
  rw [hlast]
  have hnd2 := hnd
  rw [← hl, List.nodup_append] at hnd2
  intro hc
  exact hnd2.2.2 hc (by simp)

theorem eq_getLastD_of_not_mem_dropLast (l : List ℕ) (d x : ℕ) (h : l ≠ [])
    (hx : x ∈ l) (hnx : x ∉ l.dropLast) : x = l.getLastD d := by
  have hl := List.dropLast_append_getLast h
  have hlast : l.getLastD d = l.getLast h := by
    cases l with
    | nil => exact absurd rfl h
    | cons a t => rw [List.getLast_eq_getLastD, getLastD_cons_eq]
  rw [← hl] at hx
  rcases List.mem_append.mp hx with h1 | h1
  · exact absurd h1 hnx
  · rw [hlast]; simpa using h1

/-- A duplicate-free list of naturals below `n`, avoiding some `e < n`, has
fewer than `n` elements. -/
theorem nodup_length_lt (l : List ℕ) (n e : ℕ) (hnd : l.Nodup)
    (hlt : ∀ x ∈ l, x < n) (he : e < n) (hem : e ∉ l) : l.length < n := by
  have hsub : l.toFinset ⊆ (Finset.range n).erase e := by
    intro x hx
    rw [List.mem_toFinset] at hx
    rw [Finset.mem_erase, Finset.mem_range]
    exact ⟨fun hc => hem (hc ▸ hx), hlt x hx⟩
  have hcard := Finset.card_le_card hsub
  rw [List.toFinset_card_of_nodup hnd,
    Finset.card_erase_of_mem (Finset.mem_range.mpr he), Finset.card_range] at hcard
  omega

/-- The slot-update folds of the `SystemManager` matching loops (e.g.
ecs.h:1471-1480) visit each slot exactly once in index order, so they act
pointwise. -/
theorem foldl_set_eq_map {α : Type} [Inhabited α] (G : α → Bool) (F : α → α) :
    ∀ (post pre : List α),
      (List.range' pre.length post.length).foldl
        (fun l i => if G (l.getD i default) then l.set i (F (l.getD i default)) else l)
        (pre ++ post)
      = pre ++ post.map (fun a => if G a then F a else a) := by
  intro post
  induction post with
  | nil => intro pre; simp
  | cons a rest ih =>
      intro pre
      simp only [List.length_cons]
      rw [List.range'_succ]
      simp only [List.foldl_cons, List.map_cons]
      rw [getD_append_len pre rest a default]
      by_cases hG : G a = true
      · rw [if_pos hG, if_pos hG, set_append_len pre rest a (F a)]
        have h2 : pre ++ F a :: rest = (pre ++ [F a]) ++ rest := by simp
        have h3 : pre.length + 1 = (pre ++ [F a]).length := by simp
        rw [h2, h3, ih (pre ++ [F a])]
        simp
      · rw [if_neg hG, if_neg hG]
        have h2 : pre ++ a :: rest = (pre ++ [a]) ++ rest := by simp
        have h3 : pre.length + 1 = (pre ++ [a]).length := by simp
        rw [h2, h3, ih (pre ++ [a])]
        simp

theorem foldl_set_eq_map_range {α : Type} [Inhabited α] (G : α → Bool) (F : α → α)
    (l : List α) :
    (List.range l.length).foldl
        (fun l i => if G (l.getD i default) then l.set i (F (l.getD i default)) else l) l
      = l.map (fun a => if G a then F a else a) := by
  have h := foldl_set_eq_map G F l []
  simpa [List.range_eq_range'] using h

theorem insertMatchingBit_supplements (sm : SystemManagerM) (e : ℕ) (bitmap : List Bool)
    (bit : ℕ) :
    (sm.insertMatchingBit e bitmap bit).supplements
      = sm.supplements.map
          (fun sup => if sup.bmMatchesBit bitmap bit then sup.insert e else sup) := by
  unfold SystemManagerM.insertMatchingBit
  exact foldl_set_eq_map_range (fun sup => sup.bmMatchesBit bitmap bit)
    (fun sup => sup.insert e) sm.supplements

theorem insertMatching_supplements (sm : SystemManagerM) (e : ℕ) (bitmap : List Bool) :
    (sm.insertMatching e bitmap).supplements
      = sm.supplements.map
          (fun sup => if sup.bmMatches bitmap then sup.insert e else sup) := by
  unfold SystemManagerM.insertMatching
  exact foldl_set_eq_map_range (fun sup => sup.bmMatches bitmap)
    (fun sup => sup.insert e) sm.supplements

theorem extractEntity_supplements (sm : SystemManagerM) (e : ℕ) (bitmap : List Bool) :
    (sm.extractEntity e bitmap).supplements
      = sm.supplements.map
          (fun sup => if sup.bmMatches bitmap then sup.extract e else sup) := by
  unfold SystemManagerM.extractEntity
  exact foldl_set_eq_map_range (fun sup => sup.bmMatches bitmap)
    (fun sup => sup.extract e) sm.supplements

theorem componentRemoved_supplements (sm : SystemManagerM) (e bit : ℕ) (bitmap : List Bool) :
    (sm.componentRemoved e bit bitmap).supplements
      = sm.supplements.map
          (fun sup => if sup.bmMatchesBit bitmap bit then sup.extract e else sup) := by
  unfold SystemManagerM.componentRemoved
  exact foldl_set_eq_map_range (fun sup => sup.bmMatchesBit bitmap bit)
    (fun sup => sup.extract e) sm.supplements

theorem shiftLoop_length {α : Type} [Inhabited α] :
    ∀ (i : ℕ) (l : List α) (total : ℕ),
      (SystemManagerM.shiftLoop l total i).length = l.length := by
  intro i
  induction i with
  | zero => intro l total; rfl
  | succ n ih =>
      intro l total
      unfold SystemManagerM.shiftLoop
      by_cases h : total < n + 1
      · rw [if_pos h, ih]; simp
      · rw [if_neg h]

theorem shiftLoop_mem {α : Type} [Inhabited α] :
    ∀ (i : ℕ) (l : List α) (total : ℕ), i ≤ l.length →
      ∀ x ∈ SystemManagerM.shiftLoop l total i, x ∈ l := by
  intro i
  induction i with
  | zero => intro l total _ x hx; exact hx
  | succ n ih =>
      intro l total h x hx
      unfold SystemManagerM.shiftLoop at hx
      by_cases hc : total < n + 1
      · rw [if_pos hc] at hx
        have hrec := ih (l.set (n + 1) (l.getD n default)) total (by simp; omega) x hx
        rcases List.mem_or_eq_of_mem_set hrec with h1 | h1
        · exact h1
        · rw [h1, List.getD_eq_getElem _ _ (by omega)]
          exact List.getElem_mem (by omega)
      · rw [if_neg hc] at hx; exact hx

theorem take_set_comm {α : Type} (l : List α) (i n : ℕ) (a : α) :
    (l.set i a).take n = (l.take n).set i a := by
  apply List.ext_getElem (by simp)
  intro j h1 h2
  simp only [List.getElem_take, List.getElem_set]

theorem getD_irrel {α : Type} (l : List α) (i : ℕ) (d1 d2 : α) (h : i < l.length) :
    l.getD i d1 = l.getD i d2 := by
  rw [List.getD_eq_getElem _ _ h, List.getD_eq_getElem _ _ h]

theorem getD_mem {α : Type} (l : List α) (i : ℕ) (d : α) (h : i < l.length) : l.getD i d ∈ l := by
  rw [List.getD_eq_getElem _ _ h]
  exact List.getElem_mem h

/-- `R ⊆ bitmap(e)` of the claim, together with the non-emptiness every
`bitmapMatches` check (ecs.h:1390-1392) imposes: a non-empty requirement all
of whose bits are set in `e`'s bitmap. -/
def ReqSat (bm : List (List Bool)) (req : List ℕ) (x : ℕ) : Prop :=
  req ≠ [] ∧ ∀ r ∈ req, (bm.getD x []).getD r false = true

/-- Well-formedness of one system supplement against the entity bitmaps:
duplicate-free entity list that holds exactly the requirement-satisfying
entities, an index map covering every created id, and correct back-pointers
(`indexMap[entities[i]] = i`). -/
structure SupWF (N : ℕ) (bm : List (List Bool)) (sup : SystemSupplement) : Prop where
  nodup : sup.entities.Nodup
  mem_iff : ∀ x, x ∈ sup.entities ↔ ReqSat bm sup.requirement x
  imap_len : N ≤ sup.indexMap.length
  pos : ∀ i, i < sup.entities.length →
    sup.indexMap.getD (sup.entities.getD i 0) SENTINEL = i
  ents_lt : ∀ x ∈ sup.entities, x < N

theorem bmMatches_iff (sup : SystemSupplement) (row : List Bool) :
    sup.bmMatches row = true
      ↔ (sup.requirement ≠ [] ∧ ∀ r ∈ sup.requirement, row.getD r false = true) := by
  unfold SystemSupplement.bmMatches
  simp [List.isEmpty_iff, List.all_eq_true]

theorem bmMatchesBit_iff (sup : SystemSupplement) (row : List Bool) (bit : ℕ) :
    sup.bmMatchesBit row bit = true
      ↔ ((sup.requirement ≠ [] ∧ ∀ r ∈ sup.requirement, row.getD r false = true)
          ∧ bit ∈ sup.requirement) := by
  unfold SystemSupplement.bmMatchesBit
  simp [List.isEmpty_iff, List.all_eq_true, List.contains]

/-- Core effect of `SystemSupplement::insert` on a well-formed supplement. -/
theorem supInsert_core (sup : SystemSupplement) (e N : ℕ)
    (hnd : sup.entities.Nodup) (hlen : N ≤ sup.indexMap.length)
    (hpos : ∀ i, i < sup.entities.length →
      sup.indexMap.getD (sup.entities.getD i 0) SENTINEL = i)
    (hlt : ∀ x ∈ sup.entities, x < N)
    (he : e ∉ sup.entities) (heN : e < N) :
    (sup.insert e).entities.Nodup
    ∧ (∀ x, x ∈ (sup.insert e).entities ↔ (x ∈ sup.entities ∨ x = e))
    ∧ N ≤ (sup.insert e).indexMap.length
    ∧ (∀ i, i < (sup.insert e).entities.length →
        (sup.insert e).indexMap.getD ((sup.insert e).entities.getD i 0) SENTINEL = i)
    ∧ (∀ x ∈ (sup.insert e).entities, x < N) := by
  unfold SystemSupplement.insert
  dsimp only
  refine ⟨?_, ?_, ?_, ?_, ?_⟩
  · rw [List.nodup_append]
    refine ⟨hnd, List.nodup_singleton e, ?_⟩
    intro x hx hx2
    simp only [List.mem_singleton] at hx2
    subst hx2
    exact he hx
  · intro x; simp [List.mem_append]
  · simpa using hlen
  · intro i hi
    simp only [List.length_append, List.length_singleton] at hi
    by_cases hilt : i < sup.entities.length
    · rw [List.getD_append _ _ 0 i hilt]
      have hmem : sup.entities.getD i 0 ∈ sup.entities := getD_mem _ _ _ hilt
      have hne : e ≠ sup.entities.getD i 0 := by
        intro hc
        rw [← hc] at hmem
        exact he hmem
      rw [getD_set_ne _ _ _ _ _ hne]
      exact hpos i hilt
    · have hieq : i = sup.entities.length := by omega
      subst hieq
      have hval : (sup.entities ++ [e]).getD sup.entities.length 0 = e :=
        getD_append_len sup.entities [] e 0
      rw [hval, getD_set_self _ _ _ _ (by omega)]
  · intro x hx
    rcases List.mem_append.mp hx with h1 | h1
    · exact hlt x h1
    · simp only [List.mem_singleton] at h1
      subst h1
      exact heN

/-- Core effect of `SystemSupplement::extract` (swap-with-last, ecs.h:1328-1338)
on a well-formed supplement holding `e`. -/
theorem supExtract_core (sup : SystemSupplement) (e N : ℕ)
    (hnd : sup.entities.Nodup) (hlen : N ≤ sup.indexMap.length)
    (hpos : ∀ i, i < sup.entities.length →
      sup.indexMap.getD (sup.entities.getD i 0) SENTINEL = i)
    (hlt : ∀ x ∈ sup.entities, x < N)
    (he : e ∈ sup.entities) :
    (sup.extract e).entities.Nodup
    ∧ (∀ x, x ∈ (sup.extract e).entities ↔ (x ∈ sup.entities ∧ x ≠ e))
    ∧ N ≤ (sup.extract e).indexMap.length
    ∧ (∀ i, i < (sup.extract e).entities.length →
        (sup.extract e).indexMap.getD ((sup.extract e).entities.getD i 0) SENTINEL = i)
    ∧ (∀ x ∈ (sup.extract e).entities, x < N) := by
  obtain ⟨i0, hi0, hi0e⟩ := (mem_iff_exists_getD sup.entities e).mp he
  have heN := hlt e he
  have hposE : sup.indexMap.getD e SENTINEL = i0 := by
    have h1 := hpos i0 hi0
    rw [hi0e] at h1
    exact h1
  have hpos0 : sup.indexMap.getD e 0 = i0 := by
    rw [getD_irrel _ _ 0 SENTINEL (by omega), hposE]
  have hext : sup.extract e
      = { sup with
          entities := (sup.entities.set i0
            (sup.entities.getD (sup.entities.length - 1) 0)).dropLast,
          indexMap := (sup.indexMap.set (sup.entities.getD (sup.entities.length - 1) 0)
            i0).set e SENTINEL } := by
    unfold SystemSupplement.extract
    rw [hpos0]
  rw [hext]
  dsimp only
  have hlastmem : sup.entities.getD (sup.entities.length - 1) 0 ∈ sup.entities :=
    getD_mem _ _ _ (by omega)
  by_cases hc : i0 = sup.entities.length - 1
  · -- `e` is the last entity: the swap writes `e` onto itself.
    have hlaste : sup.entities.getD (sup.entities.length - 1) 0 = e := by
      rw [← hc]; exact hi0e
    have hsetid : sup.entities.set i0 (sup.entities.getD (sup.entities.length - 1) 0)
        = sup.entities := by
      rw [hlaste, ← hi0e]
      exact set_getD_self _ _ _ hi0
    rw [hsetid, hlaste, List.set_set]
    have hdl : sup.entities.dropLast = sup.entities.take (sup.entities.length - 1) :=
      List.dropLast_eq_take sup.entities
    have hlastD : sup.entities.getLastD 0 = e := by
      rw [getLastD_eq_getD, ← hc, hi0e]
    have hne : sup.entities ≠ [] := by
      intro hnil
      rw [hnil] at he
      exact absurd he (List.not_mem_nil e)
    refine ⟨hnd.sublist (List.dropLast_sublist _), ?_, ?_, ?_, ?_⟩
    · intro x
      constructor
      · intro hx
        refine ⟨(List.dropLast_sublist _).subset hx, ?_⟩
        intro hxe
        subst hxe
        exact (hlastD ▸ getLastD_not_mem_dropLast sup.entities 0 hnd hne) hx
      · rintro ⟨hx, hxe⟩
        by_contra hnx
        exact hxe (by
          have := eq_getLastD_of_not_mem_dropLast sup.entities 0 x hne hx hnx
          rw [this, hlastD])
    · simpa using hlen
    · intro i hi
      rw [hdl] at hi ⊢
      simp only [List.length_take] at hi
      have hilt : i < sup.entities.length - 1 := by omega
      rw [getD_take_lt _ _ _ _ hilt]
      have hmemi : sup.entities.getD i 0 ∈ sup.entities := getD_mem _ _ _ (by omega)
      have hnei : e ≠ sup.entities.getD i 0 := by
        intro hc2
        have := nodup_getD_inj sup.entities i0 i hnd hi0 (by omega) (by rw [hi0e, hc2])
        omega
      rw [getD_set_ne _ _ _ _ _ hnei]
      exact hpos i (by omega)
    · intro x hx
      exact hlt x ((List.dropLast_sublist _).subset hx)
  · -- `e` sits strictly before the last entity.
    have hi0lt : i0 < sup.entities.length - 1 := by omega
    have hlastne : sup.entities.getD (sup.entities.length - 1) 0 ≠ e := by
      intro hc2
      have := nodup_getD_inj sup.entities (sup.entities.length - 1) i0 hnd (by omega) hi0
        (by rw [hc2, hi0e])
      omega
    have hKey : (sup.entities.set i0
          (sup.entities.getD (sup.entities.length - 1) 0)).dropLast
        = (sup.entities.take (sup.entities.length - 1)).set i0
            (sup.entities.getD (sup.entities.length - 1) 0) := by
      rw [List.dropLast_eq_take, List.length_set, take_set_comm]
    have htklen : (sup.entities.take (sup.entities.length - 1)).length
        = sup.entities.length - 1 := by simp
    have hlastnotin : sup.entities.getD (sup.entities.length - 1) 0
        ∉ sup.entities.take (sup.entities.length - 1) := by
      intro hx
      obtain ⟨i, hi, hgd⟩ := (mem_iff_exists_getD _ _).mp hx
      rw [htklen] at hi
      rw [getD_take_lt _ _ _ _ hi] at hgd
      have := nodup_getD_inj sup.entities i (sup.entities.length - 1) hnd (by omega)
        (by omega) hgd
      omega
    have hlen' : ((sup.entities.take (sup.entities.length - 1)).set i0
        (sup.entities.getD (sup.entities.length - 1) 0)).length
        = sup.entities.length - 1 := by
      rw [List.length_set, htklen]
    rw [hKey]
    refine ⟨?_, ?_, ?_, ?_, ?_⟩
    · exact nodup_set_of_not_mem _ i0 _ hlastnotin (hnd.sublist (List.take_sublist _ _))
    · intro x
      constructor
      · intro hx
        obtain ⟨i, hi, hgd⟩ := (mem_iff_exists_getD _ _).mp hx
        rw [hlen'] at hi
        by_cases hii0 : i = i0
        · subst hii0
          rw [getD_set_self _ _ _ _ (by omega)] at hgd
          exact ⟨hgd ▸ hlastmem, hgd ▸ hlastne⟩
        · rw [getD_set_ne _ _ _ _ _ (fun hc2 => hii0 hc2.symm),
            getD_take_lt _ _ _ _ hi] at hgd
          refine ⟨hgd ▸ getD_mem _ _ _ (by omega), ?_⟩
          intro hxe
          subst hxe
          have := nodup_getD_inj sup.entities i i0 hnd (by omega) hi0 (by rw [hgd, hi0e])
          omega
      · rintro ⟨hx, hxe⟩
        obtain ⟨i, hi, hgd⟩ := (mem_iff_exists_getD _ _).mp hx
        have hii0 : i ≠ i0 := by
          intro hc2
          subst hc2
          exact hxe (by rw [← hgd, hi0e])
        rw [mem_iff_exists_getD]
        by_cases hilast : i = sup.entities.length - 1
        · refine ⟨i0, by omega, ?_⟩
          rw [getD_set_self _ _ _ _ (by omega), ← hilast, hgd]
        · refine ⟨i, by rw [hlen']; omega, ?_⟩
          rw [getD_set_ne _ _ _ _ _ (fun hc2 => hii0 hc2.symm),
            getD_take_lt _ _ _ _ (by omega), hgd]
    · simpa using hlen
    · intro i hi
      rw [hlen'] at hi
      by_cases hii0 : i = i0
      · subst hii0
        rw [getD_set_self _ _ _ _ (by omega),
          getD_set_ne _ _ _ _ _ (fun hc2 => hlastne hc2.symm),
          getD_set_self _ _ _ _ (by have := hlt _ hlastmem; omega)]
      · rw [getD_set_ne _ _ _ _ _ (fun hc2 => hii0 hc2.symm),
          getD_take_lt _ _ _ _ hi]
        have hmemi : sup.entities.getD i 0 ∈ sup.entities := getD_mem _ _ _ (by omega)
        have hne1 : e ≠ sup.entities.getD i 0 := by
          intro hc2
          have := nodup_getD_inj sup.entities i0 i hnd hi0 (by omega) (by rw [hi0e, ← hc2])
          omega
        have hne2 : sup.entities.getD (sup.entities.length - 1) 0
            ≠ sup.entities.getD i 0 := by
          intro hc2
          have := nodup_getD_inj sup.entities (sup.entities.length - 1) i hnd (by omega)
            (by omega) hc2
          omega
        rw [getD_set_ne _ _ _ _ _ hne1, getD_set_ne _ _ _ _ _ hne2]
        exact hpos i (by omega)
    · intro x hx
      obtain ⟨i, hi, hgd⟩ := (mem_iff_exists_getD _ _).mp hx
      rw [hlen'] at hi
      by_cases hii0 : i = i0
      · subst hii0
        rw [getD_set_self _ _ _ _ (by omega)] at hgd
        exact hgd ▸ hlt _ hlastmem
      · rw [getD_set_ne _ _ _ _ _ (fun hc2 => hii0 hc2.symm),
          getD_take_lt _ _ _ _ hi] at hgd
        exact hgd ▸ hlt _ (getD_mem _ _ _ (by omega))

/-- A supplement stays well formed when no requirement bit of any entity
changes. -/
theorem supwf_congr (N : ℕ) (bm bm' : List (List Bool)) (sup : SystemSupplement)
    (hwf : SupWF N bm sup)
    (hbits : ∀ x, ∀ r ∈ sup.requirement,
      (bm'.getD x []).getD r false = (bm.getD x []).getD r false) :
    SupWF N bm' sup := by
  refine ⟨hwf.nodup, ?_, hwf.imap_len, hwf.pos, hwf.ents_lt⟩
  intro x
  rw [hwf.mem_iff x]
  unfold ReqSat
  constructor
  · rintro ⟨h1, h2⟩
    exact ⟨h1, fun r hr => by rw [hbits x r hr]; exact h2 r hr⟩
  · rintro ⟨h1, h2⟩
    exact ⟨h1, fun r hr => by rw [← hbits x r hr]; exact h2 r hr⟩

/-- `SystemManager::addEntity` pushes a sentinel slot onto a supplement's
index map: well-formedness survives, with the entity bound raised to the new
count. -/
theorem pushSent_wf (N N' : ℕ) (bm : List (List Bool)) (sup : SystemSupplement)
    (hwf : SupWF N bm sup) (h1 : N ≤ N') (h2 : N' ≤ N + 1) :
    SupWF N' bm { sup with indexMap := sup.indexMap ++ [SENTINEL] } := by
  refine ⟨hwf.nodup, hwf.mem_iff, ?_, ?_, fun x hx => lt_of_lt_of_le (hwf.ents_lt x hx) h1⟩
  · have := hwf.imap_len
    simp only [List.length_append, List.length_singleton]
    omega
  · intro i hi
    dsimp only at hi ⊢
    have hxmem : sup.entities.getD i 0 ∈ sup.entities := getD_mem _ _ _ hi
    have hxlt := hwf.ents_lt _ hxmem
    have himl := hwf.imap_len
    rw [List.getD_append _ _ SENTINEL _ (by omega)]
    exact hwf.pos i hi

/-- The per-supplement effect of the insertion loops keyed on a freshly set
bit `t` of entity `e` (`addComponentConfiguration`, ecs.h:861-867): systems
whose requirement now matches gain `e`, the rest keep their exact entity
set; either way well-formedness continues against the updated bitmaps. -/
theorem sup_bitinsert_wf (N : ℕ) (bm bm' : List (List Bool)) (e t : ℕ)
    (sup : SystemSupplement)
    (hwf : SupWF N bm sup)
    (heN : e < N)
    (hother : ∀ x, x ≠ e → bm'.getD x [] = bm.getD x [])
    (het : (bm.getD e []).getD t false = false)
    (hebit : ∀ r ∈ sup.requirement,
      ((bm'.getD e []).getD r false = true ↔ (r = t ∨ (bm.getD e []).getD r false = true))) :
    SupWF N bm' (if sup.bmMatchesBit (bm'.getD e []) t then sup.insert e else sup) := by
  by_cases htreq : t ∈ sup.requirement
  · have hold : ¬ ReqSat bm sup.requirement e := by
      rintro ⟨hne, hall⟩
      rw [hall t htreq] at het
      exact absurd het (by simp)
    have hnotin : e ∉ sup.entities := fun hc => hold ((hwf.mem_iff e).mp hc)
    have hguard : sup.bmMatchesBit (bm'.getD e []) t = true ↔ ReqSat bm' sup.requirement e := by
      rw [bmMatchesBit_iff]
      unfold ReqSat
      constructor
      · rintro ⟨⟨h1, h2⟩, _⟩
        exact ⟨h1, h2⟩
      · rintro ⟨h1, h2⟩
        exact ⟨⟨h1, h2⟩, htreq⟩
    by_cases hG : sup.bmMatchesBit (bm'.getD e []) t = true
    · rw [if_pos hG]
      have hreq' := hguard.mp hG
      have hcore := supInsert_core sup e N hwf.nodup hwf.imap_len hwf.pos hwf.ents_lt
        hnotin heN
      refine ⟨hcore.1, ?_, hcore.2.2.1, hcore.2.2.2.1, hcore.2.2.2.2⟩
      intro x
      rw [hcore.2.1 x, hwf.mem_iff x]
      constructor
      · rintro (h1 | h1)
        · have hxe : x ≠ e := fun hc => hold (hc ▸ h1)
          exact ⟨h1.1, fun r hr => by rw [hother x hxe]; exact h1.2 r hr⟩
        · subst h1
          exact hreq'
      · intro h1
        by_cases hxe : x = e
        · right; exact hxe
        · left
          exact ⟨h1.1, fun r hr => by rw [← hother x hxe]; exact h1.2 r hr⟩
    · rw [if_neg hG]
      refine ⟨hwf.nodup, ?_, hwf.imap_len, hwf.pos, hwf.ents_lt⟩
      intro x
      rw [hwf.mem_iff x]
      by_cases hxe : x = e
      · subst hxe
        exact ⟨fun h1 => absurd h1 hold, fun h1 => absurd (hguard.mpr h1) hG⟩
      · constructor
        · intro h1
          exact ⟨h1.1, fun r hr => by rw [hother x hxe]; exact h1.2 r hr⟩
        · intro h1
          exact ⟨h1.1, fun r hr => by rw [← hother x hxe]; exact h1.2 r hr⟩
  · have hG : ¬ sup.bmMatchesBit (bm'.getD e []) t = true := by
      intro hc
      exact htreq ((bmMatchesBit_iff sup (bm'.getD e []) t).mp hc).2
    rw [if_neg hG]
    apply supwf_congr N bm bm' sup hwf
    intro x r hr
    by_cases hxe : x = e
    · rw [hxe]
      have hrt : r ≠ t := fun hc => htreq (hc ▸ hr)
      have h2 := hebit r hr
      by_cases hb : (bm.getD e []).getD r false = true
      · rw [hb, h2.mpr (Or.inr hb)]
      · rw [Bool.not_eq_true] at hb
        rw [hb]
        rw [Bool.eq_false_iff]
        intro hc
        rcases h2.mp hc with h3 | h3
        · exact hrt h3
        · rw [h3] at hb
          exact absurd hb (by simp)
    · rw [hother x hxe]

/-- The per-supplement effect of the extraction loops (`extractEntity`,
`componentRemoved`): a matching system loses exactly `e`, a non-matching one
is untouched; either way well-formedness continues against bitmaps in which
`e` no longer satisfies the requirement. -/
theorem sup_extract_wf (N : ℕ) (bm bm' : List (List Bool)) (e : ℕ)
    (sup : SystemSupplement) (G : Bool)
    (hwf : SupWF N bm sup)
    (hother : ∀ x, x ≠ e → bm'.getD x [] = bm.getD x [])
    (hnewe : ¬ ReqSat bm' sup.requirement e)
    (hguard : G = true ↔ ReqSat bm sup.requirement e) :
    SupWF N bm' (if G then sup.extract e else sup) := by
  by_cases hG : G = true
  · rw [if_pos hG]
    have hmem : e ∈ sup.entities := (hwf.mem_iff e).mpr (hguard.mp hG)
    have hcore := supExtract_core sup e N hwf.nodup hwf.imap_len hwf.pos hwf.ents_lt hmem
    refine ⟨hcore.1, ?_, hcore.2.2.1, hcore.2.2.2.1, hcore.2.2.2.2⟩
    intro x
    rw [hcore.2.1 x, hwf.mem_iff x]
    constructor
    · rintro ⟨h1, hxe⟩
      exact ⟨h1.1, fun r hr => by rw [hother x hxe]; exact h1.2 r hr⟩
    · intro h1
      have hxe : x ≠ e := fun hc => hnewe (hc ▸ h1)
      exact ⟨⟨h1.1, fun r hr => by rw [← hother x hxe]; exact h1.2 r hr⟩, hxe⟩
  · rw [if_neg hG]
    refine ⟨hwf.nodup, ?_, hwf.imap_len, hwf.pos, hwf.ents_lt⟩
    intro x
    rw [hwf.mem_iff x]
    by_cases hxe : x = e
    · subst hxe
      exact ⟨fun h1 => absurd (hguard.mpr h1) hG, fun h1 => absurd h1 hnewe⟩
    · constructor
      · intro h1
        exact ⟨h1.1, fun r hr => by rw [hother x hxe]; exact h1.2 r hr⟩
      · intro h1
        exact ⟨h1.1, fun r hr => by rw [← hother x hxe]; exact h1.2 r hr⟩

/-- Folding `SystemSupplement::insert` over a duplicate-free list of fresh
entities (the entity scan of `ecs::createSystem`, ecs.h:750-760) appends
exactly those entities, keeping the structural half of well-formedness. -/
theorem insert_fold_core (N : ℕ) :
    ∀ (l : List ℕ) (sup : SystemSupplement),
      l.Nodup → (∀ x ∈ l, x < N) → (∀ x ∈ l, x ∉ sup.entities) →
      sup.entities.Nodup → N ≤ sup.indexMap.length →
      (∀ i, i < sup.entities.length →
        sup.indexMap.getD (sup.entities.getD i 0) SENTINEL = i) →
      (∀ x ∈ sup.entities, x < N) →
      ((l.foldl SystemSupplement.insert sup).entities.Nodup
        ∧ (∀ x, x ∈ (l.foldl SystemSupplement.insert sup).entities
            ↔ (x ∈ sup.entities ∨ x ∈ l))
        ∧ N ≤ (l.foldl SystemSupplement.insert sup).indexMap.length
        ∧ (∀ i, i < (l.foldl SystemSupplement.insert sup).entities.length →
            (l.foldl SystemSupplement.insert sup).indexMap.getD
              ((l.foldl SystemSupplement.insert sup).entities.getD i 0) SENTINEL = i)
        ∧ (∀ x ∈ (l.foldl SystemSupplement.insert sup).entities, x < N)
        ∧ (l.foldl SystemSupplement.insert sup).requirement = sup.requirement) := by
  intro l
  induction l with
  | nil =>
      intro sup _ _ _ h4 h5 h6 h7
      exact ⟨h4, fun x => by simp, h5, h6, h7, rfl⟩
  | cons a rest ih =>
      intro sup hnd hlt hnin h4 h5 h6 h7
      simp only [List.foldl_cons]
      have hanin : a ∉ sup.entities := hnin a (by simp)
      have haN : a < N := hlt a (by simp)
      have hcore := supInsert_core sup a N h4 h5 h6 h7 hanin haN
      have hndrest : rest.Nodup := (List.nodup_cons.mp hnd).2
      have hanotrest : a ∉ rest := (List.nodup_cons.mp hnd).1
      have hrec := ih (sup.insert a) hndrest (fun x hx => hlt x (by simp [hx]))
        (fun x hx hc => by
          rcases (hcore.2.1 x).mp hc with h1 | h1
          · exact hnin x (by simp [hx]) h1
          · subst h1
            exact hanotrest hx)
        hcore.1 hcore.2.2.1 hcore.2.2.2.1 hcore.2.2.2.2
      have hreqa : (sup.insert a).requirement = sup.requirement := rfl
      refine ⟨hrec.1, ?_, hrec.2.2.1, hrec.2.2.2.1, hrec.2.2.2.2.1,
        hrec.2.2.2.2.2.trans hreqa⟩
      intro x
      rw [hrec.2.1 x, hcore.2.1 x]
      constructor
      · rintro ((h1 | h1) | h1)
        · exact Or.inl h1
        · exact Or.inr (by simp [h1])
        · exact Or.inr (by simp [h1])
      · rintro (h1 | h1)
        · exact Or.inl (Or.inl h1)
        · rcases List.mem_cons.mp h1 with h2 | h2
          · exact Or.inl (Or.inr h2)
          · exact Or.inr h2

/-- The entity scan of `ecs::createSystem` (ecs.h:750-760) only touches the
new system's slot: it folds `insert` over the entities passing the
active-and-matches filter, whose condition is stable because `insert` never
changes the requirement. -/
theorem scan_fold (activeF : ℕ → Bool) (bmF : ℕ → List Bool) (slot : ℕ) :
    ∀ (idxs : List ℕ) (sm : SystemManagerM), slot < sm.supplements.length →
      (idxs.foldl (fun sm i =>
          if activeF i ∧ (sm.supplements.getD slot default).bmMatches (bmF i)
          then sm.insertEntity i slot else sm) sm).supplements
        = sm.supplements.set slot
            ((idxs.filter (fun i => activeF i &&
                (sm.supplements.getD slot default).bmMatches (bmF i))).foldl
              SystemSupplement.insert (sm.supplements.getD slot default)) := by
  intro idxs
  induction idxs with
  | nil =>
      intro sm h
      simp only [List.foldl_nil, List.filter_nil]
      exact (set_getD_self _ _ _ h).symm
  | cons i rest ih =>
      intro sm h
      simp only [List.foldl_cons, List.filter_cons]
      by_cases hc : activeF i = true ∧ (sm.supplements.getD slot default).bmMatches (bmF i) = true
      · rw [if_pos hc, if_pos (by rw [Bool.and_eq_true]; exact hc)]
        have hlen : slot < (sm.insertEntity i slot).supplements.length := by
          unfold SystemManagerM.insertEntity
          dsimp only
          simpa using h
        have hgd : (sm.insertEntity i slot).supplements.getD slot default
            = (sm.supplements.getD slot default).insert i := by
          unfold SystemManagerM.insertEntity
          dsimp only
          exact getD_set_self _ _ _ _ h
        rw [ih (sm.insertEntity i slot) hlen]
        have hsups : (sm.insertEntity i slot).supplements
            = sm.supplements.set slot ((sm.supplements.getD slot default).insert i) := rfl
        have hfil : rest.filter (fun j => activeF j &&
              ((sm.insertEntity i slot).supplements.getD slot default).bmMatches (bmF j))
            = rest.filter (fun j => activeF j &&
              (sm.supplements.getD slot default).bmMatches (bmF j)) := by
          apply List.filter_congr
          intro j _
          rw [hgd]
          rfl
        rw [hfil, hgd, hsups, List.set_set]
        simp only [List.foldl_cons]
      · rw [if_neg hc, if_neg (by
          intro hcc
          rw [Bool.and_eq_true] at hcc
          exact hc ⟨hcc.1, hcc.2⟩)]
        exact ih sm h

/-- The documented precondition of each facade call (spec.md §4.2-4.4): the
entity arguments name created, not-yet-removed ids; components are added only
when absent and updated/removed only when present; component ids are
registered ones, and the built-in `bool` (id 0) is managed only by the engine
itself; `setActive` is excluded (its broken system propagation is C1's
counterexample); requirement lists are non-empty and name registered ids.
`createEntity` additionally assumes the `size_t` id space is not exhausted,
which any physical execution satisfies. -/
def validOp (g : Engine) : Op → Bool
  | .createEntity => decide (g.em.totalEntityCount + 3 ≤ SENTINEL)
  | .removeEntity e => decide (e < g.em.totalEntityCount ∧ e ∉ g.em.m_removedEntities)
  | .addComponent e t _ => decide (e < g.em.totalEntityCount ∧ e ∉ g.em.m_removedEntities
      ∧ t < g.C ∧ (g.em.getBitmap e).getD t false = false)
  | .removeComponent e t => decide (e < g.em.totalEntityCount ∧ e ∉ g.em.m_removedEntities
      ∧ 0 < t ∧ t < g.C ∧ (g.em.getBitmap e).getD t false = true)
  | .setComponent e t _ => decide (e < g.em.totalEntityCount ∧ e ∉ g.em.m_removedEntities
      ∧ 0 < t ∧ t < g.C ∧ (g.em.getBitmap e).getD t false = true)
  | .shareComponent e _ t => decide (e < g.em.totalEntityCount ∧ e ∉ g.em.m_removedEntities
      ∧ t < g.C ∧ (g.em.getBitmap e).getD t false = false)
  | .setActive _ _ => false
  | .createSystem req _ => !req.isEmpty && req.all (fun r => decide (r < g.C))

/-- A call sequence each of whose calls meets its precondition in the state
it runs in. -/
def validTrace : Engine → List Op → Bool
  | _, [] => true
  | g, op :: ops => validOp g op && validTrace (g.apply op) ops

/-- The inductive invariant of valid traces: consistency of the entity
registry (bitmap per created id, reserved active bit and `bool` bit set
exactly for the live ids, recycled ids zeroed), of the built-in `bool` pool
(flag byte, one `1`-byte record per live entity at its index-map entry,
sentinel everywhere else), and of every system supplement (`SupWF`). -/
structure EngInv (g : Engine) : Prop where
  hC : 0 < g.C
  htriv : g.triv.getD 0 true = true
  bm_len : g.em.m_componentBitmaps.length = g.em.totalEntityCount
  bm_width : ∀ b ∈ g.em.m_componentBitmaps, b.length = g.C + 1
  rm_nodup : g.em.m_removedEntities.Nodup
  rm_lt : ∀ x ∈ g.em.m_removedEntities, x < g.em.totalEntityCount
  rm_zero : ∀ x ∈ g.em.m_removedEntities,
    g.em.m_componentBitmaps.getD x [] = List.replicate (g.C + 1) false
  live_bits : ∀ x, x < g.em.totalEntityCount → x ∉ g.em.m_removedEntities →
    ((g.em.m_componentBitmaps.getD x []).getD g.C false = true
      ∧ (g.em.m_componentBitmaps.getD x []).getD 0 false = true)
  total_bound : g.em.totalEntityCount + 2 ≤ SENTINEL
  arrays_len : g.cm.m_componentArrays.length = g.C
  maps_len : g.cm.m_indexMaps.length = g.C
  maps_ge : ∀ t, t < g.C → g.em.totalEntityCount ≤ (g.cm.m_indexMaps.getD t []).length
  bool_size : (g.cm.m_componentArrays.getD 0 default).componentSize = 1
  bool_flag : (g.cm.m_componentArrays.getD 0 default).m_components.getD 0 0 = 0
  pool0_len : (g.cm.m_componentArrays.getD 0 default).m_components.length
    = 2 + g.em.m_entityCount
  bool_entry : ∀ x, x < g.em.totalEntityCount → x ∉ g.em.m_removedEntities →
    (2 ≤ (g.cm.m_indexMaps.getD 0 []).getD x SENTINEL
      ∧ (g.cm.m_indexMaps.getD 0 []).getD x SENTINEL
          < (g.cm.m_componentArrays.getD 0 default).m_components.length
      ∧ (g.cm.m_componentArrays.getD 0 default).m_components.getD
          ((g.cm.m_indexMaps.getD 0 []).getD x SENTINEL) 0 = 1)
  bool_inj : ∀ x y, x < g.em.totalEntityCount → x ∉ g.em.m_removedEntities →
    y < g.em.totalEntityCount → y ∉ g.em.m_removedEntities → x ≠ y →
    (g.cm.m_indexMaps.getD 0 []).getD x SENTINEL
      ≠ (g.cm.m_indexMaps.getD 0 []).getD y SENTINEL
  sent_rm : ∀ x ∈ g.em.m_removedEntities,
    (g.cm.m_indexMaps.getD 0 []).getD x SENTINEL = SENTINEL
  sent_hi : ∀ p, g.em.totalEntityCount ≤ p →
    (g.cm.m_indexMaps.getD 0 []).getD p SENTINEL = SENTINEL
  sys_wf : ∀ sup ∈ g.sm.supplements,
    SupWF g.em.totalEntityCount g.em.m_componentBitmaps sup
  sys_req : ∀ sup ∈ g.sm.supplements, ∀ r ∈ sup.requirement, r < g.C

/-- Under the invariant the live counter counts the live ids, so a live id
keeps it positive. -/
theorem inv_count_pos (g : Engine) (hInv : EngInv g) (e : ℕ)
    (he : e < g.em.totalEntityCount) (hrm : e ∉ g.em.m_removedEntities) :
    1 ≤ g.em.m_entityCount := by
  have h := nodup_length_lt g.em.m_removedEntities g.em.totalEntityCount e
    hInv.rm_nodup hInv.rm_lt he hrm
  unfold EntityManagerM.totalEntityCount at h he
  omega

/-- `ComponentManager` operations on a non-`bool` component id leave the
`bool` pool and index map untouched. -/
theorem removeAt_zero_frame (cm : ComponentManager) (id idx e : ℕ) (hid : id ≠ 0) :
    (cm.removeAt id idx e).m_componentArrays.getD 0 default
        = cm.m_componentArrays.getD 0 default
    ∧ (cm.removeAt id idx e).m_indexMaps.getD 0 [] = cm.m_indexMaps.getD 0 []
    ∧ (cm.removeAt id idx e).m_componentArrays.length = cm.m_componentArrays.length := by
  unfold ComponentManager.removeAt
  dsimp only
  exact ⟨getD_set_ne _ _ _ _ _ hid, getD_set_ne _ _ _ _ _ hid, by simp⟩

theorem cm_addComponent_zero_frame (cm : ComponentManager) (t e : ℕ) (bytes : List ℕ)
    (tr : Bool) (ht : t ≠ 0) :
    (cm.addComponent t e bytes tr).1.m_componentArrays.getD 0 default
        = cm.m_componentArrays.getD 0 default
    ∧ (cm.addComponent t e bytes tr).1.m_indexMaps.getD 0 [] = cm.m_indexMaps.getD 0 []
    ∧ (cm.addComponent t e bytes tr).1.m_componentArrays.length
        = cm.m_componentArrays.length := by
  unfold ComponentManager.addComponent
  dsimp only
  by_cases herr : (if tr
      then (cm.m_componentArrays.getD t default).addComponentTriv
        ((cm.m_indexMaps.getD t []).getD e SENTINEL) bytes
      else (cm.m_componentArrays.getD t default).addComponentCompl
        ((cm.m_indexMaps.getD t []).getD e SENTINEL) bytes).2.2 = true
  · rw [if_pos herr]
    exact ⟨rfl, rfl, rfl⟩
  · rw [if_neg herr]
    exact ⟨getD_set_ne _ _ _ _ _ ht, getD_set_ne _ _ _ _ _ ht, by simp⟩

theorem cm_setComponent_zero_frame (cm : ComponentManager) (t e : ℕ) (newRec : List ℕ)
    (ht : t ≠ 0) :
    (cm.setComponent t e newRec).1.m_componentArrays.getD 0 default
        = cm.m_componentArrays.getD 0 default
    ∧ (cm.setComponent t e newRec).1.m_indexMaps.getD 0 [] = cm.m_indexMaps.getD 0 []
    ∧ (cm.setComponent t e newRec).1.m_componentArrays.length
        = cm.m_componentArrays.length := by
  unfold ComponentManager.setComponent
  dsimp only
  exact ⟨getD_set_ne _ _ _ _ _ ht, getD_set_ne _ _ _ _ _ ht, by simp⟩

theorem cm_share_zero_frame (cm : ComponentManager) (t e donor : ℕ) (ht : t ≠ 0) :
    (cm.share t e donor).m_componentArrays.getD 0 default
        = cm.m_componentArrays.getD 0 default
    ∧ (cm.share t e donor).m_indexMaps.getD 0 [] = cm.m_indexMaps.getD 0 []
    ∧ (cm.share t e donor).m_componentArrays.length = cm.m_componentArrays.length := by
  unfold ComponentManager.share
  dsimp only
  by_cases hs : (cm.m_indexMaps.getD t []).getD e SENTINEL ≠ SENTINEL
  · rw [if_pos hs]
    have h1 := removeAt_zero_frame cm t ((cm.m_indexMaps.getD t []).getD e SENTINEL) e ht
    exact ⟨h1.1, (getD_set_ne _ _ _ _ _ ht).trans h1.2.1, h1.2.2⟩
  · rw [if_neg hs]
    exact ⟨rfl, getD_set_ne _ _ _ _ _ ht, rfl⟩

/-- All invariant clauses except the component-manager ones depend only on
`em`, `sm`, `C`, `triv`: replacing `cm` (and the error code) preserves the
invariant as soon as the lengths and the `bool` projections survive. -/
theorem inv_cm_update (g : Engine) (cm' : ComponentManager) (err' : ℕ)
    (hInv : EngInv g)
    (hal : cm'.m_componentArrays.length = g.cm.m_componentArrays.length)
    (hml : cm'.m_indexMaps.length = g.cm.m_indexMaps.length)
    (hge : ∀ t, (cm'.m_indexMaps.getD t []).length = (g.cm.m_indexMaps.getD t []).length)
    (ha0 : cm'.m_componentArrays.getD 0 default = g.cm.m_componentArrays.getD 0 default)
    (hm0 : cm'.m_indexMaps.getD 0 [] = g.cm.m_indexMaps.getD 0 []) :
    EngInv { g with cm := cm', err := err' } := by
  refine ⟨hInv.hC, hInv.htriv, hInv.bm_len, hInv.bm_width, hInv.rm_nodup, hInv.rm_lt,
    hInv.rm_zero, hInv.live_bits, hInv.total_bound, ?_, ?_, ?_, ?_, ?_, ?_, ?_, ?_, ?_, ?_,
    hInv.sys_wf, hInv.sys_req⟩
  · rw [show ({ g with cm := cm', err := err' } : Engine).cm = cm' from rfl, hal]
    exact hInv.arrays_len
  · rw [show ({ g with cm := cm', err := err' } : Engine).cm = cm' from rfl, hml]
    exact hInv.maps_len
  · intro t ht
    rw [show ({ g with cm := cm', err := err' } : Engine).cm = cm' from rfl, hge t]
    exact hInv.maps_ge t ht
  · rw [show ({ g with cm := cm', err := err' } : Engine).cm = cm' from rfl, ha0]
    exact hInv.bool_size
  · rw [show ({ g with cm := cm', err := err' } : Engine).cm = cm' from rfl, ha0]
    exact hInv.bool_flag
  · rw [show ({ g with cm := cm', err := err' } : Engine).cm = cm' from rfl, ha0]
    exact hInv.pool0_len
  · intro x hx hxm
    rw [show ({ g with cm := cm', err := err' } : Engine).cm = cm' from rfl, ha0, hm0]
    exact hInv.bool_entry x hx hxm
  · intro x y hx hxm hy hym hxy
    rw [show ({ g with cm := cm', err := err' } : Engine).cm = cm' from rfl, hm0]
    exact hInv.bool_inj x y hx hxm hy hym hxy
  · intro x hx
    rw [show ({ g with cm := cm', err := err' } : Engine).cm = cm' from rfl, hm0]
    exact hInv.sent_rm x hx
  · intro p hp
    rw [show ({ g with cm := cm', err := err' } : Engine).cm = cm' from rfl, hm0]
    exact hInv.sent_hi p hp

/-- Lifting `sup_bitinsert_wf` over the whole supplement vector. -/
theorem insertMatchingBit_wf_all (sm : SystemManagerM) (N C : ℕ)
    (bm bm' : List (List Bool)) (e t : ℕ)
    (hsys : ∀ sup ∈ sm.supplements, SupWF N bm sup)
    (hreq : ∀ sup ∈ sm.supplements, ∀ r ∈ sup.requirement, r < C)
    (heN : e < N)
    (hother : ∀ x, x ≠ e → bm'.getD x [] = bm.getD x [])
    (het : (bm.getD e []).getD t false = false)
    (hebit : ∀ r, r < C →
      ((bm'.getD e []).getD r false = true ↔ (r = t ∨ (bm.getD e []).getD r false = true))) :
    (∀ sup ∈ (sm.insertMatchingBit e (bm'.getD e []) t).supplements, SupWF N bm' sup)
    ∧ (∀ sup ∈ (sm.insertMatchingBit e (bm'.getD e []) t).supplements,
        ∀ r ∈ sup.requirement, r < C) := by
  constructor
  · intro sup' hm
    rw [insertMatchingBit_supplements] at hm
    obtain ⟨sup, hmem, hfe⟩ := List.mem_map.mp hm
    rw [← hfe]
    exact sup_bitinsert_wf N bm bm' e t sup (hsys sup hmem) heN hother het
      (fun r hr => hebit r (hreq sup hmem r hr))
  · intro sup' hm r hr
    rw [insertMatchingBit_supplements] at hm
    obtain ⟨sup, hmem, hfe⟩ := List.mem_map.mp hm
    apply hreq sup hmem
    rw [← hfe] at hr
    by_cases hG : sup.bmMatchesBit (bm'.getD e []) t = true
    · rw [if_pos hG] at hr
      exact hr
    · rw [if_neg hG] at hr
      exact hr

/-- `ecs::addComponentConfiguration(e, id)` (ecs.h:856-868) preserves the
invariant whenever `e` is live and bit `id` was clear: the bitmap gains the
bit and exactly the now-matching systems gain `e`. -/
theorem inv_config (g : Engine) (e t : ℕ)
    (hInv : EngInv g)
    (he : e < g.em.totalEntityCount) (hrm : e ∉ g.em.m_removedEntities)
    (ht : t < g.C)
    (htbit : (g.em.m_componentBitmaps.getD e []).getD t false = false) :
    EngInv (g.addComponentConfiguration e t) := by
  have hlb := hInv.live_bits e he hrm
  have ht0 : t ≠ 0 := by
    intro hc
    rw [hc, hlb.2] at htbit
    exact absurd htbit (by simp)
  have htC : t ≠ g.C := by omega
  have hblen : g.em.m_componentBitmaps.length = g.em.totalEntityCount := hInv.bm_len
  have hrowlen : (g.em.m_componentBitmaps.getD e []).length = g.C + 1 :=
    hInv.bm_width _ (getD_mem _ _ _ (by omega))
  have hother : ∀ x, x ≠ e →
      ((g.em.m_componentBitmaps.set e
          ((g.em.m_componentBitmaps.getD e []).set t true)).getD x [])
        = g.em.m_componentBitmaps.getD x [] := by
    intro x hx
    exact getD_set_ne _ _ _ _ _ (fun hc => hx hc.symm)
  have hself : ((g.em.m_componentBitmaps.set e
        ((g.em.m_componentBitmaps.getD e []).set t true)).getD e [])
      = (g.em.m_componentBitmaps.getD e []).set t true :=
    getD_set_self _ _ _ _ (by omega)
  have hebit : ∀ r, r < g.C →
      ((((g.em.m_componentBitmaps.set e
            ((g.em.m_componentBitmaps.getD e []).set t true)).getD e []).getD r false = true)
        ↔ (r = t ∨ (g.em.m_componentBitmaps.getD e []).getD r false = true)) := by
    intro r hr
    rw [hself]
    by_cases hrt : r = t
    · subst hrt
      rw [getD_set_self _ _ _ _ (by omega)]
      simp
    · rw [getD_set_ne _ _ _ _ _ (fun hc => hrt hc.symm)]
      constructor
      · intro h1; exact Or.inr h1
      · rintro (h1 | h1)
        · exact absurd h1 hrt
        · exact h1
  have hwfall := insertMatchingBit_wf_all g.sm g.em.totalEntityCount g.C
    g.em.m_componentBitmaps
    (g.em.m_componentBitmaps.set e ((g.em.m_componentBitmaps.getD e []).set t true))
    e t hInv.sys_wf hInv.sys_req he hother htbit hebit
  unfold Engine.addComponentConfiguration
  dsimp only
  unfold EntityManagerM.setComponentBit EntityManagerM.getBitmap
  dsimp only
  refine ⟨hInv.hC, hInv.htriv, ?_, ?_, hInv.rm_nodup, hInv.rm_lt, ?_, ?_, hInv.total_bound,
    hInv.arrays_len, hInv.maps_len, hInv.maps_ge, hInv.bool_size, hInv.bool_flag,
    hInv.pool0_len, hInv.bool_entry, hInv.bool_inj, hInv.sent_rm, hInv.sent_hi,
    hwfall.1, hwfall.2⟩
  · show ((g.em.m_componentBitmaps.set e
        ((g.em.m_componentBitmaps.getD e []).set t true))).length = g.em.totalEntityCount
    rw [List.length_set]
    exact hblen
  · show ∀ b ∈ (g.em.m_componentBitmaps.set e
        ((g.em.m_componentBitmaps.getD e []).set t true)), b.length = g.C + 1
    intro b hb
    rcases List.mem_or_eq_of_mem_set hb with h1 | h1
    · exact hInv.bm_width b h1
    · rw [h1, List.length_set]
      exact hrowlen
  · show ∀ x ∈ g.em.m_removedEntities,
        (g.em.m_componentBitmaps.set e
          ((g.em.m_componentBitmaps.getD e []).set t true)).getD x []
        = List.replicate (g.C + 1) false
    intro x hx
    rw [hother x (fun hc => hrm (hc ▸ hx))]
    exact hInv.rm_zero x hx
  · show ∀ x, x < g.em.totalEntityCount → x ∉ g.em.m_removedEntities →
        (((g.em.m_componentBitmaps.set e
            ((g.em.m_componentBitmaps.getD e []).set t true)).getD x []).getD g.C false = true
          ∧ ((g.em.m_componentBitmaps.set e
            ((g.em.m_componentBitmaps.getD e []).set t true)).getD x []).getD 0 false = true)
    intro x hx hxm
    by_cases hxe : x = e
    · subst hxe
      rw [hself]
      constructor
      · rw [getD_set_ne _ _ _ _ _ htC]
        exact hlb.1
      · rw [getD_set_ne _ _ _ _ _ ht0]
        exact hlb.2
    · rw [hother x hxe]
      exact hInv.live_bits x hx hxm

/-- Lifting `sup_extract_wf` over the supplement vector for the
bit-qualified removal loop (`componentRemoved`, ecs.h:1489-1504), which runs
on the pre-update bitmap row of `e`. -/
theorem componentRemoved_wf_all (sm : SystemManagerM) (N C : ℕ)
    (bm bm' : List (List Bool)) (e t : ℕ)
    (hsys : ∀ sup ∈ sm.supplements, SupWF N bm sup)
    (hreq : ∀ sup ∈ sm.supplements, ∀ r ∈ sup.requirement, r < C)
    (hother : ∀ x, x ≠ e → bm'.getD x [] = bm.getD x [])
    (hnewt : (bm'.getD e []).getD t false = false)
    (hbits : ∀ r, r ≠ t → (bm'.getD e []).getD r false = (bm.getD e []).getD r false) :
    (∀ sup ∈ (sm.componentRemoved e t (bm.getD e [])).supplements, SupWF N bm' sup)
    ∧ (∀ sup ∈ (sm.componentRemoved e t (bm.getD e [])).supplements,
        ∀ r ∈ sup.requirement, r < C) := by
  constructor
  · intro sup' hm
    rw [componentRemoved_supplements] at hm
    obtain ⟨sup, hmem, hfe⟩ := List.mem_map.mp hm
    rw [← hfe]
    by_cases htreq : t ∈ sup.requirement
    · apply sup_extract_wf N bm bm' e sup _ (hsys sup hmem) hother
      · rintro ⟨_, hall⟩
        rw [hall t htreq] at hnewt
        exact absurd hnewt (by simp)
      · rw [bmMatchesBit_iff]
        unfold ReqSat
        constructor
        · rintro ⟨⟨h1, h2⟩, _⟩
          exact ⟨h1, h2⟩
        · rintro ⟨h1, h2⟩
          exact ⟨⟨h1, h2⟩, htreq⟩
    · have hG : ¬ sup.bmMatchesBit (bm.getD e []) t = true := by
        intro hc
        exact htreq ((bmMatchesBit_iff sup (bm.getD e []) t).mp hc).2
      rw [if_neg hG]
      apply supwf_congr N bm bm' sup (hsys sup hmem)
      intro x r hr
      by_cases hxe : x = e
      · rw [hxe]
        exact hbits r (fun hc => htreq (hc ▸ hr))
      · rw [hother x hxe]
  · intro sup' hm r hr
    rw [componentRemoved_supplements] at hm
    obtain ⟨sup, hmem, hfe⟩ := List.mem_map.mp hm
    apply hreq sup hmem
    rw [← hfe] at hr
    by_cases hG : sup.bmMatchesBit (bm.getD e []) t = true
    · rw [if_pos hG] at hr
      exact hr
    · rw [if_neg hG] at hr
      exact hr

/-- `ecs::setComponent` on a valid call (live entity, registered non-`bool`
id) preserves the invariant: only the pool and index map of id `t ≠ 0`
change. -/
theorem inv_step_setComponent (g : Engine) (e t : ℕ) (newRec : List ℕ)
    (hInv : EngInv g)
    (he : e < g.em.totalEntityCount) (ht0 : 0 < t) :
    EngInv (g.setComponent e t newRec) := by
  have hcont : g.em.contains e = true := by
    unfold EntityManagerM.contains
    simpa using he
  unfold Engine.setComponent
  rw [if_neg (not_not_intro hcont)]
  dsimp only
  have hlen := cm_setComponent_map_lengths g.cm t e newRec
  have hframe := cm_setComponent_zero_frame g.cm t e newRec (by omega)
  exact inv_cm_update g (g.cm.setComponent t e newRec).1 _ hInv hframe.2.2 hlen.1 hlen.2
    hframe.1 hframe.2.1

/-- `ecs::addComponent` on a valid call (live entity, absent component id
`t < C`) preserves the invariant — including when a corrupted index-map
entry triggers the `DoubleInsert` path, because the configuration step still
only inserts `e` into systems it now matches. -/
theorem inv_step_addComponent (g : Engine) (e t : ℕ) (bytes : List ℕ)
    (hInv : EngInv g)
    (he : e < g.em.totalEntityCount) (hrm : e ∉ g.em.m_removedEntities)
    (ht : t < g.C)
    (htbit : (g.em.m_componentBitmaps.getD e []).getD t false = false) :
    EngInv (g.addComponent e t bytes) := by
  have hcont : g.em.contains e = true := by
    unfold EntityManagerM.contains
    simpa using he
  have ht0 : t ≠ 0 := by
    intro hc
    rw [hc, (hInv.live_bits e he hrm).2] at htbit
    exact absurd htbit (by simp)
  unfold Engine.addComponent
  rw [if_neg (not_not_intro hcont)]
  dsimp only
  have hlen := cm_addComponent_map_lengths g.cm t e bytes (g.triv.getD t true)
  have hframe := cm_addComponent_zero_frame g.cm t e bytes (g.triv.getD t true) ht0
  have hmid := inv_cm_update g (g.cm.addComponent t e bytes (g.triv.getD t true)).1
    (if (g.cm.addComponent t e bytes (g.triv.getD t true)).2 then 1 else g.err)
    hInv hframe.2.2 hlen.1 hlen.2 hframe.1 hframe.2.1
  exact inv_config _ e t hmid he hrm ht htbit

/-- `ecs::shareComponent` on a valid call (live receiver lacking the shared
id `t < C`) preserves the invariant. -/
theorem inv_step_shareComponent (g : Engine) (e donor t : ℕ)
    (hInv : EngInv g)
    (he : e < g.em.totalEntityCount) (hrm : e ∉ g.em.m_removedEntities)
    (ht : t < g.C)
    (htbit : (g.em.m_componentBitmaps.getD e []).getD t false = false) :
    EngInv (g.shareComponent e donor t) := by
  have hcont : g.em.contains e = true := by
    unfold EntityManagerM.contains
    simpa using he
  have ht0 : t ≠ 0 := by
    intro hc
    rw [hc, (hInv.live_bits e he hrm).2] at htbit
    exact absurd htbit (by simp)
  unfold Engine.shareComponent
  rw [if_neg (not_not_intro hcont)]
  have hlen := cm_share_map_lengths g.cm t e donor
  have hframe := cm_share_zero_frame g.cm t e donor ht0
  have hmid := inv_cm_update g (g.cm.share t e donor) g.err
    hInv hframe.2.2 hlen.1 hlen.2 hframe.1 hframe.2.1
  exact inv_config _ e t hmid he hrm ht htbit

/-- `ecs::removeComponent` on a valid call (live entity holding the
non-`bool` id `t < C`) preserves the invariant, on both the normal path and
the mismatch path (sentinel entry despite a set bit, reachable through C3's
corruption), which changes no pool. -/
theorem inv_step_removeComponent (g : Engine) (e t : ℕ)
    (hInv : EngInv g)
    (he : e < g.em.totalEntityCount) (hrm : e ∉ g.em.m_removedEntities)
    (ht0 : 0 < t) (htC : t < g.C)
    (htbit : (g.em.m_componentBitmaps.getD e []).getD t false = true) :
    EngInv (g.removeComponent e t) := by
  have hcont : g.em.contains e = true := by
    unfold EntityManagerM.contains
    simpa using he
  have hblen : g.em.m_componentBitmaps.length = g.em.totalEntityCount := hInv.bm_len
  have hrowlen : (g.em.m_componentBitmaps.getD e []).length = g.C + 1 :=
    hInv.bm_width _ (getD_mem _ _ _ (by omega))
  have hlb := hInv.live_bits e he hrm
  have hother : ∀ x, x ≠ e →
      ((g.em.m_componentBitmaps.set e
          ((g.em.m_componentBitmaps.getD e []).set t false)).getD x [])
        = g.em.m_componentBitmaps.getD x [] := by
    intro x hx
    exact getD_set_ne _ _ _ _ _ (fun hc => hx hc.symm)
  have hself : ((g.em.m_componentBitmaps.set e
        ((g.em.m_componentBitmaps.getD e []).set t false)).getD e [])
      = (g.em.m_componentBitmaps.getD e []).set t false :=
    getD_set_self _ _ _ _ (by omega)
  have hwfall := componentRemoved_wf_all g.sm g.em.totalEntityCount g.C
    g.em.m_componentBitmaps
    (g.em.m_componentBitmaps.set e ((g.em.m_componentBitmaps.getD e []).set t false))
    e t hInv.sys_wf hInv.sys_req hother
    (by rw [hself, getD_set_self _ _ _ _ (by omega)])
    (by
      intro r hr
      rw [hself, getD_set_ne _ _ _ _ _ (fun hc => hr hc.symm)])
  have hmid : EngInv { g with
      sm := g.sm.componentRemoved e t (g.em.getBitmap e),
      em := g.em.setComponentBit e t false } := by
    refine ⟨hInv.hC, hInv.htriv, ?_, ?_, hInv.rm_nodup, hInv.rm_lt, ?_, ?_, hInv.total_bound,
      hInv.arrays_len, hInv.maps_len, hInv.maps_ge, hInv.bool_size, hInv.bool_flag,
      hInv.pool0_len, hInv.bool_entry, hInv.bool_inj, hInv.sent_rm, hInv.sent_hi,
      hwfall.1, hwfall.2⟩
    · show ((g.em.m_componentBitmaps.set e
          ((g.em.m_componentBitmaps.getD e []).set t false))).length = g.em.totalEntityCount
      rw [List.length_set]
      exact hblen
    · show ∀ b ∈ (g.em.m_componentBitmaps.set e
          ((g.em.m_componentBitmaps.getD e []).set t false)), b.length = g.C + 1
      intro b hb
      rcases List.mem_or_eq_of_mem_set hb with h1 | h1
      · exact hInv.bm_width b h1
      · rw [h1, List.length_set]
        exact hrowlen
    · show ∀ x ∈ g.em.m_removedEntities,
          (g.em.m_componentBitmaps.set e
            ((g.em.m_componentBitmaps.getD e []).set t false)).getD x []
          = List.replicate (g.C + 1) false
      intro x hx
      rw [hother x (fun hc => hrm (hc ▸ hx))]
      exact hInv.rm_zero x hx
    · show ∀ x, x < g.em.totalEntityCount → x ∉ g.em.m_removedEntities →
          (((g.em.m_componentBitmaps.set e
              ((g.em.m_componentBitmaps.getD e []).set t false)).getD x []).getD g.C false
            = true
            ∧ ((g.em.m_componentBitmaps.set e
              ((g.em.m_componentBitmaps.getD e []).set t false)).getD x []).getD 0 false
            = true)
      intro x hx hxm
      by_cases hxe : x = e
      · subst hxe
        rw [hself]
        constructor
        · rw [getD_set_ne _ _ _ _ _ (by omega)]
          exact hlb.1
        · rw [getD_set_ne _ _ _ _ _ (by omega)]
          exact hlb.2
      · rw [hother x hxe]
        exact hInv.live_bits x hx hxm
  unfold Engine.removeComponent
  rw [if_neg (not_not_intro hcont)]
  dsimp only
  by_cases hidx : (g.cm.m_indexMaps.getD t []).getD e SENTINEL = SENTINEL
  · rw [if_pos hidx]
    exact inv_cm_update { g with
        sm := g.sm.componentRemoved e t (g.em.getBitmap e),
        em := g.em.setComponentBit e t false } g.cm 2 hmid rfl rfl (fun u => rfl) rfl rfl
  · rw [if_neg hidx]
    have hlen := removeAt_map_lengths g.cm t
      ((g.cm.m_indexMaps.getD t []).getD e SENTINEL) e
    have hframe := removeAt_zero_frame g.cm t
      ((g.cm.m_indexMaps.getD t []).getD e SENTINEL) e (by omega)
    exact inv_cm_update { g with
        sm := g.sm.componentRemoved e t (g.em.getBitmap e),
        em := g.em.setComponentBit e t false }
      (g.cm.removeAt t ((g.cm.m_indexMaps.getD t []).getD e SENTINEL) e) g.err hmid
      hframe.2.2 hlen.1 hlen.2 hframe.1 hframe.2.1

theorem getD_replicate_false (n r : ℕ) : (List.replicate n false).getD r false = false := by
  by_cases hr : r < n
  · rw [List.getD_eq_getElem _ _ (by simpa using hr)]
    simp
  · rw [List.getD_eq_default _ _ (by simpa using hr)]

/-- Lifting `sup_extract_wf` over the supplement vector for the full-match
removal loop (`extractEntity`, ecs.h:1471-1480), run on the pre-reset bitmap
row of `e`; afterwards `e`'s row satisfies no requirement bit. -/
theorem extractEntity_wf_all (sm : SystemManagerM) (N C : ℕ)
    (bm bm' : List (List Bool)) (e : ℕ)
    (hsys : ∀ sup ∈ sm.supplements, SupWF N bm sup)
    (hreq : ∀ sup ∈ sm.supplements, ∀ r ∈ sup.requirement, r < C)
    (hother : ∀ x, x ≠ e → bm'.getD x [] = bm.getD x [])
    (hrow : ∀ r, (bm'.getD e []).getD r false = false) :
    (∀ sup ∈ (sm.extractEntity e (bm.getD e [])).supplements, SupWF N bm' sup)
    ∧ (∀ sup ∈ (sm.extractEntity e (bm.getD e [])).supplements,
        ∀ r ∈ sup.requirement, r < C) := by
  constructor
  · intro sup' hm
    rw [extractEntity_supplements] at hm
    obtain ⟨sup, hmem, hfe⟩ := List.mem_map.mp hm
    rw [← hfe]
    apply sup_extract_wf N bm bm' e sup _ (hsys sup hmem) hother
    · rintro ⟨hne, hall⟩
      obtain ⟨r, hr⟩ := List.exists_mem_of_ne_nil _ hne
      exact absurd ((hall r hr).symm.trans (hrow r)) (by simp)
    · exact bmMatches_iff sup (bm.getD e [])
  · intro sup' hm r hr
    rw [extractEntity_supplements] at hm
    obtain ⟨sup, hmem, hfe⟩ := List.mem_map.mp hm
    apply hreq sup hmem
    rw [← hfe] at hr
    by_cases hG : sup.bmMatches (bm.getD e []) = true
    · rw [if_pos hG] at hr
      exact hr
    · rw [if_neg hG] at hr
      exact hr

theorem cm_removeEntity_arrays_len (cm : ComponentManager) (e : ℕ) :
    (cm.removeEntity e).m_componentArrays.length = cm.m_componentArrays.length := by
  unfold ComponentManager.removeEntity
  generalize (List.range cm.m_indexMaps.length) = idxs
  induction idxs generalizing cm with
  | nil => rfl
  | cons i rest ih =>
      simp only [List.foldl_cons]
      set cm1 := (fun cm id =>
        let index := (cm.m_indexMaps.getD id []).getD e SENTINEL
        if index = SENTINEL then cm else cm.removeAt id index e) cm i with hcm1
      have hstep : cm1.m_componentArrays.length = cm.m_componentArrays.length := by
        rw [hcm1]
        dsimp only
        by_cases hs : (cm.m_indexMaps.getD i []).getD e SENTINEL = SENTINEL
        · rw [if_pos hs]
        · rw [if_neg hs]
          unfold ComponentManager.removeAt
          dsimp only
          simp
      exact (ih cm1).trans hstep

/-- The per-type fold of `ComponentManager::removeEntity` visits id 0 first
and the remaining ids leave the `bool` projections unchanged. -/
theorem cm_removeEntity_zero (cm : ComponentManager) (e : ℕ)
    (hC : 0 < cm.m_indexMaps.length) :
    (cm.removeEntity e).m_indexMaps.getD 0 []
      = (if (cm.m_indexMaps.getD 0 []).getD e SENTINEL = SENTINEL then cm
          else cm.removeAt 0 ((cm.m_indexMaps.getD 0 []).getD e SENTINEL) e).m_indexMaps.getD
          0 []
    ∧ (cm.removeEntity e).m_componentArrays.getD 0 default
      = (if (cm.m_indexMaps.getD 0 []).getD e SENTINEL = SENTINEL then cm
          else cm.removeAt 0
            ((cm.m_indexMaps.getD 0 []).getD e SENTINEL) e).m_componentArrays.getD 0
          default := by
  have haux : ∀ (idxs : List ℕ) (cm0 : ComponentManager), (∀ i ∈ idxs, i ≠ 0) →
      ((idxs.foldl (fun cm id =>
          let index := (cm.m_indexMaps.getD id []).getD e SENTINEL
          if index = SENTINEL then cm else cm.removeAt id index e) cm0).m_indexMaps.getD 0 []
        = cm0.m_indexMaps.getD 0 [])
      ∧ ((idxs.foldl (fun cm id =>
          let index := (cm.m_indexMaps.getD id []).getD e SENTINEL
          if index = SENTINEL then cm else cm.removeAt id index e)
            cm0).m_componentArrays.getD 0 default
        = cm0.m_componentArrays.getD 0 default) := by
    intro idxs
    induction idxs with
    | nil => exact fun cm0 _ => ⟨rfl, rfl⟩
    | cons i rest ih =>
        intro cm0 hne
        simp only [List.foldl_cons]
        set cm1 := (fun cm id =>
          let index := (cm.m_indexMaps.getD id []).getD e SENTINEL
          if index = SENTINEL then cm else cm.removeAt id index e) cm0 i with hcm1
        have hstep : cm1.m_indexMaps.getD 0 [] = cm0.m_indexMaps.getD 0 []
            ∧ cm1.m_componentArrays.getD 0 default
              = cm0.m_componentArrays.getD 0 default := by
          rw [hcm1]
          dsimp only
          by_cases hs : (cm0.m_indexMaps.getD i []).getD e SENTINEL = SENTINEL
          · rw [if_pos hs]
            exact ⟨rfl, rfl⟩
          · rw [if_neg hs]
            have hfr := removeAt_zero_frame cm0 i
              ((cm0.m_indexMaps.getD i []).getD e SENTINEL) e (hne i (by simp))
            exact ⟨hfr.2.1, hfr.1⟩
        have hrec := ih cm1 (fun j hj => hne j (by simp [hj]))
        exact ⟨hrec.1.trans hstep.1, hrec.2.trans hstep.2⟩
  unfold ComponentManager.removeEntity
  have hrange : List.range cm.m_indexMaps.length
      = 0 :: List.range' 1 (cm.m_indexMaps.length - 1) := by
    rw [List.range_eq_range']
    have h1 : cm.m_indexMaps.length = (cm.m_indexMaps.length - 1) + 1 := by omega
    conv_lhs => rw [h1]
    rw [List.range'_succ]
  rw [hrange]
  simp only [List.foldl_cons]
  have hh := haux (List.range' 1 (cm.m_indexMaps.length - 1))
    ((fun cm id =>
      let index := (cm.m_indexMaps.getD id []).getD e SENTINEL
      if index = SENTINEL then cm else cm.removeAt id index e) cm 0)
    (by
      intro i hi
      have := List.mem_range'_1.mp hi
      omega)
  exact ⟨hh.1, hh.2⟩

/-- `ComponentManager::remove` on the `bool` pool (fixed-size records of one
byte): the pool drops exactly the byte at `idx` and every entry beyond `idx`
slides down by one, sentinels preserved. -/
theorem removeAt_zero_bool (cm : ComponentManager) (idx e : ℕ)
    (hCa : 0 < cm.m_componentArrays.length) (hCm : 0 < cm.m_indexMaps.length)
    (hflag : (cm.m_componentArrays.getD 0 default).m_components.getD 0 0 = 0)
    (hsize : (cm.m_componentArrays.getD 0 default).componentSize = 1)
    (hle : idx + 1 ≤ (cm.m_componentArrays.getD 0 default).m_components.length) :
    (cm.removeAt 0 idx e).m_componentArrays.getD 0 default
      = { cm.m_componentArrays.getD 0 default with
          m_components := (cm.m_componentArrays.getD 0 default).m_components.take idx
            ++ (cm.m_componentArrays.getD 0 default).m_components.drop (idx + 1) }
    ∧ (cm.removeAt 0 idx e).m_indexMaps.getD 0 []
      = ((cm.m_indexMaps.getD 0 []).set e SENTINEL).map
          (fun p => if idx < p ∧ p ≠ SENTINEL then p - 1 else p) := by
  have hcomplex : (cm.m_componentArrays.getD 0 default).complex = false := by
    unfold ComponentArray.complex
    rw [hflag]
    simp
  have hov := overwrite_spec (cm.m_componentArrays.getD 0 default) idx 1
    (by rw [hcomplex, hsize]; simp) (by omega)
  unfold ComponentManager.removeAt
  rw [hov]
  dsimp only
  exact ⟨getD_set_self _ _ _ _ hCa, getD_set_self _ _ _ _ hCm⟩

/-- `ecs::removeEntity` on a valid call (live entity) preserves the
invariant: the id's components are stripped (the `bool` pool compacts by one
byte and later entries slide down), the bitmap is zeroed, every matching
system loses the entity, and the id moves to the recycle list. -/
theorem inv_step_removeEntity (g : Engine) (e : ℕ)
    (hInv : EngInv g)
    (he : e < g.em.totalEntityCount) (hrm : e ∉ g.em.m_removedEntities) :
    EngInv (g.removeEntity e) := by
  have hcont : g.em.contains e = true := by
    unfold EntityManagerM.contains
    simpa using he
  have htot : g.em.totalEntityCount
      = g.em.m_entityCount + g.em.m_removedEntities.length := rfl
  have hcount : 1 ≤ g.em.m_entityCount := inv_count_pos g hInv e he hrm
  have htotal' : (g.em.removeEntity g.C e).totalEntityCount = g.em.totalEntityCount := by
    unfold EntityManagerM.removeEntity EntityManagerM.totalEntityCount
    dsimp only
    rw [List.length_append, List.length_singleton]
    omega
  have hbe := hInv.bool_entry e he hrm
  have hplen : (g.cm.m_componentArrays.getD 0 default).m_components.length
      = 2 + g.em.m_entityCount := hInv.pool0_len
  have hpsent : (g.cm.m_componentArrays.getD 0 default).m_components.length ≤ SENTINEL := by
    have := hInv.total_bound
    omega
  have hidx_ne : (g.cm.m_indexMaps.getD 0 []).getD e SENTINEL ≠ SENTINEL := by omega
  have hCm : 0 < g.cm.m_indexMaps.length := by
    rw [hInv.maps_len]
    exact hInv.hC
  have hCa : 0 < g.cm.m_componentArrays.length := by
    rw [hInv.arrays_len]
    exact hInv.hC
  have himlen : g.em.totalEntityCount ≤ (g.cm.m_indexMaps.getD 0 []).length :=
    hInv.maps_ge 0 hInv.hC
  have hzero := cm_removeEntity_zero g.cm e hCm
  rw [if_neg hidx_ne] at hzero
  have hbool := removeAt_zero_bool g.cm ((g.cm.m_indexMaps.getD 0 []).getD e SENTINEL) e
    hCa hCm hInv.bool_flag hInv.bool_size (by omega)
  have harr0 : (g.cm.removeEntity e).m_componentArrays.getD 0 default
      = { g.cm.m_componentArrays.getD 0 default with
          m_components := (g.cm.m_componentArrays.getD 0 default).m_components.take
              ((g.cm.m_indexMaps.getD 0 []).getD e SENTINEL)
            ++ (g.cm.m_componentArrays.getD 0 default).m_components.drop
              ((g.cm.m_indexMaps.getD 0 []).getD e SENTINEL + 1) } :=
    hzero.2.trans hbool.1
  have himap0 : (g.cm.removeEntity e).m_indexMaps.getD 0 []
      = ((g.cm.m_indexMaps.getD 0 []).set e SENTINEL).map
          (fun p => if (g.cm.m_indexMaps.getD 0 []).getD e SENTINEL < p ∧ p ≠ SENTINEL
            then p - 1 else p) :=
    hzero.1.trans hbool.2
  have htklen : ((g.cm.m_componentArrays.getD 0 default).m_components.take
      ((g.cm.m_indexMaps.getD 0 []).getD e SENTINEL)).length
      = (g.cm.m_indexMaps.getD 0 []).getD e SENTINEL := by
    rw [List.length_take]
    omega
  have hbytekeep : ∀ p, p < (g.cm.m_indexMaps.getD 0 []).getD e SENTINEL →
      ((g.cm.m_componentArrays.getD 0 default).m_components.take
          ((g.cm.m_indexMaps.getD 0 []).getD e SENTINEL)
        ++ (g.cm.m_componentArrays.getD 0 default).m_components.drop
          ((g.cm.m_indexMaps.getD 0 []).getD e SENTINEL + 1)).getD p 0
      = (g.cm.m_componentArrays.getD 0 default).m_components.getD p 0 := by
    intro p hp
    rw [List.getD_append _ _ 0 p (by rw [htklen]; exact hp)]
    exact getD_take_lt _ _ _ _ hp
  have hbyteshift : ∀ p, (g.cm.m_indexMaps.getD 0 []).getD e SENTINEL ≤ p →
      ((g.cm.m_componentArrays.getD 0 default).m_components.take
          ((g.cm.m_indexMaps.getD 0 []).getD e SENTINEL)
        ++ (g.cm.m_componentArrays.getD 0 default).m_components.drop
          ((g.cm.m_indexMaps.getD 0 []).getD e SENTINEL + 1)).getD p 0
      = (g.cm.m_componentArrays.getD 0 default).m_components.getD (p + 1) 0 := by
    intro p hp
    rw [List.getD_append_right _ _ 0 p (by rw [htklen]; exact hp), htklen, getD_drop]
    have harith : (g.cm.m_indexMaps.getD 0 []).getD e SENTINEL + 1
        + (p - (g.cm.m_indexMaps.getD 0 []).getD e SENTINEL) = p + 1 := by omega
    rw [harith]
  have hml := cm_removeEntity_map_lengths g.cm e
  have harr := cm_removeEntity_arrays_len g.cm e
  have hemc : (g.em.removeEntity g.C e).m_componentBitmaps
      = g.em.m_componentBitmaps.set e (List.replicate (g.C + 1) false) := rfl
  have hemr : (g.em.removeEntity g.C e).m_removedEntities
      = g.em.m_removedEntities ++ [e] := rfl
  have hblen := hInv.bm_len
  have hwfall := extractEntity_wf_all g.sm g.em.totalEntityCount g.C
    g.em.m_componentBitmaps
    (g.em.m_componentBitmaps.set e (List.replicate (g.C + 1) false)) e
    hInv.sys_wf hInv.sys_req
    (fun x hx => getD_set_ne _ _ _ _ _ (fun hc => hx hc.symm))
    (by
      intro r
      rw [getD_set_self _ _ _ _ (by omega)]
      exact getD_replicate_false _ _)
  unfold Engine.removeEntity
  rw [if_neg (not_not_intro hcont)]
  refine ⟨hInv.hC, hInv.htriv, ?_, ?_, ?_, ?_, ?_, ?_, ?_, ?_, ?_, ?_, ?_, ?_, ?_, ?_, ?_,
    ?_, ?_, ?_, ?_⟩
  · show (g.em.removeEntity g.C e).m_componentBitmaps.length
        = (g.em.removeEntity g.C e).totalEntityCount
    rw [htotal', hemc, List.length_set]
    exact hblen
  · show ∀ b ∈ (g.em.removeEntity g.C e).m_componentBitmaps, b.length = g.C + 1
    intro b hb
    rw [hemc] at hb
    rcases List.mem_or_eq_of_mem_set hb with h1 | h1
    · exact hInv.bm_width b h1
    · rw [h1, List.length_replicate]
  · show (g.em.removeEntity g.C e).m_removedEntities.Nodup
    rw [hemr, List.nodup_append]
    refine ⟨hInv.rm_nodup, List.nodup_singleton e, ?_⟩
    intro x hx hx2
    simp only [List.mem_singleton] at hx2
    subst hx2
    exact hrm hx
  · show ∀ x ∈ (g.em.removeEntity g.C e).m_removedEntities,
        x < (g.em.removeEntity g.C e).totalEntityCount
    intro x hx
    rw [htotal']
    rw [hemr] at hx
    rcases List.mem_append.mp hx with h1 | h1
    · exact hInv.rm_lt x h1
    · simp only [List.mem_singleton] at h1
      subst h1
      exact he
  · show ∀ x ∈ (g.em.removeEntity g.C e).m_removedEntities,
        (g.em.removeEntity g.C e).m_componentBitmaps.getD x []
          = List.replicate (g.C + 1) false
    intro x hx
    rw [hemr] at hx
    rw [hemc]
    rcases List.mem_append.mp hx with h1 | h1
    · rw [getD_set_ne _ _ _ _ _ (fun hc => hrm (by rw [hc]; exact h1))]
      exact hInv.rm_zero x h1
    · simp only [List.mem_singleton] at h1
      subst h1
      rw [getD_set_self _ _ _ _ (by omega)]
  · show ∀ x, x < (g.em.removeEntity g.C e).totalEntityCount →
        x ∉ (g.em.removeEntity g.C e).m_removedEntities →
        (((g.em.removeEntity g.C e).m_componentBitmaps.getD x []).getD g.C false = true
          ∧ ((g.em.removeEntity g.C e).m_componentBitmaps.getD x []).getD 0 false = true)
    intro x hx hxm
    rw [htotal'] at hx
    rw [hemr] at hxm
    simp only [List.mem_append, List.mem_singleton, not_or] at hxm
    rw [hemc, getD_set_ne _ _ _ _ _ (fun hc => hxm.2 hc.symm)]
    exact hInv.live_bits x hx hxm.1
  · show (g.em.removeEntity g.C e).totalEntityCount + 2 ≤ SENTINEL
    rw [htotal']
    exact hInv.total_bound
  · show (g.cm.removeEntity e).m_componentArrays.length = g.C
    rw [harr]
    exact hInv.arrays_len
  · show (g.cm.removeEntity e).m_indexMaps.length = g.C
    rw [hml.1]
    exact hInv.maps_len
  · show ∀ t, t < g.C → (g.em.removeEntity g.C e).totalEntityCount
        ≤ ((g.cm.removeEntity e).m_indexMaps.getD t []).length
    intro t ht
    rw [htotal', hml.2 t]
    exact hInv.maps_ge t ht
  · show ((g.cm.removeEntity e).m_componentArrays.getD 0 default).componentSize = 1
    rw [harr0]
    exact hInv.bool_size
  · show ((g.cm.removeEntity e).m_componentArrays.getD 0 default).m_components.getD 0 0 = 0
    rw [harr0]
    dsimp only
    rw [hbytekeep 0 (by omega)]
    exact hInv.bool_flag
  · show ((g.cm.removeEntity e).m_componentArrays.getD 0 default).m_components.length
        = 2 + (g.em.removeEntity g.C e).m_entityCount
    rw [harr0]
    dsimp only
    rw [List.length_append, List.length_take, List.length_drop]
    show _ = 2 + (g.em.m_entityCount - 1)
    omega
  · show ∀ x, x < (g.em.removeEntity g.C e).totalEntityCount →
        x ∉ (g.em.removeEntity g.C e).m_removedEntities →
        (2 ≤ ((g.cm.removeEntity e).m_indexMaps.getD 0 []).getD x SENTINEL
          ∧ ((g.cm.removeEntity e).m_indexMaps.getD 0 []).getD x SENTINEL
              < ((g.cm.removeEntity e).m_componentArrays.getD 0 default).m_components.length
          ∧ ((g.cm.removeEntity e).m_componentArrays.getD 0 default).m_components.getD
              (((g.cm.removeEntity e).m_indexMaps.getD 0 []).getD x SENTINEL) 0 = 1)
    intro x hx hxm
    rw [htotal'] at hx
    rw [hemr] at hxm
    simp only [List.mem_append, List.mem_singleton, not_or] at hxm
    have hbx := hInv.bool_entry x hx hxm.1
    have hqx_ne : (g.cm.m_indexMaps.getD 0 []).getD x SENTINEL
        ≠ (g.cm.m_indexMaps.getD 0 []).getD e SENTINEL :=
      hInv.bool_inj x e hx hxm.1 he hrm hxm.2
    have hxlen : x < ((g.cm.m_indexMaps.getD 0 []).set e SENTINEL).length := by
      rw [List.length_set]
      omega
    rw [himap0, getD_map_lt _ _ _ _ SENTINEL hxlen,
      getD_set_ne _ _ _ _ _ (fun hc => hxm.2 hc.symm), harr0]
    dsimp only
    have hplen' : ((g.cm.m_componentArrays.getD 0 default).m_components.take
          ((g.cm.m_indexMaps.getD 0 []).getD e SENTINEL)
        ++ (g.cm.m_componentArrays.getD 0 default).m_components.drop
          ((g.cm.m_indexMaps.getD 0 []).getD e SENTINEL + 1)).length
        = (g.cm.m_componentArrays.getD 0 default).m_components.length - 1 := by
      rw [List.length_append, List.length_take, List.length_drop]
      omega
    by_cases hq : (g.cm.m_indexMaps.getD 0 []).getD e SENTINEL
        < (g.cm.m_indexMaps.getD 0 []).getD x SENTINEL
    · rw [if_pos ⟨hq, by omega⟩, hplen']
      refine ⟨by omega, by omega, ?_⟩
      rw [hbyteshift _ (by omega)]
      have harith : (g.cm.m_indexMaps.getD 0 []).getD x SENTINEL - 1 + 1
          = (g.cm.m_indexMaps.getD 0 []).getD x SENTINEL := by omega
      rw [harith]
      exact hbx.2.2
    · rw [if_neg (by
        rintro ⟨h1, _⟩
        exact hq h1), hplen']
      refine ⟨hbx.1, by omega, ?_⟩
      rw [hbytekeep _ (by omega)]
      exact hbx.2.2
  · show ∀ x y, x < (g.em.removeEntity g.C e).totalEntityCount →
        x ∉ (g.em.removeEntity g.C e).m_removedEntities →
        y < (g.em.removeEntity g.C e).totalEntityCount →
        y ∉ (g.em.removeEntity g.C e).m_removedEntities → x ≠ y →
        ((g.cm.removeEntity e).m_indexMaps.getD 0 []).getD x SENTINEL
          ≠ ((g.cm.removeEntity e).m_indexMaps.getD 0 []).getD y SENTINEL
    intro x y hx hxm hy hym hxy
    rw [htotal'] at hx hy
    rw [hemr] at hxm hym
    simp only [List.mem_append, List.mem_singleton, not_or] at hxm hym
    have hbx := hInv.bool_entry x hx hxm.1
    have hby := hInv.bool_entry y hy hym.1
    have hqx_ne : (g.cm.m_indexMaps.getD 0 []).getD x SENTINEL
        ≠ (g.cm.m_indexMaps.getD 0 []).getD e SENTINEL :=
      hInv.bool_inj x e hx hxm.1 he hrm hxm.2
    have hqy_ne : (g.cm.m_indexMaps.getD 0 []).getD y SENTINEL
        ≠ (g.cm.m_indexMaps.getD 0 []).getD e SENTINEL :=
      hInv.bool_inj y e hy hym.1 he hrm hym.2
    have hqxy : (g.cm.m_indexMaps.getD 0 []).getD x SENTINEL
        ≠ (g.cm.m_indexMaps.getD 0 []).getD y SENTINEL :=
      hInv.bool_inj x y hx hxm.1 hy hym.1 hxy
    have hxlen : x < ((g.cm.m_indexMaps.getD 0 []).set e SENTINEL).length := by
      rw [List.length_set]
      omega
    have hylen : y < ((g.cm.m_indexMaps.getD 0 []).set e SENTINEL).length := by
      rw [List.length_set]
      omega
    rw [himap0, getD_map_lt _ _ _ _ SENTINEL hxlen, getD_map_lt _ _ _ _ SENTINEL hylen,
      getD_set_ne _ _ _ _ _ (fun hc => hxm.2 hc.symm),
      getD_set_ne _ _ _ _ _ (fun hc => hym.2 hc.symm)]
    by_cases h1 : (g.cm.m_indexMaps.getD 0 []).getD e SENTINEL
        < (g.cm.m_indexMaps.getD 0 []).getD x SENTINEL
    · rw [if_pos ⟨h1, by omega⟩]
      by_cases h2 : (g.cm.m_indexMaps.getD 0 []).getD e SENTINEL
          < (g.cm.m_indexMaps.getD 0 []).getD y SENTINEL
      · rw [if_pos ⟨h2, by omega⟩]
        omega
      · rw [if_neg (by
          rintro ⟨hh, _⟩
          exact h2 hh)]
        omega
    · rw [if_neg (by
        rintro ⟨hh, _⟩
        exact h1 hh)]
      by_cases h2 : (g.cm.m_indexMaps.getD 0 []).getD e SENTINEL
          < (g.cm.m_indexMaps.getD 0 []).getD y SENTINEL
      · rw [if_pos ⟨h2, by omega⟩]
        omega
      · rw [if_neg (by
          rintro ⟨hh, _⟩
          exact h2 hh)]
        omega
  · show ∀ x ∈ (g.em.removeEntity g.C e).m_removedEntities,
        ((g.cm.removeEntity e).m_indexMaps.getD 0 []).getD x SENTINEL = SENTINEL
    intro x hx
    rw [hemr] at hx
    rw [himap0]
    rcases List.mem_append.mp hx with h1 | h1
    · have hxlt : x < g.em.totalEntityCount := hInv.rm_lt x h1
      have hxlen : x < ((g.cm.m_indexMaps.getD 0 []).set e SENTINEL).length := by
        rw [List.length_set]
        omega
      rw [getD_map_lt _ _ _ _ SENTINEL hxlen,
        getD_set_ne _ _ _ _ _ (fun hc => hrm (by rw [hc]; exact h1)), hInv.sent_rm x h1]
      rw [if_neg (by
        rintro ⟨_, hh⟩
        exact hh rfl)]
    · simp only [List.mem_singleton] at h1
      subst h1
      have hxlen : x < ((g.cm.m_indexMaps.getD 0 []).set x SENTINEL).length := by
        rw [List.length_set]
        omega
      rw [getD_map_lt _ _ _ _ SENTINEL hxlen, getD_set_self _ _ _ _ (by omega)]
      rw [if_neg (by
        rintro ⟨_, hh⟩
        exact hh rfl)]
  · show ∀ p, (g.em.removeEntity g.C e).totalEntityCount ≤ p →
        ((g.cm.removeEntity e).m_indexMaps.getD 0 []).getD p SENTINEL = SENTINEL
    intro p hp
    rw [htotal'] at hp
    rw [himap0]
    by_cases hpL : p < (g.cm.m_indexMaps.getD 0 []).length
    · have hplen2 : p < ((g.cm.m_indexMaps.getD 0 []).set e SENTINEL).length := by
        rw [List.length_set]
        omega
      rw [getD_map_lt _ _ _ _ SENTINEL hplen2,
        getD_set_ne _ _ _ _ _ (by omega), hInv.sent_hi p hp]
      rw [if_neg (by
        rintro ⟨_, hh⟩
        exact hh rfl)]
    · rw [List.getD_eq_default _ _ (by
        rw [List.length_map, List.length_set]
        omega)]
  · show ∀ sup ∈ (g.sm.extractEntity e (g.em.getBitmap e)).supplements,
        SupWF (g.em.removeEntity g.C e).totalEntityCount
          (g.em.removeEntity g.C e).m_componentBitmaps sup
    rw [htotal']
    exact hwfall.1
  · show ∀ sup ∈ (g.sm.extractEntity e (g.em.getBitmap e)).supplements,
        ∀ r ∈ sup.requirement, r < g.C
    exact hwfall.2

/-- Common core of `ecs::createEntity` preservation: whatever id `e` the
entity manager produced (fresh `e = N` or recycled `e < N`), the final state
— one more live count, `e` gone from the recycle list, `e`'s bitmap holding
exactly the reserved bit and the `bool` bit, one more `bool` record at the
end of the pool, a sentinel slot pushed onto every index map with `e`'s
entry pointing at the new record, and `e` inserted into the systems it now
matches — satisfies the invariant. -/
theorem inv_createEntity_common (g : Engine) (hInv : EngInv g)
    (e N' : ℕ) (rm2 : List ℕ) (bm4 : List (List Bool))
    (hN : g.em.totalEntityCount ≤ N') (hN1 : N' ≤ g.em.totalEntityCount + 1)
    (hN'bound : N' + 2 ≤ SENTINEL)
    (heN' : e < N') (heN : e ≤ g.em.totalEntityCount)
    (hlt_other : ∀ x, x < N' → x ≠ e → x < g.em.totalEntityCount)
    (hrm2 : ∀ x, x ∈ rm2 ↔ (x ∈ g.em.m_removedEntities ∧ x ≠ e))
    (hrm2_nodup : rm2.Nodup)
    (hcount' : g.em.m_entityCount + 1 + rm2.length = N')
    (hb4len : bm4.length = N')
    (hb4e : bm4.getD e [] = ((List.replicate (g.C + 1) false).set g.C true).set 0 true)
    (hb4other : ∀ x, x ≠ e → bm4.getD x [] = g.em.m_componentBitmaps.getD x [])
    (hb4mem : ∀ b ∈ bm4, b.length = g.C + 1)
    (hbm_e_old : ∀ r, (g.em.m_componentBitmaps.getD e []).getD r false = false) :
    EngInv { g with
      em := ⟨g.em.m_entityCount + 1, rm2, bm4⟩,
      cm := ⟨g.cm.m_componentArrays.set 0
              { g.cm.m_componentArrays.getD 0 default with
                m_components :=
                  (g.cm.m_componentArrays.getD 0 default).m_components ++ [1] },
            (g.cm.m_indexMaps.map (fun m => m ++ [SENTINEL])).set 0
              ((g.cm.m_indexMaps.getD 0 [] ++ [SENTINEL]).set e
                (g.cm.m_componentArrays.getD 0 default).m_components.length)⟩,
      sm := g.sm.addEntity.insertMatchingBit e (bm4.getD e []) 0,
      err := g.err } := by
  have htot : g.em.totalEntityCount
      = g.em.m_entityCount + g.em.m_removedEntities.length := rfl
  have htotal' : (⟨g.em.m_entityCount + 1, rm2, bm4⟩ : EntityManagerM).totalEntityCount
      = N' := by
    unfold EntityManagerM.totalEntityCount
    dsimp only
    omega
  have hplen := hInv.pool0_len
  have himlen : g.em.totalEntityCount ≤ (g.cm.m_indexMaps.getD 0 []).length :=
    hInv.maps_ge 0 hInv.hC
  have hCm : 0 < g.cm.m_indexMaps.length := by
    rw [hInv.maps_len]
    exact hInv.hC
  have hCa : 0 < g.cm.m_componentArrays.length := by
    rw [hInv.arrays_len]
    exact hInv.hC
  have hnotrm2 : ∀ x, x ∉ rm2 → x ≠ e → x ∉ g.em.m_removedEntities := by
    intro x hx hxe hc
    exact hx ((hrm2 x).mpr ⟨hc, hxe⟩)
  have hsys1 : ∀ sup ∈ g.sm.addEntity.supplements,
      SupWF N' g.em.m_componentBitmaps sup := by
    intro sup' hm
    unfold SystemManagerM.addEntity at hm
    dsimp only at hm
    obtain ⟨sup, hmem, hfe⟩ := List.mem_map.mp hm
    rw [← hfe]
    exact pushSent_wf g.em.totalEntityCount N' g.em.m_componentBitmaps sup
      (hInv.sys_wf sup hmem) hN hN1
  have hreq1 : ∀ sup ∈ g.sm.addEntity.supplements,
      ∀ r ∈ sup.requirement, r < g.C := by
    intro sup' hm
    unfold SystemManagerM.addEntity at hm
    dsimp only at hm
    obtain ⟨sup, hmem, hfe⟩ := List.mem_map.mp hm
    rw [← hfe]
    exact hInv.sys_req sup hmem
  have hebit : ∀ r, r < g.C →
      ((bm4.getD e []).getD r false = true
        ↔ (r = 0 ∨ (g.em.m_componentBitmaps.getD e []).getD r false = true)) := by
    intro r hr
    rw [hb4e, hbm_e_old r]
    by_cases hr0 : r = 0
    · subst hr0
      rw [getD_set_self _ _ _ _ (by simp)]
      simp
    · rw [getD_set_ne _ _ _ _ _ (fun hc => hr0 hc.symm),
        getD_set_ne _ _ _ _ _ (by omega), getD_replicate_false]
      simp [hr0]
  have hwfall := insertMatchingBit_wf_all g.sm.addEntity N' g.C
    g.em.m_componentBitmaps bm4 e 0 hsys1 hreq1 heN' hb4other (hbm_e_old 0) hebit
  refine ⟨hInv.hC, hInv.htriv, ?_, ?_, ?_, ?_, ?_, ?_, ?_, ?_, ?_, ?_, ?_, ?_, ?_, ?_, ?_,
    ?_, ?_, ?_, ?_⟩
  · show bm4.length = _
    rw [htotal', hb4len]
  · exact hb4mem
  · exact hrm2_nodup
  · intro x hx
    rw [htotal']
    have := ((hrm2 x).mp hx).1
    have := hInv.rm_lt x this
    omega
  · intro x hx
    obtain ⟨hx1, hx2⟩ := (hrm2 x).mp hx
    show bm4.getD x [] = _
    rw [hb4other x hx2]
    exact hInv.rm_zero x hx1
  · intro x hx hxm
    rw [htotal'] at hx
    by_cases hxe : x = e
    · subst hxe
      show ((bm4.getD x []).getD g.C false = true ∧ (bm4.getD x []).getD 0 false = true)
      rw [hb4e]
      constructor
      · rw [getD_set_ne _ _ _ _ _ (by
          intro hc
          have := hInv.hC
          omega), getD_set_self _ _ _ _ (by simp)]
      · rw [getD_set_self _ _ _ _ (by simp)]
    · show ((bm4.getD x []).getD g.C false = true ∧ (bm4.getD x []).getD 0 false = true)
      rw [hb4other x hxe]
      exact hInv.live_bits x (hlt_other x hx hxe) (hnotrm2 x hxm hxe)
  · show (⟨g.em.m_entityCount + 1, rm2, bm4⟩ : EntityManagerM).totalEntityCount + 2
        ≤ SENTINEL
    rw [htotal']
    exact hN'bound
  · show (g.cm.m_componentArrays.set 0 _).length = g.C
    rw [List.length_set]
    exact hInv.arrays_len
  · show ((g.cm.m_indexMaps.map (fun m => m ++ [SENTINEL])).set 0 _).length = g.C
    rw [List.length_set, List.length_map]
    exact hInv.maps_len
  · intro t ht
    rw [htotal']
    by_cases ht0 : t = 0
    · subst ht0
      show N' ≤ (((g.cm.m_indexMaps.map (fun m => m ++ [SENTINEL])).set 0
          ((g.cm.m_indexMaps.getD 0 [] ++ [SENTINEL]).set e
            (g.cm.m_componentArrays.getD 0 default).m_components.length)).getD 0 []).length
      rw [getD_set_self _ _ _ _ (by rw [List.length_map]; omega), List.length_set,
        List.length_append, List.length_singleton]
      omega
    · show N' ≤ (((g.cm.m_indexMaps.map (fun m => m ++ [SENTINEL])).set 0 _).getD t []).length
      rw [getD_set_ne _ _ _ _ _ (fun hc => ht0 hc.symm),
        getD_map_lt _ _ _ _ [] (by rw [hInv.maps_len]; exact ht), List.length_append,
        List.length_singleton]
      have := hInv.maps_ge t ht
      omega
  · show ((g.cm.m_componentArrays.set 0 _).getD 0 default).componentSize = 1
    rw [getD_set_self _ _ _ _ hCa]
    exact hInv.bool_size
  · show (((g.cm.m_componentArrays.set 0 _).getD 0 default).m_components).getD 0 0 = 0
    rw [getD_set_self _ _ _ _ hCa]
    dsimp only
    rw [List.getD_append _ _ 0 0 (by omega)]
    exact hInv.bool_flag
  · show (((g.cm.m_componentArrays.set 0 _).getD 0 default).m_components).length = _
    rw [getD_set_self _ _ _ _ hCa]
    dsimp only
    rw [List.length_append, List.length_singleton, hplen]
    omega
  · intro x hx hxm
    rw [htotal'] at hx
    have hgd0 : ((g.cm.m_indexMaps.map (fun m => m ++ [SENTINEL])).set 0
        ((g.cm.m_indexMaps.getD 0 [] ++ [SENTINEL]).set e
          (g.cm.m_componentArrays.getD 0 default).m_components.length)).getD 0 []
        = (g.cm.m_indexMaps.getD 0 [] ++ [SENTINEL]).set e
          (g.cm.m_componentArrays.getD 0 default).m_components.length :=
      getD_set_self _ _ _ _ (by rw [List.length_map]; omega)
    have hga0 : ((g.cm.m_componentArrays.set 0
        { g.cm.m_componentArrays.getD 0 default with
          m_components := (g.cm.m_componentArrays.getD 0 default).m_components ++ [1] }).getD
          0 default)
        = { g.cm.m_componentArrays.getD 0 default with
            m_components := (g.cm.m_componentArrays.getD 0 default).m_components ++ [1] } :=
      getD_set_self _ _ _ _ hCa
    show (2 ≤ _ ∧ _ < _ ∧ _ = 1)
    rw [hgd0, hga0]
    dsimp only
    by_cases hxe : x = e
    · subst hxe
      rw [getD_set_self _ _ _ _ (by
        rw [List.length_append, List.length_singleton]
        omega)]
      refine ⟨by omega, ?_, ?_⟩
      · rw [List.length_append, List.length_singleton]
        omega
      · exact getD_append_len _ [] 1 0
    · have hxlt := hlt_other x hx hxe
      have hxrm := hnotrm2 x hxm hxe
      have hbx := hInv.bool_entry x hxlt hxrm
      rw [getD_set_ne _ _ _ _ _ (fun hc => hxe hc.symm),
        List.getD_append _ _ SENTINEL x (by omega)]
      refine ⟨hbx.1, by
        rw [List.length_append, List.length_singleton]
        omega, ?_⟩
      rw [List.getD_append _ _ 0 _ (by omega)]
      exact hbx.2.2
  · intro x y hx hxm hy hym hxy
    rw [htotal'] at hx hy
    have hgd0 : ((g.cm.m_indexMaps.map (fun m => m ++ [SENTINEL])).set 0
        ((g.cm.m_indexMaps.getD 0 [] ++ [SENTINEL]).set e
          (g.cm.m_componentArrays.getD 0 default).m_components.length)).getD 0 []
        = (g.cm.m_indexMaps.getD 0 [] ++ [SENTINEL]).set e
          (g.cm.m_componentArrays.getD 0 default).m_components.length :=
      getD_set_self _ _ _ _ (by rw [List.length_map]; omega)
    show ¬ _ = _
    rw [hgd0]
    by_cases hxe : x = e
    · subst hxe
      rw [getD_set_self _ _ _ _ (by
        rw [List.length_append, List.length_singleton]
        omega),
        getD_set_ne _ _ _ _ _ hxy,
        List.getD_append _ _ SENTINEL y (by
          have := hlt_other y hy (fun hc => hxy hc.symm)
          omega)]
      have hby := hInv.bool_entry y (hlt_other y hy (fun hc => hxy hc.symm))
        (hnotrm2 y hym (fun hc => hxy hc.symm))
      omega
    · by_cases hye : y = e
      · subst hye
        rw [getD_set_self _ _ _ _ (by
          rw [List.length_append, List.length_singleton]
          omega),
          getD_set_ne _ _ _ _ _ (fun hc => hxe hc.symm),
          List.getD_append _ _ SENTINEL x (by
            have := hlt_other x hx hxe
            omega)]
        have hbx := hInv.bool_entry x (hlt_other x hx hxe) (hnotrm2 x hxm hxe)
        omega
      · rw [getD_set_ne _ _ _ _ _ (fun hc => hxe hc.symm),
          getD_set_ne _ _ _ _ _ (fun hc => hye hc.symm),
          List.getD_append _ _ SENTINEL x (by
            have := hlt_other x hx hxe
            omega),
          List.getD_append _ _ SENTINEL y (by
            have := hlt_other y hy hye
            omega)]
        exact hInv.bool_inj x y (hlt_other x hx hxe) (hnotrm2 x hxm hxe)
          (hlt_other y hy hye) (hnotrm2 y hym hye) hxy
  · intro x hx
    obtain ⟨hx1, hx2⟩ := (hrm2 x).mp hx
    have hgd0 : ((g.cm.m_indexMaps.map (fun m => m ++ [SENTINEL])).set 0
        ((g.cm.m_indexMaps.getD 0 [] ++ [SENTINEL]).set e
          (g.cm.m_componentArrays.getD 0 default).m_components.length)).getD 0 []
        = (g.cm.m_indexMaps.getD 0 [] ++ [SENTINEL]).set e
          (g.cm.m_componentArrays.getD 0 default).m_components.length :=
      getD_set_self _ _ _ _ (by rw [List.length_map]; omega)
    show _ = SENTINEL
    rw [hgd0, getD_set_ne _ _ _ _ _ (fun hc => hx2 hc.symm),
      List.getD_append _ _ SENTINEL x (by
        have := hInv.rm_lt x hx1
        omega)]
    exact hInv.sent_rm x hx1
  · intro p hp
    rw [htotal'] at hp
    have hgd0 : ((g.cm.m_indexMaps.map (fun m => m ++ [SENTINEL])).set 0
        ((g.cm.m_indexMaps.getD 0 [] ++ [SENTINEL]).set e
          (g.cm.m_componentArrays.getD 0 default).m_components.length)).getD 0 []
        = (g.cm.m_indexMaps.getD 0 [] ++ [SENTINEL]).set e
          (g.cm.m_componentArrays.getD 0 default).m_components.length :=
      getD_set_self _ _ _ _ (by rw [List.length_map]; omega)
    show _ = SENTINEL
    rw [hgd0, getD_set_ne _ _ _ _ _ (by omega),
      getD_append_one (g.cm.m_indexMaps.getD 0 []) SENTINEL p SENTINEL]
    by_cases h1 : p < (g.cm.m_indexMaps.getD 0 []).length
    · rw [if_pos h1]
      exact hInv.sent_hi p (by omega)
    · rw [if_neg h1]
      by_cases h2 : p = (g.cm.m_indexMaps.getD 0 []).length
      · rw [if_pos h2]
      · rw [if_neg h2]
  · show ∀ sup ∈ (g.sm.addEntity.insertMatchingBit e (bm4.getD e []) 0).supplements,
        SupWF (⟨g.em.m_entityCount + 1, rm2, bm4⟩ : EntityManagerM).totalEntityCount bm4 sup
    rw [htotal']
    exact hwfall.1
  · exact hwfall.2

/-- `ecs::createEntity` (fresh or recycled id) preserves the invariant. -/
theorem inv_step_createEntity (g : Engine) (hInv : EngInv g)
    (hbound : g.em.totalEntityCount + 3 ≤ SENTINEL) :
    EngInv (g.createEntity).1 := by
  have htot : g.em.totalEntityCount
      = g.em.m_entityCount + g.em.m_removedEntities.length := rfl
  have hCm : 0 < g.cm.m_indexMaps.length := by
    rw [hInv.maps_len]
    exact hInv.hC
  have himlen := hInv.maps_ge 0 hInv.hC
  have himapA : g.cm.addEntity.m_indexMaps.getD 0 []
      = g.cm.m_indexMaps.getD 0 [] ++ [SENTINEL] := by
    unfold ComponentManager.addEntity
    dsimp only
    exact getD_map_lt _ _ _ _ [] hCm
  by_cases hfresh : g.em.m_removedEntities.isEmpty = true
  · have hrm_nil : g.em.m_removedEntities = [] := List.isEmpty_iff.mp hfresh
    have hNcount : g.em.totalEntityCount = g.em.m_entityCount := by
      rw [htot, hrm_nil]
      simp
    have hbml : g.em.m_componentBitmaps.length = g.em.m_entityCount := by
      rw [hInv.bm_len, hNcount]
    have he_entry : (g.cm.m_indexMaps.getD 0 [] ++ [SENTINEL]).getD
        g.em.m_entityCount SENTINEL = SENTINEL := by
      rw [getD_append_one]
      by_cases h1 : g.em.m_entityCount < (g.cm.m_indexMaps.getD 0 []).length
      · rw [if_pos h1]
        exact hInv.sent_hi _ (by omega)
      · rw [if_neg h1]
        by_cases h2 : g.em.m_entityCount = (g.cm.m_indexMaps.getD 0 []).length
        · rw [if_pos h2]
        · rw [if_neg h2]
    have hcont2 : (⟨g.em.m_entityCount + 1, g.em.m_removedEntities,
        (g.em.m_componentBitmaps ++ [List.replicate (g.C + 1) false]).set
          g.em.m_entityCount
          (((g.em.m_componentBitmaps ++ [List.replicate (g.C + 1) false]).getD
            g.em.m_entityCount []).set g.C true)⟩ : EntityManagerM).contains
          g.em.m_entityCount = true := by
      unfold EntityManagerM.contains EntityManagerM.totalEntityCount
      dsimp only
      simp only [decide_eq_true_eq]
      omega
    unfold Engine.createEntity EntityManagerM.createEntity
    dsimp only
    rw [hfresh]
    simp only [reduceIte]
    have hgetN : (g.em.m_componentBitmaps ++ [List.replicate (g.C + 1) false]).getD
        g.em.m_entityCount [] = List.replicate (g.C + 1) false := by
      rw [getD_append_one, if_neg (by omega), if_pos (by omega)]
    unfold Engine.addComponent
    rw [if_neg (not_not_intro hcont2)]
    dsimp only
    unfold ComponentManager.addComponent ComponentManager.addEntity
    dsimp only
    rw [show (List.map (fun m => m ++ [SENTINEL]) g.cm.m_indexMaps).getD 0 []
        = g.cm.m_indexMaps.getD 0 [] ++ [SENTINEL] from getD_map_lt _ _ _ _ [] hCm,
      he_entry, hInv.htriv]
    simp only [reduceIte]
    unfold ComponentArray.addComponentTriv
    rw [if_neg (not_not_intro rfl)]
    dsimp only
    try simp only [reduceIte]
    unfold Engine.addComponentConfiguration
    dsimp only
    unfold EntityManagerM.setComponentBit EntityManagerM.getBitmap
    dsimp only
    rw [hgetN]
    rw [show ((g.em.m_componentBitmaps ++ [List.replicate (g.C + 1) false]).set
          g.em.m_entityCount ((List.replicate (g.C + 1) false).set g.C true)).getD
          g.em.m_entityCount []
        = (List.replicate (g.C + 1) false).set g.C true from
      getD_set_self _ _ _ _ (by
        rw [List.length_append, List.length_singleton]
        omega)]
    rw [hrm_nil]
    apply inv_createEntity_common g hInv g.em.m_entityCount (g.em.m_entityCount + 1)
    · omega
    · omega
    · omega
    · omega
    · omega
    · intro x hx hxe
      omega
    · intro x
      rw [hrm_nil]
      simp
    · exact List.nodup_nil
    · simp
    · rw [List.length_set, List.length_set, List.length_append, List.length_singleton,
        hbml]
    · exact getD_set_self _ _ _ _ (by
        rw [List.length_set, List.length_append, List.length_singleton]
        omega)
    · intro x hxe
      rw [getD_set_ne _ _ _ _ _ (fun hc => hxe hc.symm),
        getD_set_ne _ _ _ _ _ (fun hc => hxe hc.symm), getD_append_one]
      by_cases h1 : x < g.em.m_componentBitmaps.length
      · rw [if_pos h1]
      · rw [if_neg h1, if_neg (by omega), List.getD_eq_default _ _ (by omega)]
    · intro b hb
      rcases List.mem_or_eq_of_mem_set hb with h1 | h1
      · rcases List.mem_or_eq_of_mem_set h1 with h2 | h2
        · rcases List.mem_append.mp h2 with h3 | h3
          · exact hInv.bm_width b h3
          · simp only [List.mem_singleton] at h3
            rw [h3, List.length_replicate]
        · rw [h2, List.length_set, List.length_replicate]
      · rw [h1, List.length_set, List.length_set, List.length_replicate]
    · intro r
      have hrow : g.em.m_componentBitmaps.getD g.em.m_entityCount [] = [] :=
        List.getD_eq_default _ _ (by omega)
      rw [hrow]
      rfl
  · have hrm_ne : g.em.m_removedEntities ≠ [] := by
      intro hc
      exact hfresh (List.isEmpty_iff.mpr hc)
    have hfalse : g.em.m_removedEntities.isEmpty = false := by
      rw [← Bool.not_eq_true]
      exact hfresh
    have hrmlen : 1 ≤ g.em.m_removedEntities.length := by
      have := List.length_pos.mpr hrm_ne
      omega
    have hmem_e : g.em.m_removedEntities.getLastD 0 ∈ g.em.m_removedEntities :=
      getLastD_mem _ 0 hrm_ne
    have he_lt : g.em.m_removedEntities.getLastD 0 < g.em.totalEntityCount :=
      hInv.rm_lt _ hmem_e
    have hrow_e : g.em.m_componentBitmaps.getD (g.em.m_removedEntities.getLastD 0) []
        = List.replicate (g.C + 1) false := hInv.rm_zero _ hmem_e
    have he_entry : (g.cm.m_indexMaps.getD 0 [] ++ [SENTINEL]).getD
        (g.em.m_removedEntities.getLastD 0) SENTINEL = SENTINEL := by
      rw [List.getD_append _ _ SENTINEL _ (by omega)]
      exact hInv.sent_rm _ hmem_e
    have hcont2 : (⟨g.em.m_entityCount + 1, g.em.m_removedEntities.dropLast,
        g.em.m_componentBitmaps.set (g.em.m_removedEntities.getLastD 0)
          ((g.em.m_componentBitmaps.getD (g.em.m_removedEntities.getLastD 0) []).set
            g.C true)⟩ : EntityManagerM).contains
          (g.em.m_removedEntities.getLastD 0) = true := by
      unfold EntityManagerM.contains EntityManagerM.totalEntityCount
      dsimp only
      rw [List.length_dropLast]
      simp only [decide_eq_true_eq]
      omega
    unfold Engine.createEntity EntityManagerM.createEntity
    dsimp only
    rw [hfalse]
    simp only [Bool.false_eq_true, if_false]
    unfold Engine.addComponent
    rw [if_neg (not_not_intro hcont2)]
    dsimp only
    unfold ComponentManager.addComponent ComponentManager.addEntity
    dsimp only
    rw [show (List.map (fun m => m ++ [SENTINEL]) g.cm.m_indexMaps).getD 0 []
        = g.cm.m_indexMaps.getD 0 [] ++ [SENTINEL] from getD_map_lt _ _ _ _ [] hCm,
      he_entry, hInv.htriv]
    simp only [reduceIte]
    unfold ComponentArray.addComponentTriv
    rw [if_neg (not_not_intro rfl)]
    dsimp only
    try simp only [reduceIte]
    unfold Engine.addComponentConfiguration
    dsimp only
    unfold EntityManagerM.setComponentBit EntityManagerM.getBitmap
    dsimp only
    rw [hrow_e]
    rw [show (g.em.m_componentBitmaps.set (g.em.m_removedEntities.getLastD 0)
          ((List.replicate (g.C + 1) false).set g.C true)).getD
          (g.em.m_removedEntities.getLastD 0) []
        = (List.replicate (g.C + 1) false).set g.C true from
      getD_set_self _ _ _ _ (by
        rw [hInv.bm_len]
        omega)]
    apply inv_createEntity_common g hInv (g.em.m_removedEntities.getLastD 0)
      g.em.totalEntityCount
    · omega
    · omega
    · omega
    · omega
    · omega
    · intro x hx _
      exact hx
    · intro x
      constructor
      · intro hx
        refine ⟨(List.dropLast_sublist _).subset hx, ?_⟩
        intro hc
        rw [hc] at hx
        exact getLastD_not_mem_dropLast _ 0 hInv.rm_nodup hrm_ne hx
      · rintro ⟨hx1, hx2⟩
        by_contra hnx
        exact hx2 (eq_getLastD_of_not_mem_dropLast _ 0 x hrm_ne hx1 hnx)
    · exact hInv.rm_nodup.sublist (List.dropLast_sublist _)
    · rw [List.length_dropLast]
      omega
    · rw [List.length_set, List.length_set, hInv.bm_len]
    · exact getD_set_self _ _ _ _ (by
        rw [List.length_set, hInv.bm_len]
        omega)
    · intro x hxe
      rw [getD_set_ne _ _ _ _ _ (fun hc => hxe hc.symm),
        getD_set_ne _ _ _ _ _ (fun hc => hxe hc.symm)]
    · intro b hb
      rcases List.mem_or_eq_of_mem_set hb with h1 | h1
      · rcases List.mem_or_eq_of_mem_set h1 with h2 | h2
        · exact hInv.bm_width b h2
        · rw [h2, List.length_set, List.length_replicate]
      · rw [h1, List.length_set, List.length_set, List.length_replicate]
    · intro r
      rw [hrow_e]
      exact getD_replicate_false _ _

/-- A freshly constructed supplement (empty requirement, zeroed index map of
the current entity count) is well formed against any bitmaps. -/
theorem supInit_wf (N tag : ℕ) (bm : List (List Bool)) :
    SupWF N bm (SystemSupplement.init N tag) := by
  unfold SystemSupplement.init
  refine ⟨List.nodup_nil, ?_, by simp, ?_, ?_⟩
  · intro x
    constructor
    · intro h
      exact absurd h (List.not_mem_nil x)
    · rintro ⟨h, _⟩
      exact absurd rfl h
  · intro i hi
    exact absurd hi (by simp)
  · intro x hx
    exact absurd hx (List.not_mem_nil x)

/-- The requirement-appending fold of `addRequirements` (ecs.h:1714-1749)
collects exactly the ids of the accumulator and the argument list. -/
theorem dedup_fold_mem : ∀ (ids acc : List ℕ) (x : ℕ),
    x ∈ ids.foldl (fun req c => if req.contains c then req else req ++ [c]) acc
      ↔ (x ∈ acc ∨ x ∈ ids) := by
  intro ids
  induction ids with
  | nil =>
      intro acc x
      simp
  | cons a rest ih =>
      intro acc x
      simp only [List.foldl_cons]
      by_cases hc : acc.contains a = true
      · rw [if_pos hc, ih]
        have ha : a ∈ acc := by
          rw [← List.elem_iff]
          exact hc
        constructor
        · rintro (h1 | h1)
          · exact Or.inl h1
          · exact Or.inr (List.mem_cons_of_mem a h1)
        · rintro (h1 | h1)
          · exact Or.inl h1
          · rcases List.mem_cons.mp h1 with h2 | h2
            · exact Or.inl (h2 ▸ ha)
            · exact Or.inr h2
      · rw [if_neg hc, ih]
        constructor
        · rintro (h1 | h1)
          · rcases List.mem_append.mp h1 with h2 | h2
            · exact Or.inl h2
            · simp only [List.mem_singleton] at h2
              exact Or.inr (h2 ▸ List.mem_cons_self a rest)
          · exact Or.inr (List.mem_cons_of_mem a h1)
        · rintro (h1 | h1)
          · exact Or.inl (List.mem_append_left _ h1)
          · rcases List.mem_cons.mp h1 with h2 | h2
            · exact Or.inl (List.mem_append_right _ (by simp [h2]))
            · exact Or.inr h2

/-- When the binary search lands out of range (createSystem's slot count
breaks beyond two systems, see C2), the whole entity scan is a no-op: every
slot write targets the nonexistent index. -/
theorem scan_fold_oob (activeF : ℕ → Bool) (bmF : ℕ → List Bool) (slot : ℕ) :
    ∀ (idxs : List ℕ) (sm : SystemManagerM), sm.supplements.length ≤ slot →
      (idxs.foldl (fun sm i =>
          if activeF i ∧ (sm.supplements.getD slot default).bmMatches (bmF i)
          then sm.insertEntity i slot else sm) sm).supplements = sm.supplements := by
  intro idxs
  induction idxs with
  | nil => intro sm _; rfl
  | cons i rest ih =>
      intro sm h
      simp only [List.foldl_cons]
      by_cases hc : activeF i = true
          ∧ (sm.supplements.getD slot default).bmMatches (bmF i) = true
      · rw [if_pos hc]
        have hset : (sm.insertEntity i slot).supplements = sm.supplements := by
          unfold SystemManagerM.insertEntity
          dsimp only
          exact List.set_eq_of_length_le h
        rw [ih (sm.insertEntity i slot) (by rw [hset]; exact h), hset]
      · rw [if_neg hc]
        exact ih sm h

/-- Live entities read back as active: the reserved last bit of their
(C+1)-wide bitmap is set. -/
theorem entityActive_of_live (g : Engine) (hInv : EngInv g) (x : ℕ)
    (hx : x < g.em.totalEntityCount) (hxm : x ∉ g.em.m_removedEntities) :
    g.em.entityActive x = true := by
  unfold EntityManagerM.entityActive
  rw [getLastD_eq_getD]
  have hw : (g.em.m_componentBitmaps.getD x []).length = g.C + 1 :=
    hInv.bm_width _ (getD_mem _ _ _ (by rw [hInv.bm_len]; omega))
  rw [hw, Nat.add_sub_cancel]
  exact (hInv.live_bits x hx hxm).1

/-- An entity satisfying a registered, non-empty requirement is created and
not removed. -/
theorem reqsat_live (g : Engine) (hInv : EngInv g) (req : List ℕ) (x : ℕ)
    (h : ReqSat g.em.m_componentBitmaps req x) :
    x < g.em.totalEntityCount ∧ x ∉ g.em.m_removedEntities := by
  obtain ⟨hne, hall⟩ := h
  obtain ⟨r, hr⟩ := List.exists_mem_of_ne_nil _ hne
  constructor
  · by_contra hcx
    have hge : g.em.m_componentBitmaps.length ≤ x := by
      rw [hInv.bm_len]
      omega
    have h1 := hall r hr
    rw [List.getD_eq_default _ _ hge] at h1
    exact absurd h1 (by simp [List.getD])
  · intro hcm
    have h1 := hall r hr
    rw [hInv.rm_zero x hcm, getD_replicate_false] at h1
    exact absurd h1 (by simp)

theorem mem_iff_exists_getD_gen {α : Type} (l : List α) (d : α) (x : α) :
    x ∈ l ↔ ∃ i, i < l.length ∧ l.getD i d = x := by
  rw [List.mem_iff_getElem]
  constructor
  · rintro ⟨i, hi, he⟩
    exact ⟨i, hi, by rw [List.getD_eq_getElem _ _ hi]; exact he⟩
  · rintro ⟨i, hi, he⟩
    exact ⟨i, hi, by rw [← List.getD_eq_getElem l d hi]; exact he⟩

/-- The entity scan of `ecs::createSystem` on an in-range slot holding the
fresh system (empty entity list, zeroed index map, deduplicated requirement):
afterwards every slot is well formed — the fresh system ends up holding
exactly the active requirement-satisfying entities. -/
theorem scan_syswf (activeF : ℕ → Bool) (bmF : ℕ → List Bool) (bm : List (List Bool))
    (N C T : ℕ) (p0 : Int) (tag : ℕ) (req2 : List ℕ) (sm : SystemManagerM)
    (hT : T < sm.supplements.length)
    (hslotsup : sm.supplements.getD T default
      = ⟨p0, req2, List.replicate N 0, [], tag⟩)
    (hothers : ∀ i, i < sm.supplements.length → i ≠ T →
      SupWF N bm (sm.supplements.getD i default)
        ∧ ∀ r ∈ (sm.supplements.getD i default).requirement, r < C)
    (hreq2ne : req2 ≠ []) (hreq2C : ∀ r ∈ req2, r < C)
    (hsat_active : ∀ x, ReqSat bm req2 x → activeF x = true)
    (hsat_lt : ∀ x, ReqSat bm req2 x → x < N)
    (hbmF : ∀ x, bmF x = bm.getD x []) :
    (∀ sup ∈ ((List.range N).foldl (fun sm i =>
        if activeF i ∧ (sm.supplements.getD T default).bmMatches (bmF i)
        then sm.insertEntity i T else sm) sm).supplements, SupWF N bm sup)
    ∧ (∀ sup ∈ ((List.range N).foldl (fun sm i =>
        if activeF i ∧ (sm.supplements.getD T default).bmMatches (bmF i)
        then sm.insertEntity i T else sm) sm).supplements,
        ∀ r ∈ sup.requirement, r < C) := by
  have hfold := scan_fold activeF bmF T (List.range N) sm hT
  have hfilnd : ((List.range N).filter (fun i => activeF i &&
      (sm.supplements.getD T default).bmMatches (bmF i))).Nodup :=
    (List.nodup_range N).filter _
  have hfillt : ∀ x ∈ (List.range N).filter (fun i => activeF i &&
      (sm.supplements.getD T default).bmMatches (bmF i)), x < N := by
    intro x hx
    have := List.mem_of_mem_filter hx
    simpa using this
  have hcore := insert_fold_core N
    ((List.range N).filter (fun i => activeF i &&
      (sm.supplements.getD T default).bmMatches (bmF i)))
    (sm.supplements.getD T default)
    hfilnd hfillt
    (by
      intro x _
      rw [hslotsup]
      exact List.not_mem_nil x)
    (by rw [hslotsup]; exact List.nodup_nil)
    (by rw [hslotsup]; simp)
    (by
      intro i hi
      rw [hslotsup] at hi
      exact absurd hi (by simp))
    (by
      intro x hx
      rw [hslotsup] at hx
      exact absurd hx (List.not_mem_nil x))
  have hfinreq : ((((List.range N).filter (fun i => activeF i &&
      (sm.supplements.getD T default).bmMatches (bmF i))).foldl
        SystemSupplement.insert (sm.supplements.getD T default))).requirement = req2 := by
    rw [hcore.2.2.2.2.2, hslotsup]
  have hfin_wf : SupWF N bm
      ((((List.range N).filter (fun i => activeF i &&
        (sm.supplements.getD T default).bmMatches (bmF i))).foldl
          SystemSupplement.insert (sm.supplements.getD T default))) := by
    refine ⟨hcore.1, ?_, hcore.2.2.1, hcore.2.2.2.1, hcore.2.2.2.2.1⟩
    intro x
    rw [hcore.2.1 x, hfinreq]
    constructor
    · rintro (h1 | h1)
      · rw [hslotsup] at h1
        exact absurd h1 (List.not_mem_nil x)
      · have h2 := List.mem_filter.mp h1
        have h3 : x < N := by simpa using h2.1
        have h4 := h2.2
        rw [Bool.and_eq_true] at h4
        have h5 := (bmMatches_iff _ _).mp h4.2
        rw [hslotsup] at h5
        rw [hbmF x] at h5
        exact ⟨h5.1, h5.2⟩
    · intro h1
      right
      rw [List.mem_filter]
      refine ⟨by simpa using hsat_lt x h1, ?_⟩
      rw [Bool.and_eq_true]
      refine ⟨hsat_active x h1, ?_⟩
      rw [bmMatches_iff, hslotsup, hbmF x]
      exact ⟨h1.1, h1.2⟩
  constructor
  · intro sup' hm
    rw [hfold] at hm
    obtain ⟨i, hi, hgd⟩ := (mem_iff_exists_getD_gen _ default sup').mp hm
    rw [List.length_set] at hi
    by_cases hiT : i = T
    · subst hiT
      rw [getD_set_self _ _ _ _ hi] at hgd
      rw [← hgd]
      exact hfin_wf
    · rw [getD_set_ne _ _ _ _ _ (fun hc => hiT hc.symm)] at hgd
      rw [← hgd]
      exact (hothers i hi hiT).1
  · intro sup' hm
    rw [hfold] at hm
    obtain ⟨i, hi, hgd⟩ := (mem_iff_exists_getD_gen _ default sup').mp hm
    rw [List.length_set] at hi
    by_cases hiT : i = T
    · subst hiT
      rw [getD_set_self _ _ _ _ hi] at hgd
      rw [← hgd]
      rw [hfinreq]
      exact hreq2C
    · rw [getD_set_ne _ _ _ _ _ (fun hc => hiT hc.symm)] at hgd
      rw [← hgd]
      exact (hothers i hi hiT).2

/-- `ecs::createSystem` preserves the invariant.  In range, the new slot
ends up holding exactly the active entities satisfying the deduplicated
requirement; when the binary search lands out of range (its breakage beyond
two systems is C2), every slot write is a no-op and the relocated existing
systems carry their well-formedness unchanged. -/
theorem inv_step_createSystem (g : Engine) (req : List ℕ) (p : Int)
    (hInv : EngInv g) (hne : req ≠ []) (hreqC : ∀ r ∈ req, r < g.C) :
    EngInv (g.createSystem req p).1 := by
  unfold Engine.createSystem SystemManagerM.createSystem SystemSupplement.init
  dsimp only
  obtain ⟨T, hT⟩ : ∃ T, (if g.sm.supplements.length = 0 then 0
    else SystemManagerM.csearchGo
      (fun j => ((g.sm.supplements
          ++ [SystemSupplement.mk 0 [] (List.replicate g.em.totalEntityCount 0) []
              g.sm.supplements.length]).getD j default).priority)
      p g.sm.supplements.length (g.sm.supplements.length + 1)
      (g.sm.supplements.length / 2) (g.sm.supplements.length / 2)) = T := ⟨_, rfl⟩
  rw [hT]
  unfold SystemManagerM.addRequirements
  dsimp only
  have hs1len : (g.sm.supplements
      ++ [SystemSupplement.mk 0 [] (List.replicate g.em.totalEntityCount 0) []
          g.sm.supplements.length]).length = g.sm.supplements.length + 1 := by
    simp
  have hXlen : (SystemManagerM.shiftLoop (g.sm.supplements
      ++ [SystemSupplement.mk 0 [] (List.replicate g.em.totalEntityCount 0) []
          g.sm.supplements.length]) T g.sm.supplements.length).length
      = g.sm.supplements.length + 1 := by
    rw [shiftLoop_length, hs1len]
  have hXmem : ∀ x ∈ SystemManagerM.shiftLoop (g.sm.supplements
      ++ [SystemSupplement.mk 0 [] (List.replicate g.em.totalEntityCount 0) []
          g.sm.supplements.length]) T g.sm.supplements.length,
      SupWF g.em.totalEntityCount g.em.m_componentBitmaps x
        ∧ ∀ r ∈ x.requirement, r < g.C := by
    intro x hx
    have hx1 := shiftLoop_mem g.sm.supplements.length _ T (by rw [hs1len]; omega) x hx
    rcases List.mem_append.mp hx1 with h1 | h1
    · exact ⟨hInv.sys_wf x h1, hInv.sys_req x h1⟩
    · simp only [List.mem_singleton] at h1
      subst h1
      refine ⟨supInit_wf g.em.totalEntityCount g.sm.supplements.length
        g.em.m_componentBitmaps, ?_⟩
      intro r hr
      exact absurd hr (List.not_mem_nil r)
  by_cases hrange : T < g.sm.supplements.length + 1
  · have hold : ((SystemManagerM.shiftLoop (g.sm.supplements
        ++ [SystemSupplement.mk 0 [] (List.replicate g.em.totalEntityCount 0) []
            g.sm.supplements.length]) T g.sm.supplements.length).set T
          (SystemSupplement.mk p [] (List.replicate g.em.totalEntityCount 0) []
            g.sm.supplements.length)).getD T default
        = SystemSupplement.mk p [] (List.replicate g.em.totalEntityCount 0) []
            g.sm.supplements.length :=
      getD_set_self _ _ _ _ (by rw [hXlen]; omega)
    rw [hold]
    dsimp only
    rw [List.set_set]
    have hboth := scan_syswf g.em.entityActive g.em.getBitmap g.em.m_componentBitmaps
      g.em.totalEntityCount g.C T p g.sm.supplements.length
      (req.foldl (fun req c => if req.contains c then req else req ++ [c]) [])
      ⟨(SystemManagerM.shiftLoop (g.sm.stores ++ [false]) T g.sm.supplements.length).set
          T true,
        (SystemManagerM.shiftLoop (g.sm.supplements
          ++ [SystemSupplement.mk 0 [] (List.replicate g.em.totalEntityCount 0) []
              g.sm.supplements.length]) T g.sm.supplements.length).set T
          (SystemSupplement.mk p
            (req.foldl (fun req c => if req.contains c then req else req ++ [c]) [])
            (List.replicate g.em.totalEntityCount 0) [] g.sm.supplements.length),
        g.sm.functionIndex⟩
      (by
        dsimp only
        rw [List.length_set, hXlen]
        omega)
      (by
        dsimp only
        exact getD_set_self _ _ _ _ (by rw [hXlen]; omega))
      (by
        intro i hi hiT
        dsimp only at hi ⊢
        rw [List.length_set, hXlen] at hi
        rw [getD_set_ne _ _ _ _ _ (fun hc => hiT hc.symm)]
        exact hXmem _ (getD_mem _ _ _ (by rw [hXlen]; omega)))
      (by
        obtain ⟨r, hr⟩ := List.exists_mem_of_ne_nil _ hne
        exact List.ne_nil_of_mem ((dedup_fold_mem req [] r).mpr (Or.inr hr)))
      (by
        intro r hr
        rcases (dedup_fold_mem req [] r).mp hr with h1 | h1
        · exact absurd h1 (List.not_mem_nil r)
        · exact hreqC r h1)
      (by
        intro x hx
        have hl := reqsat_live g hInv _ x hx
        exact entityActive_of_live g hInv x hl.1 hl.2)
      (by
        intro x hx
        exact (reqsat_live g hInv _ x hx).1)
      (fun x => rfl)
    exact ⟨hInv.hC, hInv.htriv, hInv.bm_len, hInv.bm_width, hInv.rm_nodup, hInv.rm_lt,
      hInv.rm_zero, hInv.live_bits, hInv.total_bound, hInv.arrays_len, hInv.maps_len,
      hInv.maps_ge, hInv.bool_size, hInv.bool_flag, hInv.pool0_len, hInv.bool_entry,
      hInv.bool_inj, hInv.sent_rm, hInv.sent_hi, hboth.1, hboth.2⟩
  · rw [List.set_eq_of_length_le (show (SystemManagerM.shiftLoop (g.sm.supplements
        ++ [SystemSupplement.mk 0 [] (List.replicate g.em.totalEntityCount 0) []
            g.sm.supplements.length]) T g.sm.supplements.length).length ≤ T by
      rw [hXlen]
      omega)]
    have hold : (SystemManagerM.shiftLoop (g.sm.supplements
        ++ [SystemSupplement.mk 0 [] (List.replicate g.em.totalEntityCount 0) []
            g.sm.supplements.length]) T g.sm.supplements.length).getD T default
        = default :=
      List.getD_eq_default _ _ (by rw [hXlen]; omega)
    rw [hold]
    rw [List.set_eq_of_length_le (show (SystemManagerM.shiftLoop (g.sm.supplements
        ++ [SystemSupplement.mk 0 [] (List.replicate g.em.totalEntityCount 0) []
            g.sm.supplements.length]) T g.sm.supplements.length).length ≤ T by
      rw [hXlen]
      omega)]
    have hoob := scan_fold_oob g.em.entityActive g.em.getBitmap T
      (List.range g.em.totalEntityCount)
      ⟨(SystemManagerM.shiftLoop (g.sm.stores ++ [false]) T g.sm.supplements.length).set
          T true,
        SystemManagerM.shiftLoop (g.sm.supplements
          ++ [SystemSupplement.mk 0 [] (List.replicate g.em.totalEntityCount 0) []
              g.sm.supplements.length]) T g.sm.supplements.length,
        g.sm.functionIndex⟩
      (by
        dsimp only
        rw [hXlen]
        omega)
    refine ⟨hInv.hC, hInv.htriv, hInv.bm_len, hInv.bm_width, hInv.rm_nodup, hInv.rm_lt,
      hInv.rm_zero, hInv.live_bits, hInv.total_bound, hInv.arrays_len, hInv.maps_len,
      hInv.maps_ge, hInv.bool_size, hInv.bool_flag, hInv.pool0_len, hInv.bool_entry,
      hInv.bool_inj, hInv.sent_rm, hInv.sent_hi, ?_, ?_⟩
    · intro sup hm
      rw [hoob] at hm
      exact (hXmem sup hm).1
    · intro sup hm
      rw [hoob] at hm
      exact (hXmem sup hm).2

/-- Every valid call preserves the invariant. -/
theorem inv_step (g : Engine) (op : Op) (hInv : EngInv g) (hval : validOp g op = true) :
    EngInv (g.apply op) := by
  cases op with
  | createEntity =>
      exact inv_step_createEntity g hInv (of_decide_eq_true hval)
  | removeEntity e =>
      have h := of_decide_eq_true hval
      exact inv_step_removeEntity g e hInv h.1 h.2
  | addComponent e t bytes =>
      have h := of_decide_eq_true hval
      exact inv_step_addComponent g e t bytes hInv h.1 h.2.1 h.2.2.1 h.2.2.2
  | removeComponent e t =>
      have h := of_decide_eq_true hval
      exact inv_step_removeComponent g e t hInv h.1 h.2.1 h.2.2.1 h.2.2.2.1 h.2.2.2.2
  | setComponent e t bytes =>
      have h := of_decide_eq_true hval
      exact inv_step_setComponent g e t bytes hInv h.1 h.2.2.1
  | shareComponent e donor t =>
      have h := of_decide_eq_true hval
      exact inv_step_shareComponent g e donor t hInv h.1 h.2.1 h.2.2.1 h.2.2.2
  | setActive e b =>
      exact absurd hval (by simp [validOp])
  | createSystem req p =>
      have hv : (!req.isEmpty && req.all (fun r => decide (r < g.C))) = true := hval
      rw [Bool.and_eq_true] at hv
      refine inv_step_createSystem g req p hInv ?_ ?_
      · intro hc
        rw [hc] at hv
        exact absurd hv.1 (by simp)
      · intro r hr
        exact of_decide_eq_true (List.all_eq_true.mp hv.2 r hr)

/-- The invariant holds along every valid trace. -/
theorem inv_applyAll : ∀ (ops : List Op) (g : Engine),
    validTrace g ops = true → EngInv g → EngInv (g.applyAll ops) := by
  intro ops
  induction ops with
  | nil => intro g _ h; exact h
  | cons op rest ih =>
      intro g hv h
      have hv' : validOp g op = true ∧ validTrace (g.apply op) rest = true := by
        have hb : (validOp g op && validTrace (g.apply op) rest) = true := hv
        rwa [Bool.and_eq_true] at hb
      have happ : g.applyAll (op :: rest) = (g.apply op).applyAll rest := rfl
      rw [happ]
      exact ih (g.apply op) hv'.2 (inv_step g op h hv'.1)

/-- The invariant holds of a freshly constructed engine whose component
id 0 is the one-byte trivially copyable `bool` active flag. -/
theorem inv_init (space : List ℕ) (triv : List Bool)
    (hspace : space.getD 0 0 = 1) (htriv : triv.getD 0 true = true)
    (hC : 0 < space.length) :
    EngInv (Engine.init space triv) := by
  have harr0 : ((Engine.init space triv).cm.m_componentArrays.getD 0 default)
      = ComponentArray.init 1 true := by
    unfold Engine.init ComponentManager.init
    dsimp only
    rw [getD_map_lt _ _ _ _ 0 (by simpa using hC)]
    rw [show (List.range space.length).getD 0 0 = 0 from by
      rw [List.getD_eq_getElem _ _ (by simpa using hC)]
      simp]
    rw [hspace, htriv]
  have hmap0 : ((Engine.init space triv).cm.m_indexMaps.getD 0 []) = [] := by
    unfold Engine.init ComponentManager.init
    dsimp only
    by_cases h0 : 0 < space.length
    · rw [List.getD_eq_getElem _ _ (by simpa using h0)]
      simp
    · omega
  refine ⟨hC, htriv, rfl, ?_, List.nodup_nil, ?_, ?_, ?_, ?_, ?_, ?_, ?_, ?_, ?_, ?_, ?_,
    ?_, ?_, ?_, ?_, ?_⟩
  · intro b hb
    exact absurd hb (List.not_mem_nil b)
  · intro x hx
    exact absurd hx (List.not_mem_nil x)
  · intro x hx
    exact absurd hx (List.not_mem_nil x)
  · intro x hx
    exact absurd hx (by simp [Engine.init, EntityManagerM.totalEntityCount])
  · show (0 : ℕ) + 0 + 2 ≤ SENTINEL
    norm_num [SENTINEL]
  · show ((List.range space.length).map _).length = space.length
    simp
  · show (List.replicate space.length (List.replicate 0 0)).length = space.length
    simp
  · intro t _
    exact Nat.zero_le _
  · rw [harr0]
    rfl
  · rw [harr0]
    rfl
  · rw [harr0]
    rfl
  · intro x hx
    exact absurd hx (by simp [Engine.init, EntityManagerM.totalEntityCount])
  · intro x y hx
    exact absurd hx (by simp [Engine.init, EntityManagerM.totalEntityCount])
  · intro x hx
    exact absurd hx (List.not_mem_nil x)
  · intro q _
    rw [hmap0]
    rfl
  · intro sup hm
    exact absurd hm (List.not_mem_nil sup)
  · intro sup hm
    exact absurd hm (List.not_mem_nil sup)

/-- A live entity reads back active through `ecs::active`: its `bool` record
byte is the `1` written at creation. -/
theorem activeE_of_live (g : Engine) (hInv : EngInv g) (e : ℕ)
    (he : e < g.em.totalEntityCount) (hrm : e ∉ g.em.m_removedEntities) :
    g.activeE e = true := by
  have hcont : g.em.contains e = true := by
    unfold EntityManagerM.contains
    simpa using he
  have htot : g.em.totalEntityCount
      = g.em.m_entityCount + g.em.m_removedEntities.length := rfl
  have hbe := hInv.bool_entry e he hrm
  have hplen := hInv.pool0_len
  have hbound := hInv.total_bound
  unfold Engine.activeE
  rw [if_neg (not_not_intro hcont)]
  dsimp only
  rw [if_neg (show ¬ (g.cm.m_indexMaps.getD 0 []).getD e SENTINEL = SENTINEL by omega)]
  rw [hbe.2.2]
  simp

/-- **C1 amended** (`system_membership_invariant`): over any sequence of
public calls that meets each call's documented precondition (valid ids,
add-when-absent / update-when-present, registered component ids, non-empty
requirements; `setActive` excluded — the counterexample
`C1_cx_inactive_entity_matched` shows it breaks the claim), every system's
entity list holds exactly the entities that are reported active and whose
bitmap covers the system's (necessarily non-empty) requirement.  This is
spec §8 P1 with `active(e)` read through `ecs::active` and with the stated
trace restriction. -/
theorem C1_amended_system_membership (space : List ℕ) (triv : List Bool)
    (hspace : space.getD 0 0 = 1) (htriv : triv.getD 0 true = true)
    (hC : 0 < space.length) (ops : List Op)
    (hv : validTrace (Engine.init space triv) ops = true) :
    ∀ sup ∈ ((Engine.init space triv).applyAll ops).sm.supplements, ∀ e : ℕ,
      e ∈ sup.entities
        ↔ (((Engine.init space triv).applyAll ops).activeE e = true
            ∧ sup.requirement ≠ []
            ∧ ∀ r ∈ sup.requirement,
              (((Engine.init space triv).applyAll ops).em.getBitmap e).getD r false
                = true) := by
  have hinv := inv_applyAll ops (Engine.init space triv) hv
    (inv_init space triv hspace htriv hC)
  intro sup hm e
  have hwf := hinv.sys_wf sup hm
  rw [hwf.mem_iff e]
  unfold EntityManagerM.getBitmap
  constructor
  · intro h
    have hl := reqsat_live _ hinv _ e h
    exact ⟨activeE_of_live _ hinv e hl.1 hl.2, h.1, h.2⟩
  · rintro ⟨_, h1, h2⟩
    exact ⟨h1, h2⟩

theorem C1_amended_system_membership_witness :
    ([1, 4] : List ℕ).getD 0 0 = 1
    ∧ ([true, true] : List Bool).getD 0 true = true
    ∧ 0 < ([1, 4] : List ℕ).length
    ∧ validTrace (Engine.init [1, 4] [true, true])
        [Op.createEntity, Op.createSystem [1] 5, Op.createEntity,
          Op.addComponent 0 1 [7, 0, 0, 0], Op.removeEntity 1] = true
    ∧ (∀ sup ∈ ((Engine.init [1, 4] [true, true]).applyAll
          [Op.createEntity, Op.createSystem [1] 5, Op.createEntity,
            Op.addComponent 0 1 [7, 0, 0, 0], Op.removeEntity 1]).sm.supplements,
        ∀ e : ℕ,
        e ∈ sup.entities
          ↔ (((Engine.init [1, 4] [true, true]).applyAll
                [Op.createEntity, Op.createSystem [1] 5, Op.createEntity,
                  Op.addComponent 0 1 [7, 0, 0, 0], Op.removeEntity 1]).activeE e = true
              ∧ sup.requirement ≠ []
              ∧ ∀ r ∈ sup.requirement,
                (((Engine.init [1, 4] [true, true]).applyAll
                  [Op.createEntity, Op.createSystem [1] 5, Op.createEntity,
                    Op.addComponent 0 1 [7, 0, 0, 0], Op.removeEntity 1]).em.getBitmap
                      e).getD r false = true)) :=
  ⟨by decide, by decide, by decide, by decide,
    C1_amended_system_membership [1, 4] [true, true] (by decide) (by decide) (by decide)
      [Op.createEntity, Op.createSystem [1] 5, Op.createEntity,
        Op.addComponent 0 1 [7, 0, 0, 0], Op.removeEntity 1] (by decide)⟩

/-- Trace restriction for C9: no `setComponent` calls.  A variable-size
`setComponent` corrupts absent entities' sentinels (C3), after which
`containsComponent` reports never-added types. -/
def noSetComponent : Op → Bool
  | .setComponent _ _ _ => false
  | _ => true

/-- All-types sentinel discipline: every index map holds the sentinel at
every not-yet-created position and at every removed id. -/
def MapsSent (cm : ComponentManager) (N : ℕ) (rmL : List ℕ) : Prop :=
  ∀ t : ℕ,
    (∀ p, N ≤ p → (cm.m_indexMaps.getD t []).getD p SENTINEL = SENTINEL)
    ∧ (∀ x ∈ rmL, (cm.m_indexMaps.getD t []).getD x SENTINEL = SENTINEL)

/-- `ComponentManager::remove` preserves the sentinel discipline: its entry
adjustment explicitly skips sentinels (ecs.h:1266), and the removed slot is
itself set to the sentinel. -/
theorem removeAt_maps_sent (cm : ComponentManager) (id idx e : ℕ) (N : ℕ) (rmL : List ℕ)
    (h : MapsSent cm N rmL) : MapsSent (cm.removeAt id idx e) N rmL := by
  have hgen : ∀ q, (cm.m_indexMaps.getD id []).getD q SENTINEL = SENTINEL →
      ((cm.removeAt id idx e).m_indexMaps.getD id []).getD q SENTINEL = SENTINEL := by
    intro q hq
    unfold ComponentManager.removeAt
    dsimp only
    by_cases hid : id < cm.m_indexMaps.length
    · rw [getD_set_self _ _ _ _ (by simpa using hid)]
      by_cases hql : q < (cm.m_indexMaps.getD id []).length
      · rw [getD_map_lt _ _ _ _ SENTINEL (by simpa using hql)]
        by_cases hqe : q = e
        · subst hqe
          rw [getD_set_self _ _ _ _ hql]
          rw [if_neg (by
            rintro ⟨_, hh⟩
            exact hh rfl)]
        · rw [getD_set_ne _ _ _ _ _ (fun hc => hqe hc.symm), hq]
          rw [if_neg (by
            rintro ⟨_, hh⟩
            exact hh rfl)]
      · rw [List.getD_eq_default _ _ (by
          rw [List.length_map, List.length_set]
          omega)]
    · rw [List.set_eq_of_length_le (by omega)]
      exact hq
  intro t
  by_cases hti : t = id
  · subst hti
    exact ⟨fun p hp => hgen p ((h t).1 p hp), fun x hx => hgen x ((h t).2 x hx)⟩
  · have hfr : (cm.removeAt id idx e).m_indexMaps.getD t []
        = cm.m_indexMaps.getD t [] := by
      unfold ComponentManager.removeAt
      dsimp only
      exact getD_set_ne _ _ _ _ _ (fun hc => hti hc.symm)
    rw [hfr]
    exact h t

/-- `ComponentManager::removeEntity` preserves the sentinel discipline. -/
theorem cm_removeEntity_maps_sent (cm : ComponentManager) (e : ℕ) (N : ℕ) (rmL : List ℕ)
    (h : MapsSent cm N rmL) : MapsSent (cm.removeEntity e) N rmL := by
  unfold ComponentManager.removeEntity
  generalize (List.range cm.m_indexMaps.length) = idxs
  induction idxs generalizing cm with
  | nil => exact h
  | cons i rest ih =>
      simp only [List.foldl_cons]
      apply ih
      dsimp only
      by_cases hs : (cm.m_indexMaps.getD i []).getD e SENTINEL = SENTINEL
      · rw [if_pos hs]
        exact h
      · rw [if_neg hs]
        exact removeAt_maps_sent cm i _ e N rmL h

/-- After `ComponentManager::removeEntity(e)` every type's entry for `e` is
the sentinel: the per-type loop either found it already a sentinel or set it. -/
theorem cm_removeEntity_entry_sent (cm : ComponentManager) (e : ℕ) :
    ∀ t, t < cm.m_indexMaps.length →
      ((cm.removeEntity e).m_indexMaps.getD t []).getD e SENTINEL = SENTINEL := by
  have hstep_sent : ∀ (cm0 : ComponentManager) (i : ℕ),
      (((fun cm id =>
          let index := (cm.m_indexMaps.getD id []).getD e SENTINEL
          if index = SENTINEL then cm else cm.removeAt id index e)
        cm0 i).m_indexMaps.getD i []).getD e SENTINEL = SENTINEL := by
    intro cm0 i
    dsimp only
    by_cases hs : (cm0.m_indexMaps.getD i []).getD e SENTINEL = SENTINEL
    · rw [if_pos hs]
      exact hs
    · rw [if_neg hs]
      unfold ComponentManager.removeAt
      dsimp only
      by_cases hid : i < cm0.m_indexMaps.length
      · rw [getD_set_self _ _ _ _ (by simpa using hid)]
        by_cases hel : e < (cm0.m_indexMaps.getD i []).length
        · rw [getD_map_lt _ _ _ _ SENTINEL (by simpa using hel),
            getD_set_self _ _ _ _ hel]
          rw [if_neg (by
            rintro ⟨_, hh⟩
            exact hh rfl)]
        · rw [List.getD_eq_default _ _ (by
            rw [List.length_map, List.length_set]
            omega)]
      · exact absurd (List.getD_eq_default (cm0.m_indexMaps.getD i []) SENTINEL (by
          rw [List.getD_eq_default cm0.m_indexMaps [] (by omega)]
          exact Nat.zero_le e)) hs
  have hpres : ∀ (idxs : List ℕ) (cm0 : ComponentManager) (t : ℕ),
      ((cm0.m_indexMaps.getD t []).getD e SENTINEL = SENTINEL) →
      (((idxs.foldl (fun cm id =>
          let index := (cm.m_indexMaps.getD id []).getD e SENTINEL
          if index = SENTINEL then cm else cm.removeAt id index e)
        cm0).m_indexMaps.getD t []).getD e SENTINEL = SENTINEL) := by
    intro idxs
    induction idxs with
    | nil => intro cm0 t h; exact h
    | cons i rest ih =>
        intro cm0 t h
        simp only [List.foldl_cons]
        apply ih
        dsimp only
        by_cases hs : (cm0.m_indexMaps.getD i []).getD e SENTINEL = SENTINEL
        · rw [if_pos hs]
          exact h
        · rw [if_neg hs]
          by_cases hti : t = i
          · subst hti
            exact absurd h hs
          · unfold ComponentManager.removeAt
            dsimp only
            rw [getD_set_ne _ _ _ _ _ (fun hc => hti hc.symm)]
            exact h
  have hmain : ∀ (idxs : List ℕ) (cm0 : ComponentManager) (t : ℕ), t ∈ idxs →
      (((idxs.foldl (fun cm id =>
          let index := (cm.m_indexMaps.getD id []).getD e SENTINEL
          if index = SENTINEL then cm else cm.removeAt id index e)
        cm0).m_indexMaps.getD t []).getD e SENTINEL = SENTINEL) := by
    intro idxs
    induction idxs with
    | nil => intro cm0 t h; exact absurd h (List.not_mem_nil t)
    | cons i rest ih =>
        intro cm0 t h
        simp only [List.foldl_cons]
        by_cases hti : t = i
        · subst hti
          exact hpres rest _ t (hstep_sent cm0 t)
        · rcases List.mem_cons.mp h with h1 | h1
          · exact absurd h1 hti
          · exact ih _ t h1
  intro t ht
  unfold ComponentManager.removeEntity
  exact hmain (List.range cm.m_indexMaps.length) cm t (List.mem_range.mpr ht)

/-- `ComponentManager::addEntity` preserves the sentinel discipline as the
entity count grows by at most one; it needs each materialised map to cover
the current count (so the new count's position is the pushed sentinel). -/
theorem cm_addEntity_maps_sent (cm : ComponentManager) (N N' : ℕ) (rmL : List ℕ)
    (h : MapsSent cm N rmL)
    (hN : N ≤ N') (hN1 : N' ≤ N + 1)
    (hge : ∀ t, t < cm.m_indexMaps.length → N ≤ (cm.m_indexMaps.getD t []).length)
    (hrm : ∀ x ∈ rmL, x < N) :
    MapsSent cm.addEntity N' rmL := by
  intro t
  unfold ComponentManager.addEntity
  dsimp only
  by_cases ht : t < cm.m_indexMaps.length
  · rw [getD_map_lt _ _ _ _ [] ht]
    constructor
    · intro p hp
      rw [getD_append_one]
      by_cases h1 : p < (cm.m_indexMaps.getD t []).length
      · rw [if_pos h1]
        exact (h t).1 p (by omega)
      · rw [if_neg h1]
        by_cases h2 : p = (cm.m_indexMaps.getD t []).length
        · rw [if_pos h2]
        · rw [if_neg h2]
    · intro x hx
      have hxN := hrm x hx
      have hlen := hge t ht
      rw [List.getD_append _ _ SENTINEL x (by omega)]
      exact (h t).2 x hx
  · rw [List.getD_eq_default _ _ (by
      rw [List.length_map]
      omega)]
    constructor
    · intro p _
      rfl
    · intro x _
      rfl

/-- Shape of `ecs::createEntity`'s effect on the component manager and the
entity registry: a sentinel slot pushed onto every index map, the new id's
`bool` entry pointing at the one-byte record appended to the `bool` pool,
one more live count, and the id gone from the recycle list. -/
theorem createEntity_parts (g : Engine) (hInv : EngInv g)
    (hbound : g.em.totalEntityCount + 3 ≤ SENTINEL) :
    ∃ rm2 bm4,
      ((g.createEntity).1.cm
          = ⟨g.cm.m_componentArrays.set 0
              { g.cm.m_componentArrays.getD 0 default with
                m_components :=
                  (g.cm.m_componentArrays.getD 0 default).m_components ++ [1] },
            (g.cm.m_indexMaps.map (fun m => m ++ [SENTINEL])).set 0
              ((g.cm.m_indexMaps.getD 0 [] ++ [SENTINEL]).set (g.createEntity).2
                (g.cm.m_componentArrays.getD 0 default).m_components.length)⟩)
      ∧ (g.createEntity).1.em.m_entityCount = g.em.m_entityCount + 1
      ∧ (g.createEntity).1.em.m_removedEntities = rm2
      ∧ (g.createEntity).1.em.m_componentBitmaps = bm4
      ∧ (g.createEntity).2 ≤ g.em.totalEntityCount
      ∧ ((g.createEntity).2 = g.em.totalEntityCount
          ∨ (g.createEntity).2 ∈ g.em.m_removedEntities)
      ∧ (∀ x, x ∈ rm2 ↔ (x ∈ g.em.m_removedEntities ∧ x ≠ (g.createEntity).2))
      ∧ g.em.totalEntityCount ≤ (g.createEntity).1.em.totalEntityCount
      ∧ (g.createEntity).1.em.totalEntityCount ≤ g.em.totalEntityCount + 1
      ∧ (g.createEntity).2 < (g.createEntity).1.em.totalEntityCount := by
  have htot : g.em.totalEntityCount
      = g.em.m_entityCount + g.em.m_removedEntities.length := rfl
  have hCm : 0 < g.cm.m_indexMaps.length := by
    rw [hInv.maps_len]
    exact hInv.hC
  by_cases hfresh : g.em.m_removedEntities.isEmpty = true
  · have hrm_nil : g.em.m_removedEntities = [] := List.isEmpty_iff.mp hfresh
    have hNcount : g.em.totalEntityCount = g.em.m_entityCount := by
      rw [htot, hrm_nil]
      simp
    have hbml : g.em.m_componentBitmaps.length = g.em.m_entityCount := by
      rw [hInv.bm_len, hNcount]
    have himlen := hInv.maps_ge 0 hInv.hC
    have he_entry : (g.cm.m_indexMaps.getD 0 [] ++ [SENTINEL]).getD
        g.em.m_entityCount SENTINEL = SENTINEL := by
      rw [getD_append_one]
      by_cases h1 : g.em.m_entityCount < (g.cm.m_indexMaps.getD 0 []).length
      · rw [if_pos h1]
        exact hInv.sent_hi _ (by omega)
      · rw [if_neg h1]
        by_cases h2 : g.em.m_entityCount = (g.cm.m_indexMaps.getD 0 []).length
        · rw [if_pos h2]
        · rw [if_neg h2]
    have hcont2 : (⟨g.em.m_entityCount + 1, g.em.m_removedEntities,
        (g.em.m_componentBitmaps ++ [List.replicate (g.C + 1) false]).set
          g.em.m_entityCount
          (((g.em.m_componentBitmaps ++ [List.replicate (g.C + 1) false]).getD
            g.em.m_entityCount []).set g.C true)⟩ : EntityManagerM).contains
          g.em.m_entityCount = true := by
      unfold EntityManagerM.contains EntityManagerM.totalEntityCount
      dsimp only
      simp only [decide_eq_true_eq]
      omega
    unfold Engine.createEntity EntityManagerM.createEntity
    dsimp only
    rw [hfresh]
    simp only [reduceIte]
    unfold Engine.addComponent
    rw [if_neg (not_not_intro hcont2)]
    dsimp only
    unfold ComponentManager.addComponent ComponentManager.addEntity
    dsimp only
    rw [show (List.map (fun m => m ++ [SENTINEL]) g.cm.m_indexMaps).getD 0 []
        = g.cm.m_indexMaps.getD 0 [] ++ [SENTINEL] from getD_map_lt _ _ _ _ [] hCm,
      he_entry, hInv.htriv]
    simp only [reduceIte]
    unfold ComponentArray.addComponentTriv
    rw [if_neg (not_not_intro rfl)]
    dsimp only
    try simp only [reduceIte]
    unfold Engine.addComponentConfiguration
    dsimp only
    unfold EntityManagerM.setComponentBit
    dsimp only
    rw [hrm_nil]
    refine ⟨[], _, rfl, rfl, rfl, rfl, by omega, Or.inl hNcount.symm, ?_, ?_, ?_, ?_⟩
    · intro x
      simp
    · show g.em.totalEntityCount ≤ g.em.m_entityCount + 1 + ([] : List ℕ).length
      simp only [List.length_nil]
      omega
    · show g.em.m_entityCount + 1 + ([] : List ℕ).length ≤ g.em.totalEntityCount + 1
      simp only [List.length_nil]
      omega
    · show g.em.m_entityCount < g.em.m_entityCount + 1 + ([] : List ℕ).length
      simp only [List.length_nil]
      omega
  · have hrm_ne : g.em.m_removedEntities ≠ [] := by
      intro hc
      exact hfresh (List.isEmpty_iff.mpr hc)
    have hfalse : g.em.m_removedEntities.isEmpty = false := by
      rw [← Bool.not_eq_true]
      exact hfresh
    have hrmlen : 1 ≤ g.em.m_removedEntities.length := by
      have := List.length_pos.mpr hrm_ne
      omega
    have hmem_e : g.em.m_removedEntities.getLastD 0 ∈ g.em.m_removedEntities :=
      getLastD_mem _ 0 hrm_ne
    have he_lt : g.em.m_removedEntities.getLastD 0 < g.em.totalEntityCount :=
      hInv.rm_lt _ hmem_e
    have he_entry : (g.cm.m_indexMaps.getD 0 [] ++ [SENTINEL]).getD
        (g.em.m_removedEntities.getLastD 0) SENTINEL = SENTINEL := by
      have himlen := hInv.maps_ge 0 hInv.hC
      rw [List.getD_append _ _ SENTINEL _ (by omega)]
      exact hInv.sent_rm _ hmem_e
    have hcont2 : (⟨g.em.m_entityCount + 1, g.em.m_removedEntities.dropLast,
        g.em.m_componentBitmaps.set (g.em.m_removedEntities.getLastD 0)
          ((g.em.m_componentBitmaps.getD (g.em.m_removedEntities.getLastD 0) []).set
            g.C true)⟩ : EntityManagerM).contains
          (g.em.m_removedEntities.getLastD 0) = true := by
      unfold EntityManagerM.contains EntityManagerM.totalEntityCount
      dsimp only
      rw [List.length_dropLast]
      simp only [decide_eq_true_eq]
      omega
    unfold Engine.createEntity EntityManagerM.createEntity
    dsimp only
    rw [hfalse]
    simp only [Bool.false_eq_true, if_false]
    unfold Engine.addComponent
    rw [if_neg (not_not_intro hcont2)]
    dsimp only
    unfold ComponentManager.addComponent ComponentManager.addEntity
    dsimp only
    rw [show (List.map (fun m => m ++ [SENTINEL]) g.cm.m_indexMaps).getD 0 []
        = g.cm.m_indexMaps.getD 0 [] ++ [SENTINEL] from getD_map_lt _ _ _ _ [] hCm,
      he_entry, hInv.htriv]
    simp only [reduceIte]
    unfold ComponentArray.addComponentTriv
    rw [if_neg (not_not_intro rfl)]
    dsimp only
    try simp only [reduceIte]
    unfold Engine.addComponentConfiguration
    dsimp only
    unfold EntityManagerM.setComponentBit
    dsimp only
    refine ⟨g.em.m_removedEntities.dropLast, _, rfl, rfl, rfl, rfl, by omega, Or.inr hmem_e, ?_, ?_, ?_, ?_⟩
    · intro x
      constructor
      · intro hx
        refine ⟨(List.dropLast_sublist _).subset hx, ?_⟩
        intro hc
        rw [hc] at hx
        exact getLastD_not_mem_dropLast _ 0 hInv.rm_nodup hrm_ne hx
      · rintro ⟨hx1, hx2⟩
        by_contra hnx
        exact hx2 (eq_getLastD_of_not_mem_dropLast _ 0 x hrm_ne hx1 hnx)
    · show g.em.totalEntityCount
          ≤ g.em.m_entityCount + 1 + g.em.m_removedEntities.dropLast.length
      rw [List.length_dropLast]
      omega
    · show g.em.m_entityCount + 1 + g.em.m_removedEntities.dropLast.length
          ≤ g.em.totalEntityCount + 1
      rw [List.length_dropLast]
      omega
    · show g.em.m_removedEntities.getLastD 0
          < g.em.m_entityCount + 1 + g.em.m_removedEntities.dropLast.length
      rw [List.length_dropLast]
      omega

/-- `ComponentManager::removeEntity` keeps the number of index maps. -/
theorem cm_removeEntity_maps_length (cm : ComponentManager) (e : ℕ) :
    (cm.removeEntity e).m_indexMaps.length = cm.m_indexMaps.length := by
  unfold ComponentManager.removeEntity
  generalize (List.range cm.m_indexMaps.length) = idxs
  induction idxs generalizing cm with
  | nil => rfl
  | cons i rest ih =>
      simp only [List.foldl_cons]
      rw [ih]
      try dsimp only
      by_cases hs : (cm.m_indexMaps.getD i []).getD e SENTINEL = SENTINEL
      · rw [if_pos hs]
      · rw [if_neg hs]
        unfold ComponentManager.removeAt
        dsimp only
        rw [List.length_set]

/-- Overwriting a live entity's own entry in one index map preserves the
sentinel discipline: the sentinel positions are exactly the non-live ones. -/
theorem rows_set_sent (M : List (List ℕ)) (t e v : ℕ) (N : ℕ) (rmL : List ℕ)
    (h : ∀ t' : ℕ, (∀ p, N ≤ p → (M.getD t' []).getD p SENTINEL = SENTINEL)
      ∧ (∀ x ∈ rmL, (M.getD t' []).getD x SENTINEL = SENTINEL))
    (he : e < N) (herm : e ∉ rmL) :
    ∀ t' : ℕ, (∀ p, N ≤ p →
        (((M.set t ((M.getD t []).set e v)).getD t' []).getD p SENTINEL = SENTINEL))
      ∧ (∀ x ∈ rmL,
        (((M.set t ((M.getD t []).set e v)).getD t' []).getD x SENTINEL = SENTINEL)) := by
  intro t'
  by_cases ht' : t' = t
  · subst ht'
    by_cases htl : t' < M.length
    · rw [getD_set_self _ _ _ _ htl]
      constructor
      · intro p hp
        rw [getD_set_ne _ _ _ _ _ (show e ≠ p by omega)]
        exact (h t').1 p hp
      · intro x hx
        rw [getD_set_ne _ _ _ _ _ (show e ≠ x from fun hc => herm (by
          rw [hc]
          exact hx))]
        exact (h t').2 x hx
    · rw [List.set_eq_of_length_le (show M.length ≤ t' by omega)]
      exact h t'
  · rw [getD_set_ne _ _ _ _ _ (fun hc => ht' hc.symm)]
    exact h t'

/-- `ComponentManager::addComponent` preserves the sentinel discipline when
the entity is a live one: only the live entity's own entry changes. -/
theorem cm_addComponent_maps_sent (cm : ComponentManager) (t e : ℕ) (bytes : List ℕ)
    (tr : Bool) (N : ℕ) (rmL : List ℕ) (h : MapsSent cm N rmL)
    (he : e < N) (herm : e ∉ rmL) :
    MapsSent (cm.addComponent t e bytes tr).1 N rmL := by
  unfold ComponentManager.addComponent
  dsimp only
  by_cases herr : (if tr
      then (cm.m_componentArrays.getD t default).addComponentTriv
        ((cm.m_indexMaps.getD t []).getD e SENTINEL) bytes
      else (cm.m_componentArrays.getD t default).addComponentCompl
        ((cm.m_indexMaps.getD t []).getD e SENTINEL) bytes).2.2 = true
  · rw [if_pos herr]
    exact h
  · rw [if_neg herr]
    exact rows_set_sent cm.m_indexMaps t e _ N rmL h he herm

/-- `ComponentManager::share` preserves the sentinel discipline when the
receiver is a live entity. -/
theorem cm_share_maps_sent (cm : ComponentManager) (t e donor : ℕ)
    (N : ℕ) (rmL : List ℕ) (h : MapsSent cm N rmL)
    (he : e < N) (herm : e ∉ rmL) :
    MapsSent (cm.share t e donor) N rmL := by
  unfold ComponentManager.share
  dsimp only
  by_cases hs : (cm.m_indexMaps.getD t []).getD e SENTINEL ≠ SENTINEL
  · rw [if_pos hs]
    exact rows_set_sent _ t e _ N rmL (removeAt_maps_sent cm t _ e N rmL h) he herm
  · rw [if_neg hs]
    exact rows_set_sent _ t e _ N rmL h he herm

/-- The all-types sentinel discipline as a state predicate: every index map
is the sentinel at every not-yet-created position and at every removed id. -/
def SentAll (g : Engine) : Prop :=
  MapsSent g.cm g.em.totalEntityCount g.em.m_removedEntities

/-- Each precondition-respecting call other than `setComponent` preserves the
all-types sentinel discipline. -/
theorem sent_step (g : Engine) (op : Op) (hInv : EngInv g)
    (hval : validOp g op = true) (hns : noSetComponent op = true)
    (hs : SentAll g) : SentAll (g.apply op) := by
  cases op with
  | createEntity =>
      have hbound : g.em.totalEntityCount + 3 ≤ SENTINEL := of_decide_eq_true hval
      obtain ⟨rm2, bm4, hcm, hcount, hrm2, hbm, hele, hdi, hrm2iff, hlo, hhi, heT⟩ :=
        createEntity_parts g hInv hbound
      show MapsSent (g.createEntity).1.cm (g.createEntity).1.em.totalEntityCount
        (g.createEntity).1.em.m_removedEntities
      rw [hcm, hrm2]
      have hM0 : 0 < g.cm.m_indexMaps.length := by
        rw [hInv.maps_len]
        exact hInv.hC
      intro t
      by_cases ht0 : t = 0
      · subst ht0
        rw [getD_set_self _ _ _ _ (by
          rw [List.length_map]
          exact hM0)]
        constructor
        · intro p hp
          rw [getD_set_ne _ _ _ _ _ (show (g.createEntity).2 ≠ p by omega), getD_append_one]
          by_cases h1 : p < (g.cm.m_indexMaps.getD 0 []).length
          · rw [if_pos h1]
            exact (hs 0).1 p (by omega)
          · rw [if_neg h1]
            by_cases h2 : p = (g.cm.m_indexMaps.getD 0 []).length
            · rw [if_pos h2]
            · rw [if_neg h2]
        · intro x hx
          obtain ⟨hxrm, hxe⟩ := (hrm2iff x).mp hx
          have hxN := hInv.rm_lt x hxrm
          have hlen := hInv.maps_ge 0 hInv.hC
          rw [getD_set_ne _ _ _ _ _ (fun hc => hxe hc.symm),
            List.getD_append _ _ SENTINEL x (by omega)]
          exact (hs 0).2 x hxrm
      · rw [getD_set_ne _ _ _ _ _ (fun hc => ht0 hc.symm)]
        by_cases htl : t < g.cm.m_indexMaps.length
        · rw [getD_map_lt _ _ _ _ [] htl]
          constructor
          · intro p hp
            rw [getD_append_one]
            by_cases h1 : p < (g.cm.m_indexMaps.getD t []).length
            · rw [if_pos h1]
              exact (hs t).1 p (by omega)
            · rw [if_neg h1]
              by_cases h2 : p = (g.cm.m_indexMaps.getD t []).length
              · rw [if_pos h2]
              · rw [if_neg h2]
          · intro x hx
            obtain ⟨hxrm, hxe⟩ := (hrm2iff x).mp hx
            have hxN := hInv.rm_lt x hxrm
            have hlen := hInv.maps_ge t (by
              rw [hInv.maps_len] at htl
              exact htl)
            rw [List.getD_append _ _ SENTINEL x (by omega)]
            exact (hs t).2 x hxrm
        · rw [List.getD_eq_default _ _ (by
            rw [List.length_map]
            omega)]
          exact ⟨fun p _ => rfl, fun x _ => rfl⟩
  | removeEntity e =>
      have hv : e < g.em.totalEntityCount ∧ e ∉ g.em.m_removedEntities :=
        of_decide_eq_true hval
      have hcont : g.em.contains e = true := decide_eq_true hv.1
      have hcnt := inv_count_pos g hInv e hv.1 hv.2
      show SentAll (g.removeEntity e)
      unfold Engine.removeEntity
      rw [if_neg (not_not_intro hcont)]
      show MapsSent (g.cm.removeEntity e)
        (EntityManagerM.removeEntity g.em g.C e).totalEntityCount
        (EntityManagerM.removeEntity g.em g.C e).m_removedEntities
      have hN : (EntityManagerM.removeEntity g.em g.C e).totalEntityCount
          = g.em.totalEntityCount := by
        unfold EntityManagerM.removeEntity EntityManagerM.totalEntityCount
        dsimp only
        rw [List.length_append, List.length_singleton]
        unfold EntityManagerM.totalEntityCount at hv
        omega
      have hR : (EntityManagerM.removeEntity g.em g.C e).m_removedEntities
          = g.em.m_removedEntities ++ [e] := rfl
      rw [hN, hR]
      have hbase := cm_removeEntity_maps_sent g.cm e g.em.totalEntityCount
        g.em.m_removedEntities hs
      intro t
      refine ⟨(hbase t).1, ?_⟩
      intro x hx
      rcases List.mem_append.mp hx with h1 | h1
      · exact (hbase t).2 x h1
      · simp only [List.mem_singleton] at h1
        subst h1
        by_cases htl : t < g.cm.m_indexMaps.length
        · exact cm_removeEntity_entry_sent g.cm x t htl
        · have hrow : (g.cm.removeEntity x).m_indexMaps.getD t [] = [] :=
            List.getD_eq_default _ _ (by
              rw [cm_removeEntity_maps_length]
              omega)
          rw [hrow]
          rfl
  | addComponent e t bytes =>
      have hv : e < g.em.totalEntityCount ∧ e ∉ g.em.m_removedEntities
          ∧ t < g.C ∧ (g.em.getBitmap e).getD t false = false := of_decide_eq_true hval
      have hcont : g.em.contains e = true := decide_eq_true hv.1
      show SentAll (g.addComponent e t bytes)
      unfold Engine.addComponent
      rw [if_neg (not_not_intro hcont)]
      dsimp only
      unfold Engine.addComponentConfiguration
      dsimp only
      exact cm_addComponent_maps_sent g.cm t e bytes (g.triv.getD t true)
        g.em.totalEntityCount g.em.m_removedEntities hs hv.1 hv.2.1
  | removeComponent e t =>
      have hv : e < g.em.totalEntityCount ∧ e ∉ g.em.m_removedEntities
          ∧ 0 < t ∧ t < g.C ∧ (g.em.getBitmap e).getD t false = true :=
        of_decide_eq_true hval
      have hcont : g.em.contains e = true := decide_eq_true hv.1
      show SentAll (g.removeComponent e t)
      unfold Engine.removeComponent
      rw [if_neg (not_not_intro hcont)]
      dsimp only
      by_cases hidx : (g.cm.m_indexMaps.getD t []).getD e SENTINEL = SENTINEL
      · rw [if_pos hidx]
        exact hs
      · rw [if_neg hidx]
        exact removeAt_maps_sent g.cm t _ e g.em.totalEntityCount
          g.em.m_removedEntities hs
  | setComponent e t bytes =>
      exact Bool.noConfusion hns
  | shareComponent e donor t =>
      have hv : e < g.em.totalEntityCount ∧ e ∉ g.em.m_removedEntities
          ∧ t < g.C ∧ (g.em.getBitmap e).getD t false = false := of_decide_eq_true hval
      have hcont : g.em.contains e = true := decide_eq_true hv.1
      show SentAll (g.shareComponent e donor t)
      unfold Engine.shareComponent
      rw [if_neg (not_not_intro hcont)]
      unfold Engine.addComponentConfiguration
      dsimp only
      exact cm_share_maps_sent g.cm t e donor g.em.totalEntityCount
        g.em.m_removedEntities hs hv.1 hv.2.1
  | setActive e b =>
      exact Bool.noConfusion hval
  | createSystem req p =>
      exact hs

/-- The sentinel discipline along any precondition-respecting trace without
`setComponent` calls. -/
theorem sent_applyAll : ∀ (ops : List Op) (g : Engine), EngInv g →
    validTrace g ops = true → ops.all noSetComponent = true →
    SentAll g → SentAll (g.applyAll ops) := by
  intro ops
  induction ops with
  | nil => intro g _ _ _ h; exact h
  | cons op rest ih =>
      intro g hInv hv hns h
      have hv' : validOp g op = true ∧ validTrace (g.apply op) rest = true := by
        have hb : (validOp g op && validTrace (g.apply op) rest) = true := hv
        rwa [Bool.and_eq_true] at hb
      have hns' : noSetComponent op = true ∧ rest.all noSetComponent = true := by
        rw [List.all_cons, Bool.and_eq_true] at hns
        exact hns
      have happ : g.applyAll (op :: rest) = (g.apply op).applyAll rest := rfl
      rw [happ]
      exact ih (g.apply op) (inv_step g op hInv hv'.1) hv'.2 hns'.2
        (sent_step g op hInv hv'.1 hns'.1 h)

/-- A fresh engine satisfies the sentinel discipline: no entity has been
created, every index map is empty. -/
theorem sent_init (space : List ℕ) (triv : List Bool) :
    SentAll (Engine.init space triv) := by
  have hrow : ∀ t, (Engine.init space triv).cm.m_indexMaps.getD t [] = [] := by
    intro t
    unfold Engine.init ComponentManager.init
    dsimp only
    by_cases ht : t < space.length
    · rw [List.getD_eq_getElem _ _ (by simpa using ht)]
      simp
    · rw [List.getD_eq_default _ _ (by simpa using ht)]
  intro t
  rw [hrow]
  exact ⟨fun p _ => rfl, fun x hx => absurd hx (List.not_mem_nil x)⟩

/-- **C9 amended**: the claim fails as stated on two counts
(`C9_cx_fresh_entity_contains_bool`): `createEntity` itself attaches the
built-in `bool` active component before returning, and a variable-size
`setComponent` can corrupt a removed id's sentinel (the C3 defect) so that a
recycled fresh id "contains" a never-added type.  Restricted to
precondition-respecting traces with no `setComponent` call, the intended
property holds: the entity returned by the next `createEntity` holds no
component of any registered or unregistered type other than the built-in
`bool` flag (id 0), which it does hold. -/
theorem C9_amended_fresh_entity_components (space : List ℕ) (triv : List Bool)
    (ops : List Op)
    (hspace : space.getD 0 0 = 1) (htriv : triv.getD 0 true = true)
    (hC : 0 < space.length)
    (hv : validTrace (Engine.init space triv) ops = true)
    (hns : ops.all noSetComponent = true)
    (hbound : ((Engine.init space triv).applyAll ops).em.totalEntityCount + 3
      ≤ SENTINEL) :
    (∀ t, 0 < t →
      ((((Engine.init space triv).applyAll ops).createEntity).1).containsComponentE t
        ((((Engine.init space triv).applyAll ops).createEntity).2) = false)
    ∧ ((((Engine.init space triv).applyAll ops).createEntity).1).containsComponentE 0
        ((((Engine.init space triv).applyAll ops).createEntity).2) = true := by
  have hInit := inv_init space triv hspace htriv hC
  have hInv := inv_applyAll ops (Engine.init space triv) hv hInit
  have hsent := sent_applyAll ops (Engine.init space triv) hInit hv hns
    (sent_init space triv)
  obtain ⟨rm2, bm4, hcm, hcount, hrm2, hbm, hele, hdi, hrm2iff, hlo, hhi, heT⟩ :=
    createEntity_parts ((Engine.init space triv).applyAll ops) hInv hbound
  have hM0 : 0 < ((Engine.init space triv).applyAll ops).cm.m_indexMaps.length := by
    rw [hInv.maps_len]
    exact hInv.hC
  have hmaps : ((((Engine.init space triv).applyAll ops).createEntity).1).cm.m_indexMaps
      = (((Engine.init space triv).applyAll ops).cm.m_indexMaps.map
          (fun m => m ++ [SENTINEL])).set 0
        ((((Engine.init space triv).applyAll ops).cm.m_indexMaps.getD 0 [] ++ [SENTINEL]).set
          ((((Engine.init space triv).applyAll ops).createEntity).2)
          ((((Engine.init space triv).applyAll ops).cm.m_componentArrays.getD 0
            default).m_components.length)) := by
    rw [hcm]
  constructor
  · intro t ht
    have hentry : (((((Engine.init space triv).applyAll ops).createEntity).1).cm.m_indexMaps.getD
          t []).getD ((((Engine.init space triv).applyAll ops).createEntity).2) SENTINEL
        = SENTINEL := by
      rw [hmaps, getD_set_ne _ _ _ _ _ (show (0 : ℕ) ≠ t by omega)]
      by_cases htl : t < ((Engine.init space triv).applyAll ops).cm.m_indexMaps.length
      · rw [getD_map_lt _ _ _ _ [] htl, getD_append_one]
        have hlen := hInv.maps_ge t (by
          rw [hInv.maps_len] at htl
          exact htl)
        by_cases h1 : (((Engine.init space triv).applyAll ops).createEntity).2
            < ((((Engine.init space triv).applyAll ops).cm.m_indexMaps.getD t [])).length
        · rw [if_pos h1]
          rcases hdi with hfresh | hrec
          · exact (hsent t).1 _ (by omega)
          · exact (hsent t).2 _ hrec
        · rw [if_neg h1]
          by_cases h2 : (((Engine.init space triv).applyAll ops).createEntity).2
              = ((((Engine.init space triv).applyAll ops).cm.m_indexMaps.getD t [])).length
          · rw [if_pos h2]
          · rw [if_neg h2]
      · have hrow : (((Engine.init space triv).applyAll ops).cm.m_indexMaps.map
            (fun m => m ++ [SENTINEL])).getD t [] = [] :=
          List.getD_eq_default _ _ (by
            rw [List.length_map]
            omega)
        rw [hrow]
        rfl
    show decide _ = false
    exact decide_eq_false (not_not_intro hentry)
  · have hlen0 := hInv.maps_ge 0 hInv.hC
    have hentry0 : (((((Engine.init space triv).applyAll ops).createEntity).1).cm.m_indexMaps.getD
          0 []).getD ((((Engine.init space triv).applyAll ops).createEntity).2) SENTINEL
        = ((((Engine.init space triv).applyAll ops).cm.m_componentArrays.getD 0
            default).m_components.length) := by
      rw [hmaps, getD_set_self _ _ _ _ (by
        rw [List.length_map]
        exact hM0)]
      exact getD_set_self _ _ _ _ (by
        rw [List.length_append, List.length_singleton]
        omega)
    have hplen := hInv.pool0_len
    have htot : ((Engine.init space triv).applyAll ops).em.totalEntityCount
        = ((Engine.init space triv).applyAll ops).em.m_entityCount
          + ((Engine.init space triv).applyAll ops).em.m_removedEntities.length := rfl
    show decide _ = true
    exact decide_eq_true (by
      rw [hentry0, hplen]
      omega)

/-- Closed instance of the amended C9 theorem: one component type besides the
built-in `bool`, one valid `createEntity`-only trace; the returned id 1 holds
the `bool` flag and nothing of type 1. -/
theorem C9_amended_fresh_entity_components_witness :
    ((((Engine.init [1, 4] [true, true]).applyAll [Op.createEntity]).createEntity).1).containsComponentE
        1 ((((Engine.init [1, 4] [true, true]).applyAll [Op.createEntity]).createEntity).2)
      = false
    ∧ ((((Engine.init [1, 4] [true, true]).applyAll [Op.createEntity]).createEntity).1).containsComponentE
        0 ((((Engine.init [1, 4] [true, true]).applyAll [Op.createEntity]).createEntity).2)
      = true := by
  have h := C9_amended_fresh_entity_components [1, 4] [true, true] [Op.createEntity]
    (by decide) (by decide) (by decide) (by decide) (by decide) (by decide)
  exact ⟨h.1 1 (by decide), h.2⟩
